import Mathlib

set_option maxRecDepth 100000

/-!
Verification development for the roqoqo-qasm transpiler (qoqo_qasm repository).

The Rust sources under src/roqoqo-qasm/src are shallowly embedded below:

* backend.rs    : Backend.circuit_iterator_to_qasm_str, QasmVersion, Qasm3Dialect
* interface.rs  : call_operation, call_circuit, gate_definition, ALLOWED_OPERATIONS,
                  NO_DEFINITION_REQUIRED_OPERATIONS
* parser.rs     : gate_dispatch, parse_single_rule / parse_qasm_file
* variable_gatherer.rs : TokenIterator, MutableCircuitParser, VariableGatherer,
                  function_argument_numbers, function_1_argument, function_2_arguments

Modelling conventions:
* Rust String is modelled as Lean String.  Parsing works on the underlying
  character lists.
* Rust usize is modelled as Nat (no operation in the translated code can
  overflow usize in a way any claim depends on).
* A value of the external type qoqo_calculator::CalculatorFloat is either a
  symbolic expression string or an f64.  An f64 is modelled exactly by the
  canonical mantissa/exponent pair of its shortest decimal representation
  (the digits Rust prints for it), so the Display and FromStr behaviour of
  f64 is exact in the model: Rust guarantees that printing an f64 and parsing
  the printed text yields the same f64 back.
* The pest grammar file grammars/qasm2_0.pest is not part of the sources
  available under src/; the statement grammar is modelled from the
  specification (spec.md section 4.2) as noted on the relevant definitions.
-/

/-- Dialect of OpenQASM 3.0 output, from backend.rs (enum Qasm3Dialect). -/
inductive Qasm3Dialect
| Vanilla
| Roqoqo
| Braket
deriving DecidableEq, Repr

/-- OpenQASM version selector, from backend.rs (enum QasmVersion). -/
inductive QasmVersion
| V2point0
| V3point0 (dialect : Qasm3Dialect)
deriving DecidableEq, Repr

/-- Rust Debug rendering of QasmVersion, as used in PragmaLoop error messages. -/
def qasmVersionDebug : QasmVersion → String
| QasmVersion.V2point0 => "V2point0"
| QasmVersion.V3point0 Qasm3Dialect.Vanilla => "V3point0(Vanilla)"
| QasmVersion.V3point0 Qasm3Dialect.Roqoqo => "V3point0(Roqoqo)"
| QasmVersion.V3point0 Qasm3Dialect.Braket => "V3point0(Braket)"

/-- Decimal digit character for a digit value below ten. -/
def digitChar10 (d : Nat) : Char := Char.ofNat (48 + d)

/-- Little-endian base-ten digits of a natural number, computed with a fuel
argument so that the definition is structurally recursive (and therefore
reducible inside the kernel); with fuel at least n this agrees with
Nat.digits 10 n. -/
def digitsFuel : Nat → Nat → List Nat
| 0, _ => []
| _ + 1, 0 => []
| f + 1, n + 1 => (n + 1) % 10 :: digitsFuel f ((n + 1) / 10)

/-- Characters of a natural number in base ten, most significant first,
rendering 0 as the single character 0 (Rust Display of usize). -/
def natChars (n : Nat) : List Char :=
  if n = 0 then ['0'] else ((digitsFuel n n).map digitChar10).reverse

/-- Rust Display of a usize value. -/
def natRepr (n : Nat) : String := ⟨natChars n⟩

/-- Characters of an integer in base ten with a leading minus sign when
negative (Rust Display of an integer exponent). -/
def intChars (i : Int) : List Char :=
  if i < 0 then '-' :: natChars i.natAbs else natChars i.natAbs

/-- Model of the external type qoqo_calculator::CalculatorFloat: either a
concrete f64 or a free-form expression string.  The f64 is modelled exactly
by the mantissa/exponent pair of its shortest decimal form, canonical in the
sense of wfFloatPair below. -/
inductive CalculatorFloat
| Float (m : Int) (e : Int)
| Str (s : String)
deriving DecidableEq, Repr

/-- Canonical mantissa/exponent pairs: the mantissa is not divisible by ten
(so the decimal digit string carries no trailing zero), and zero is the pair
(0, 0).  Every f64 has exactly one such pair describing its shortest decimal
representation. -/
def wfFloatPair (m e : Int) : Prop := (m = 0 → e = 0) ∧ (m ≠ 0 → ¬ (10 ∣ m))

instance (m e : Int) : Decidable (wfFloatPair m e) := by
  unfold wfFloatPair; infer_instance

/-- Exact rational value of a mantissa/exponent pair. -/
def floatPairVal (m e : Int) : ℚ :=
  if 0 ≤ e then (m : ℚ) * (10 : ℚ) ^ e.toNat else (m : ℚ) / (10 : ℚ) ^ (-e).toNat

/-- Scientific-notation characters of a nonnegative mantissa with decimal
exponent, following the Rust formatter for the LowerExp trait: first digit,
then a point and the remaining digits if any, then the letter e and the
adjusted exponent. -/
def sciChars (n : Nat) (e : Int) : List Char :=
  let ds := natChars n
  let mantissa := ds.headD '0' :: (if ds.tail.isEmpty then [] else '.' :: ds.tail)
  mantissa ++ 'e' :: intChars (e + (ds.length - 1 : Nat))

/-- Rust Display of a CalculatorFloat (the Float case prints the f64 with the
LowerExp format, evidence: Display output 2e0 for 2.0 in the test suite). -/
def cfChars : CalculatorFloat → List Char
| CalculatorFloat.Float m e =>
    (if m < 0 then ['-'] else []) ++ sciChars m.natAbs e
| CalculatorFloat.Str s => s.data

/-- Rust Display of a CalculatorFloat as a Lean string. -/
def cfString (c : CalculatorFloat) : String := ⟨cfChars c⟩

/-- Error type of the translation direction, from roqoqo (external crate):
only the constructors the translated code produces are modelled. -/
inductive RoqoqoBackendError
| OperationNotInBackend (backend : String) (hqslang : String)
| GenericError (msg : String)
deriving DecidableEq, Repr

/-- The roqoqo Operation variants that the claims under verification touch,
with the fields the translated code reads.  Compound variants carry their
nested circuit as a list of operations (a roqoqo Circuit is an ordered
sequence of operations, spec.md section 3). -/
inductive Op
| RotateX (qubit : Nat) (theta : CalculatorFloat)
| RotateY (qubit : Nat) (theta : CalculatorFloat)
| RotateZ (qubit : Nat) (theta : CalculatorFloat)
| Hadamard (qubit : Nat)
| PauliX (qubit : Nat)
| PauliY (qubit : Nat)
| PauliZ (qubit : Nat)
| SGate (qubit : Nat)
| TGate (qubit : Nat)
| SqrtPauliX (qubit : Nat)
| InvSqrtPauliX (qubit : Nat)
| CNOT (control : Nat) (target : Nat)
| ControlledPauliY (control : Nat) (target : Nat)
| ControlledPauliZ (control : Nat) (target : Nat)
| SWAP (control : Nat) (target : Nat)
| Toffoli (control0 : Nat) (control1 : Nat) (target : Nat)
| PragmaActiveReset (qubit : Nat)
| MeasureQubit (qubit : Nat) (readout : String) (readoutIndex : Nat)
| DefinitionBit (name : String) (length : Nat) (isOutput : Bool)
| InputSymbolic (name : String) (input : CalculatorFloat)
| PragmaLoop (repetitions : CalculatorFloat) (circuit : List Op)
| PragmaConditional (conditionRegister : String) (conditionIndex : Nat) (circuit : List Op)
| PragmaRepeatedMeasurement (readout : String) (numberMeasurements : Nat)
    (qubitMapping : Option (List (Nat × Nat)))

/-- The hqslang name of each modelled operation (roqoqo). -/
def hqslang : Op → String
| Op.RotateX .. => "RotateX"
| Op.RotateY .. => "RotateY"
| Op.RotateZ .. => "RotateZ"
| Op.Hadamard _ => "Hadamard"
| Op.PauliX _ => "PauliX"
| Op.PauliY _ => "PauliY"
| Op.PauliZ _ => "PauliZ"
| Op.SGate _ => "SGate"
| Op.TGate _ => "TGate"
| Op.SqrtPauliX _ => "SqrtPauliX"
| Op.InvSqrtPauliX _ => "InvSqrtPauliX"
| Op.CNOT .. => "CNOT"
| Op.ControlledPauliY .. => "ControlledPauliY"
| Op.ControlledPauliZ .. => "ControlledPauliZ"
| Op.SWAP .. => "SWAP"
| Op.Toffoli .. => "Toffoli"
| Op.PragmaActiveReset _ => "PragmaActiveReset"
| Op.MeasureQubit .. => "MeasureQubit"
| Op.DefinitionBit .. => "DefinitionBit"
| Op.InputSymbolic .. => "InputSymbolic"
| Op.PragmaLoop .. => "PragmaLoop"
| Op.PragmaConditional .. => "PragmaConditional"
| Op.PragmaRepeatedMeasurement .. => "PragmaRepeatedMeasurement"

/-- Operations the backend silently ignores, from interface.rs
(ALLOWED_OPERATIONS). -/
def ALLOWED_OPERATIONS : List String :=
  ["PragmaGetDensityMatrix", "PragmaGetOccupationProbability", "PragmaGetPauliProduct",
   "PragmaGetStateVector", "PragmaSleep", "PragmaSetNumberOfMeasurements",
   "PragmaStartDecompositionBlock", "PragmaStopDecompositionBlock",
   "PragmaStopParallelBlock", "InputSymbolic", "PragmaGlobalPhase", "GateDefinition"]

/-- Operations that need no QASM gate definition, from interface.rs
(NO_DEFINITION_REQUIRED_OPERATIONS). -/
def NO_DEFINITION_REQUIRED_OPERATIONS : List String :=
  ["SingleQubitGate", "DefinitionFloat", "DefinitionUsize", "DefinitionBit",
   "DefinitionComplex", "PragmaActiveReset", "PragmaConditional", "PragmaGlobalPhase",
   "PragmaRepeatedMeasurement", "MeasureQubit", "PragmaLoop", "CallDefinedGate"]

/-- Qubits involved in an operation, from roqoqo (external crate; modelled
from the operation semantics the spec describes): gate operations involve
their qubit arguments, measurement involves the measured qubit, register
definitions involve no qubit, a bulk repeated measurement involves all
qubits, and compound pragmas involve the qubits of their nested circuit. -/
inductive InvolvedQubits
| All
| NoneInv
| SetInv (qubits : List Nat)

/-- Union of involved-qubit sets, All dominating. -/
def involvedUnion : InvolvedQubits → InvolvedQubits → InvolvedQubits
| InvolvedQubits.All, _ => InvolvedQubits.All
| _, InvolvedQubits.All => InvolvedQubits.All
| InvolvedQubits.NoneInv, x => x
| x, InvolvedQubits.NoneInv => x
| InvolvedQubits.SetInv a, InvolvedQubits.SetInv b => InvolvedQubits.SetInv (a ++ b)

mutual

/-- involved_qubits of one operation (roqoqo InvolveQubits trait). -/
def involved_qubits : Op → InvolvedQubits
| Op.RotateX q _ => InvolvedQubits.SetInv [q]
| Op.RotateY q _ => InvolvedQubits.SetInv [q]
| Op.RotateZ q _ => InvolvedQubits.SetInv [q]
| Op.Hadamard q => InvolvedQubits.SetInv [q]
| Op.PauliX q => InvolvedQubits.SetInv [q]
| Op.PauliY q => InvolvedQubits.SetInv [q]
| Op.PauliZ q => InvolvedQubits.SetInv [q]
| Op.SGate q => InvolvedQubits.SetInv [q]
| Op.TGate q => InvolvedQubits.SetInv [q]
| Op.SqrtPauliX q => InvolvedQubits.SetInv [q]
| Op.InvSqrtPauliX q => InvolvedQubits.SetInv [q]
| Op.CNOT c t => InvolvedQubits.SetInv [c, t]
| Op.ControlledPauliY c t => InvolvedQubits.SetInv [c, t]
| Op.ControlledPauliZ c t => InvolvedQubits.SetInv [c, t]
| Op.SWAP c t => InvolvedQubits.SetInv [c, t]
| Op.Toffoli c0 c1 t => InvolvedQubits.SetInv [c0, c1, t]
| Op.PragmaActiveReset q => InvolvedQubits.SetInv [q]
| Op.MeasureQubit q _ _ => InvolvedQubits.SetInv [q]
| Op.DefinitionBit .. => InvolvedQubits.NoneInv
| Op.InputSymbolic .. => InvolvedQubits.NoneInv
| Op.PragmaLoop _ c => circuit_involved_qubits c
| Op.PragmaConditional _ _ c => circuit_involved_qubits c
| Op.PragmaRepeatedMeasurement .. => InvolvedQubits.All

/-- involved_qubits of a whole circuit: union over its operations. -/
def circuit_involved_qubits : List Op → InvolvedQubits
| [] => InvolvedQubits.NoneInv
| op :: rest => involvedUnion (involved_qubits op) (circuit_involved_qubits rest)

end

/-- Plain decimal characters of the f64 with canonical pair (m, e), as the
Rust Display formatter prints it (no exponent; zeros written out). -/
def f64DisplayChars (m e : Int) : List Char :=
  (if m < 0 then ['-'] else []) ++
  (if 0 ≤ e then natChars m.natAbs ++ List.replicate e.toNat '0'
   else
     let k := (-e).toNat
     let ds := natChars m.natAbs
     let pad := if ds.length ≤ k then List.replicate (k + 1 - ds.length) '0' ++ ds else ds
     pad.take (pad.length - k) ++ '.' :: pad.drop (pad.length - k))

/-- Rust Debug characters of the f64 with canonical pair (m, e): like Display
but integral values keep one zero fraction digit. -/
def f64DebugChars (m e : Int) : List Char :=
  f64DisplayChars m e ++ (if 0 ≤ e then ['.', '0'] else [])

/-- Rust Debug of a CalculatorFloat value. -/
def cfDebug : CalculatorFloat → String
| CalculatorFloat.Float m e => "Float(" ++ (⟨f64DebugChars m e⟩ : String) ++ ")"
| CalculatorFloat.Str s => "Str(\"" ++ s ++ "\")"

mutual

/-- Modelled from the spec: the textual debug form of an operation from the
external roqoqo crate (spec.md section 4.1 only requires that the extension
dialect escape statement carries the repetition count and the nested circuit
in textual form; the test suite shows the shape Name(Name \x7b field: value \x7d)).
No claim under verification constrains these bytes. -/
def opDebugInner : Op → String
| Op.RotateX q t => "RotateX \x7b qubit: " ++ natRepr q ++ ", theta: " ++ cfDebug t ++ " \x7d"
| Op.RotateY q t => "RotateY \x7b qubit: " ++ natRepr q ++ ", theta: " ++ cfDebug t ++ " \x7d"
| Op.RotateZ q t => "RotateZ \x7b qubit: " ++ natRepr q ++ ", theta: " ++ cfDebug t ++ " \x7d"
| Op.Hadamard q => "Hadamard \x7b qubit: " ++ natRepr q ++ " \x7d"
| Op.PauliX q => "PauliX \x7b qubit: " ++ natRepr q ++ " \x7d"
| Op.PauliY q => "PauliY \x7b qubit: " ++ natRepr q ++ " \x7d"
| Op.PauliZ q => "PauliZ \x7b qubit: " ++ natRepr q ++ " \x7d"
| Op.SGate q => "SGate \x7b qubit: " ++ natRepr q ++ " \x7d"
| Op.TGate q => "TGate \x7b qubit: " ++ natRepr q ++ " \x7d"
| Op.SqrtPauliX q => "SqrtPauliX \x7b qubit: " ++ natRepr q ++ " \x7d"
| Op.InvSqrtPauliX q => "InvSqrtPauliX \x7b qubit: " ++ natRepr q ++ " \x7d"
| Op.CNOT c t => "CNOT \x7b control: " ++ natRepr c ++ ", target: " ++ natRepr t ++ " \x7d"
| Op.ControlledPauliY c t =>
    "ControlledPauliY \x7b control: " ++ natRepr c ++ ", target: " ++ natRepr t ++ " \x7d"
| Op.ControlledPauliZ c t =>
    "ControlledPauliZ \x7b control: " ++ natRepr c ++ ", target: " ++ natRepr t ++ " \x7d"
| Op.SWAP c t => "SWAP \x7b control: " ++ natRepr c ++ ", target: " ++ natRepr t ++ " \x7d"
| Op.Toffoli c0 c1 t =>
    "Toffoli \x7b control_0: " ++ natRepr c0 ++ ", control_1: " ++ natRepr c1 ++
      ", target: " ++ natRepr t ++ " \x7d"
| Op.PragmaActiveReset q => "PragmaActiveReset \x7b qubit: " ++ natRepr q ++ " \x7d"
| Op.MeasureQubit q r i =>
    "MeasureQubit \x7b qubit: " ++ natRepr q ++ ", readout: \"" ++ r ++
      "\", readout_index: " ++ natRepr i ++ " \x7d"
| Op.DefinitionBit n l o =>
    "DefinitionBit \x7b name: \"" ++ n ++ "\", length: " ++ natRepr l ++
      ", is_output: " ++ (if o then "true" else "false") ++ " \x7d"
| Op.InputSymbolic n i =>
    "InputSymbolic \x7b name: \"" ++ n ++ "\", input: " ++ cfDebug i ++ " \x7d"
| Op.PragmaLoop reps c =>
    "PragmaLoop \x7b repetitions: " ++ cfDebug reps ++ ", circuit: " ++
      circuit_display c ++ " \x7d"
| Op.PragmaConditional r i c =>
    "PragmaConditional \x7b condition_register: \"" ++ r ++ "\", condition_index: " ++
      natRepr i ++ ", circuit: " ++ circuit_display c ++ " \x7d"
| Op.PragmaRepeatedMeasurement r n _ =>
    "PragmaRepeatedMeasurement \x7b readout: \"" ++ r ++ "\", number_measurements: " ++
      natRepr n ++ " \x7d"

/-- Display of a roqoqo Circuit: one line per operation, the operation shown
as its enum tag applied to its debug form (evidence: the test suite line
pragma roqoqo PragmaLoop 2e0 Hadamard(Hadamard \x7b qubit: 0 \x7d)). -/
def circuit_display : List Op → String
| [] => ""
| op :: rest => hqslang op ++ "(" ++ opDebugInner op ++ ")\n" ++ circuit_display rest

end

/-- Rust saturating cast of the f64 with canonical pair (m, e) to usize:
negative values saturate to zero, positive values truncate toward zero. -/
def floatToUsize (m e : Int) : Nat :=
  if m ≤ 0 then 0
  else if 0 ≤ e then m.toNat * 10 ^ e.toNat
  else m.toNat / 10 ^ (-e).toNat

/-- QASM gate definition of one operation, from interface.rs
(gate_definition).  The GateDefinition variant of the source is outside the
modelled operation set; every other arm is ported verbatim. -/
def gate_definition (op : Op) (qasm_version : QasmVersion) :
    Except RoqoqoBackendError String :=
  match op with
  | Op.RotateX .. => Except.ok "gate rx(theta) a \x7b u3(theta,-pi/2,pi/2) a; \x7d"
  | Op.RotateY .. => Except.ok "gate ry(theta) a \x7b u3(theta,0,0) a; \x7d"
  | Op.RotateZ .. => Except.ok "gate rz(phi) a \x7b u1(phi) a; \x7d"
  | Op.PauliX _ => Except.ok "gate x a \x7b u3(pi,0,pi) a; \x7d"
  | Op.PauliY _ => Except.ok "gate y a \x7b u3(pi,pi/2,pi/2) a; \x7d"
  | Op.PauliZ _ => Except.ok "gate z a \x7b u1(pi) a; \x7d"
  | Op.SGate _ => Except.ok "gate s a \x7b u1(pi/2) a; \x7d"
  | Op.TGate _ => Except.ok "gate t a \x7b u1(pi/4) a; \x7d"
  | Op.Hadamard _ => Except.ok "gate h a \x7b u2(0,pi) a; \x7d"
  | Op.CNOT .. =>
      match qasm_version with
      | QasmVersion.V2point0 => Except.ok "gate cx c,t \x7b CX c,t; \x7d"
      | QasmVersion.V3point0 _ => Except.ok "gate cx c,t \x7b ctrl @ x c,t; \x7d"
  | Op.SqrtPauliX _ => Except.ok "gate sx a \x7b u1(-pi/2) a; u2(0,pi) a; u1(-pi/2) a; \x7d"
  | Op.InvSqrtPauliX _ => Except.ok "gate sxdg a \x7b u1(pi/2) a; u2(0,pi) a; u1(pi/2) a; \x7d"
  | Op.ControlledPauliY .. => Except.ok "gate cy a,b \x7b u1(-pi/2) b; cx a,b; u1(pi/2) b; \x7d"
  | Op.ControlledPauliZ .. => Except.ok "gate cz a,b \x7b u2(0,pi) b; cx a,b; u2(0,pi) b; \x7d"
  | Op.SWAP .. => Except.ok "gate swap a,b \x7b cx a,b; cx b,a; cx a,b; \x7d"
  | Op.Toffoli .. => Except.ok
      "gate ccx a,b,c \x7b u2(0,pi) c; cx b,c; u1(-pi/4) c; cx a,c; u1(pi/4) c; cx b,c; u1(-pi/4) c; cx a,c; u1(pi/4) b; u1(pi/4) c; u2(0,pi) c; cx a,b; u1(pi/4) a; u1(-pi/4) b; cx a,b; \x7d"
  | _ =>
      if NO_DEFINITION_REQUIRED_OPERATIONS.contains (hqslang op)
          || ALLOWED_OPERATIONS.contains (hqslang op) then
        Except.ok ""
      else
        Except.error (RoqoqoBackendError.OperationNotInBackend "QASM" (hqslang op))

/-- Register-indexed qubit text reg[i]. -/
def qidx (reg : String) (i : Nat) : String := reg ++ "[" ++ natRepr i ++ "]"

mutual

/-- Translation of one operation to QASM text, from interface.rs
(call_operation).  The variable_gatherer argument of the source is always
None on the paths the claims exercise (the backend passes no gatherer), and
mutating it never changes the returned text, so it is not modelled. -/
def call_operation (op : Op) (qubit_register_name : String)
    (qasm_version : QasmVersion) : Except RoqoqoBackendError String :=
  match op with
  | Op.RotateZ q theta =>
      Except.ok ("rz(" ++ cfString theta ++ ") " ++ qidx qubit_register_name q ++ ";")
  | Op.RotateX q theta =>
      Except.ok ("rx(" ++ cfString theta ++ ") " ++ qidx qubit_register_name q ++ ";")
  | Op.RotateY q theta =>
      Except.ok ("ry(" ++ cfString theta ++ ") " ++ qidx qubit_register_name q ++ ";")
  | Op.Hadamard q => Except.ok ("h " ++ qidx qubit_register_name q ++ ";")
  | Op.PauliX q => Except.ok ("x " ++ qidx qubit_register_name q ++ ";")
  | Op.PauliY q => Except.ok ("y " ++ qidx qubit_register_name q ++ ";")
  | Op.PauliZ q => Except.ok ("z " ++ qidx qubit_register_name q ++ ";")
  | Op.SGate q => Except.ok ("s " ++ qidx qubit_register_name q ++ ";")
  | Op.TGate q => Except.ok ("t " ++ qidx qubit_register_name q ++ ";")
  | Op.SqrtPauliX q =>
      match qasm_version with
      | QasmVersion.V3point0 Qasm3Dialect.Braket =>
          Except.ok ("v " ++ qidx qubit_register_name q ++ ";")
      | _ => Except.ok ("sx " ++ qidx qubit_register_name q ++ ";")
  | Op.InvSqrtPauliX q => Except.ok ("sxdg " ++ qidx qubit_register_name q ++ ";")
  | Op.CNOT c t =>
      match qasm_version with
      | QasmVersion.V3point0 Qasm3Dialect.Braket =>
          Except.ok ("cnot " ++ qidx qubit_register_name c ++ "," ++
            qidx qubit_register_name t ++ ";")
      | _ =>
          Except.ok ("cx " ++ qidx qubit_register_name c ++ "," ++
            qidx qubit_register_name t ++ ";")
  | Op.ControlledPauliY c t =>
      Except.ok ("cy " ++ qidx qubit_register_name c ++ "," ++
        qidx qubit_register_name t ++ ";")
  | Op.ControlledPauliZ c t =>
      Except.ok ("cz " ++ qidx qubit_register_name c ++ "," ++
        qidx qubit_register_name t ++ ";")
  | Op.SWAP c t =>
      Except.ok ("swap " ++ qidx qubit_register_name c ++ "," ++
        qidx qubit_register_name t ++ ";")
  | Op.Toffoli c0 c1 t =>
      Except.ok ("ccx " ++ qidx qubit_register_name c0 ++ "," ++
        qidx qubit_register_name c1 ++ "," ++ qidx qubit_register_name t ++ ";")
  | Op.PragmaConditional creg cidx circuit =>
      match qasm_version with
      | QasmVersion.V2point0 =>
          (conditional_v2_lines circuit qubit_register_name).map
            (fun lines =>
              String.intercalate "\n"
                (lines.map (fun s => "if(" ++ creg ++ "[" ++ natRepr cidx ++ "]==1) " ++ s)))
      | QasmVersion.V3point0 _ =>
          (call_circuit circuit qubit_register_name qasm_version).map
            (fun lines =>
              "if(" ++ creg ++ "[" ++ natRepr cidx ++ "]==1) \x7b\n" ++
                String.join lines ++ "\x7d")
  | Op.PragmaLoop repetitions circuit =>
      match qasm_version with
      | QasmVersion.V3point0 Qasm3Dialect.Roqoqo =>
          Except.ok ("pragma roqoqo PragmaLoop " ++ cfString repetitions ++ " " ++
            circuit_display circuit ++ ";")
      | QasmVersion.V3point0 Qasm3Dialect.Vanilla =>
          match repetitions with
          | CalculatorFloat.Float m e =>
              (call_circuit circuit qubit_register_name qasm_version).map
                (fun lines =>
                  "for uint i in [0:" ++ (⟨f64DisplayChars m e⟩ : String) ++ "] \x7b\n" ++
                    String.join (lines.map (fun s => "    " ++ s)) ++ "\n\x7d")
          | CalculatorFloat.Str x =>
              Except.error (RoqoqoBackendError.GenericError
                ("Used PragmaLoop with a string " ++ x ++
                  " for repetitions and a qasm-version that is incompatible: " ++
                  qasmVersionDebug qasm_version))
      | _ =>
          match repetitions with
          | CalculatorFloat.Float m e =>
              let n := floatToUsize m e
              if n = 0 then Except.ok ""
              else
                (call_circuit circuit qubit_register_name qasm_version).map
                  (fun lines => String.join (List.replicate n (String.join
                    (lines.map (fun s => s ++ "\n")))))
          | CalculatorFloat.Str x =>
              Except.error (RoqoqoBackendError.GenericError
                ("Used PragmaLoop with a string " ++ x ++
                  " for repetitions and a qasm-version that is incompatible: " ++
                  qasmVersionDebug qasm_version))
  | Op.PragmaRepeatedMeasurement readout n mapping =>
      let base :=
        match mapping with
        | none => "measure " ++ qubit_register_name ++ " -> " ++ readout ++ ";"
        | some qm =>
            String.join (qm.map (fun kv =>
              "measure " ++ qidx qubit_register_name kv.fst ++ " -> " ++
                qidx readout kv.snd ++ ";\n"))
      if qasm_version = QasmVersion.V3point0 Qasm3Dialect.Roqoqo then
        Except.ok (base ++ "\npragma roqoqo PragmaSetNumberOfMeasurements " ++
          natRepr n ++ " " ++ readout ++ ";")
      else Except.ok base
  | Op.PragmaActiveReset q =>
      Except.ok ("reset " ++ qidx qubit_register_name q ++ ";")
  | Op.MeasureQubit q readout ri =>
      Except.ok ("measure " ++ qidx qubit_register_name q ++ " -> " ++
        qidx readout ri ++ ";")
  | Op.DefinitionBit name len isOutput =>
      match qasm_version with
      | QasmVersion.V2point0 =>
          Except.ok ("creg " ++ name ++ "[" ++ natRepr len ++ "];")
      | QasmVersion.V3point0 Qasm3Dialect.Braket =>
          Except.ok ("bit[" ++ natRepr len ++ "] " ++ name ++ ";")
      | QasmVersion.V3point0 _ =>
          if isOutput then
            Except.ok ("output bit[" ++ natRepr len ++ "] " ++ name ++ ";")
          else Except.ok ("bit[" ++ natRepr len ++ "] " ++ name ++ ";")
  | Op.InputSymbolic name _ =>
      match qasm_version with
      | QasmVersion.V3point0 _ => Except.ok ("input float " ++ name ++ ";")
      | _ =>
          if ALLOWED_OPERATIONS.contains (hqslang op) then Except.ok ""
          else Except.error (RoqoqoBackendError.OperationNotInBackend "QASM" (hqslang op))

/-- Translation of a circuit to a list of QASM statements, from interface.rs
(call_circuit): one converted string per operation, the first error aborts. -/
def call_circuit (circuit : List Op) (qubit_register_name : String)
    (qasm_version : QasmVersion) : Except RoqoqoBackendError (List String) :=
  match circuit with
  | [] => Except.ok []
  | op :: rest => do
      let s ← call_operation op qubit_register_name qasm_version
      let r ← call_circuit rest qubit_register_name qasm_version
      Except.ok (s :: r)

/-- The iteration of the PragmaConditional arm of call_operation for OpenQASM
2.0: each nested operation is rejected if it is itself a PragmaConditional
and otherwise translated, in order. -/
def conditional_v2_lines (circuit : List Op) (qubit_register_name : String) :
    Except RoqoqoBackendError (List String) :=
  match circuit with
  | [] => Except.ok []
  | op :: rest =>
      match op with
      | Op.PragmaConditional .. =>
          Except.error (RoqoqoBackendError.GenericError
            "For OpenQASM 2.0 we cannot have nested PragmaConditional operations")
      | _ => do
          let s ← call_operation op qubit_register_name QasmVersion.V2point0
          let r ← conditional_v2_lines rest qubit_register_name
          Except.ok (s :: r)

end

/-- Maximum element of an involved-qubit list, zero when empty, from the
pre-scan in backend.rs (involved_qubits.iter().max()). -/
def maxOrZero (l : List Nat) : Nat :=
  match l.max? with
  | none => 0
  | some n => n

/-- One step of the pre-scan of backend.rs updating the running maximum
qubit index: only operations with an explicit involved-qubit set count. -/
def qubitsRequiredStep (acc : Nat) (op : Op) : Nat :=
  match involved_qubits op with
  | InvolvedQubits.SetInv l => Nat.max acc (maxOrZero l)
  | _ => acc

/-- The loop body of backend.rs circuit_iterator_to_qasm_str: walks the
operations once, accumulating the definition block, the statement block and
the running maximum qubit index.  The checks on emptiness of the accumulated
strings mirror the source exactly. -/
def gen_fold (qubit_register_name : String) (qasm_version : QasmVersion) :
    List Op → List String → Nat → String → String →
    Except RoqoqoBackendError (String × String × Nat)
| [], _, nreq, defs, data => Except.ok (defs, data, nreq)
| op :: rest, seen, nreq, defs, data => do
    let nreq := qubitsRequiredStep nreq op
    let (seen, defs) ←
      if seen.contains (hqslang op) then Except.ok (seen, defs)
      else do
        let d ← gate_definition op qasm_version
        let defs := defs ++ d
        let defs := if defs.isEmpty then defs else defs ++ "\n"
        Except.ok (seen ++ [hqslang op], defs)
    let s ← call_operation op qubit_register_name qasm_version
    let data := data ++ s
    let data := if data.isEmpty then data else data ++ "\n"
    gen_fold qubit_register_name qasm_version rest seen nreq defs data

/-- The fixed part of the definitions block (backend.rs): the three generic
single-qubit helpers, then the basis definitions of RotateX, RotateY, RotateZ
and CNOT, each followed by a newline. -/
def fixed_definitions (qasm_version : QasmVersion) : Except RoqoqoBackendError String := do
  let d0 := "gate u3(theta,phi,lambda) q \x7b U(theta,phi,lambda) q; \x7d\n" ++
    "gate u2(phi,lambda) q \x7b U(pi/2,phi,lambda) q; \x7d\n" ++
    "gate u1(lambda) q \x7b U(0,0,lambda) q; \x7d\n"
  let rx ← gate_definition (Op.RotateX 0 (CalculatorFloat.Float 0 0)) qasm_version
  let ry ← gate_definition (Op.RotateY 0 (CalculatorFloat.Float 0 0)) qasm_version
  let rz ← gate_definition (Op.RotateZ 0 (CalculatorFloat.Float 0 0)) qasm_version
  let cx ← gate_definition (Op.CNOT 0 1) qasm_version
  Except.ok (d0 ++ rx ++ "\n" ++ ry ++ "\n" ++ rz ++ "\n" ++ cx ++ "\n")

/-- The quantum-register declaration line of backend.rs: qreg syntax for
OpenQASM 2.0 and qubit syntax for OpenQASM 3.0, sized by the argument. -/
def qubit_register_declaration (qasm_version : QasmVersion)
    (qubit_register_name : String) (size : Nat) : String :=
  match qasm_version with
  | QasmVersion.V2point0 =>
      "qreg " ++ qubit_register_name ++ "[" ++ natRepr size ++ "];\n"
  | QasmVersion.V3point0 _ =>
      "qubit[" ++ natRepr size ++ "] " ++ qubit_register_name ++ ";\n"

/-- Translation of a whole circuit to one QASM string, from backend.rs
(Backend::circuit_iterator_to_qasm_str with the given register name and
version): version header, definition block, register declaration sized by
the pre-scan, then the statement block. -/
def circuit_iterator_to_qasm_str (qasm_version : QasmVersion)
    (qubit_register_name : String) (circuit : List Op) :
    Except RoqoqoBackendError String := do
  let header := "OPENQASM " ++
    (match qasm_version with
     | QasmVersion.V2point0 => "2.0;\n\n"
     | QasmVersion.V3point0 _ => "3.0;\n\n")
  let defs0 ← fixed_definitions qasm_version
  let (defs, data, nreq) ← gen_fold qubit_register_name qasm_version circuit
    ["RotateX", "RotateY", "RotateZ", "CNOT"] 0 defs0 ""
  Except.ok (header ++ defs ++
    qubit_register_declaration qasm_version qubit_register_name (nreq + 1) ++ data)

instance {ε α : Type} [DecidableEq ε] [DecidableEq α] : DecidableEq (Except ε α) :=
  fun x y =>
    match x, y with
    | Except.ok a, Except.ok b =>
        if h : a = b then Decidable.isTrue (by rw [h])
        else Decidable.isFalse (fun hh => by injection hh; contradiction)
    | Except.error a, Except.error b =>
        if h : a = b then Decidable.isTrue (by rw [h])
        else Decidable.isFalse (fun hh => by injection hh; contradiction)
    | Except.ok _, Except.error _ => Decidable.isFalse (fun hh => by injection hh)
    | Except.error _, Except.ok _ => Decidable.isFalse (fun hh => by injection hh)

/-- Error type of the external qoqo_calculator crate; only the variants the
sources under src/ construct or match are modelled. -/
inductive CalculatorError
| ParsingError (msg : String)
| FunctionNotFound (fct : String)
| DivisionByZero
| NotImplementedError (fct : String)
| UnexpectedEndOfExpression
| NoValueReturnedParsing
| NotEnoughFunctionArguments
| VariableNotSet (name : String)
deriving DecidableEq, Repr

/-- Expression token, from variable_gatherer.rs (enum Token).  A numeric
token carries its value as an exact rational: the f64 the Rust lexer stores
is identified with the exact value of the decimal literal it was read from
(see the module comment). -/
inductive Token
| Number (f : ℚ)
| Variable (s : String)
| Function (s : String)
| Plus
| Minus
| Multiply
| Divide
| Power
| Factorial
| DoubleFactorial
| BracketOpen
| BracketClose
| Assign
| VariableAssign (s : String)
| Comma
| EndOfExpression
| EndOfString
| Unrecognized
deriving DecidableEq, Repr

/-- Identifier continuation characters of the lexer: alphanumeric or
underscore (variable_gatherer.rs, the is_alphanumeric or underscore test;
ASCII suffices for all claim-relevant inputs). -/
def isIdentChar (c : Char) : Bool := c.isAlphanum || c = '_'

/-- Numeric value of a string of decimal digit characters. -/
def digitsVal (cs : List Char) : Nat :=
  cs.foldl (fun a c => a * 10 + (c.toNat - 48)) 0

/-- Rational value digits * 10 ^ exp for an integer exponent. -/
def qOfDigitsExp (digs : List Char) (exp : Int) : ℚ :=
  if 0 ≤ exp then (digitsVal digs : ℚ) * (10 : ℚ) ^ exp.toNat
  else (digitsVal digs : ℚ) / (10 : ℚ) ^ (-exp).toNat

/-- The exponent-digit parser of rustParseF64 below: an optional sign
followed by a nonempty digit run. -/
def parseExpDigits (ds : List Char) : Option Int :=
  match ds with
  | [] => none
  | c :: t =>
      if c = '+' then
        if !t.isEmpty && t.all (fun ch => ch.isDigit) then some (digitsVal t) else none
      else if c = '-' then
        if !t.isEmpty && t.all (fun ch => ch.isDigit) then some (-(digitsVal t : Int)) else none
      else
        if !(c :: t).isEmpty && (c :: t).all (fun ch => ch.isDigit) then
          some (digitsVal (c :: t))
        else none

/-- Exact model of f64::from_str on the numeric slices the lexer extracts:
optional exponent marker e or E with optional sign, mantissa digits with at
most one decimal point and at least one digit.  The resulting f64 is
identified with the exact decimal value (Rust rounds it to the nearest f64;
printing that f64 recovers the decimal exactly for every shortest-form
literal the code generator emits). -/
def rustParseF64 (cs : List Char) : Option ℚ :=
  let mant := cs.takeWhile (fun c => !(c = 'e' || c = 'E'))
  let rest := cs.dropWhile (fun c => !(c = 'e' || c = 'E'))
  let expOpt : Option Int :=
    match rest with
    | [] => some 0
    | _ :: t => parseExpDigits t
  match expOpt with
  | none => none
  | some ex =>
      let ip := mant.takeWhile (fun c => !(c = '.'))
      let r2 := mant.dropWhile (fun c => !(c = '.'))
      match r2 with
      | [] =>
          if !ip.isEmpty && ip.all (fun c => c.isDigit) then some (qOfDigitsExp ip ex)
          else none
      | _ :: frac =>
          if frac.contains '.' then none
          else if (ip ++ frac).isEmpty then none
          else if (ip ++ frac).all (fun c => c.isDigit) then
            some (qOfDigitsExp (ip ++ frac) (ex - frac.length))
          else none

/-- Length of the numeric slice the lexer consumes, from the number branch of
TokenIterator::next in variable_gatherer.rs: the maximal run of digits and
points, extended over an exponent marker with optional sign and its digit
run. -/
def numberSliceLen (cs : List Char) : Nat :=
  let end1 := (cs.takeWhile (fun c => c.isDigit || c = '.')).length
  let nextChar := (cs.drop end1).headD ' '
  if nextChar = 'e' || nextChar = 'E' then
    let start := if ((cs.drop (end1 + 1)).headD ' ' = '+')
        || ((cs.drop (end1 + 1)).headD ' ' = '-') then 2 else 1
    let endOffset := ((cs.drop (end1 + start)).takeWhile (fun c => c.isDigit)).length
    end1 + start + endOffset
  else end1

/-- The lexer of the Expression Engine, from variable_gatherer.rs
(TokenIterator::next): returns the next token and the remaining characters,
or none when the input is exhausted.  Every branch, including the cut of
exactly one extra character after an identifier whose lookahead token is an
assignment or an opening bracket, follows the source.  Two branches are
stated on the tail: when the head is a space it satisfies the whitespace
predicate, and when the head is alphabetic it satisfies the identifier
predicate, so dropping or taking from the full list equals consuming the
head first. -/
def nextTokenFuel : Nat → List Char → Option (Token × List Char)
| _, [] => none
| 0, _ :: _ => none
| fuel + 1, c :: rest =>
    if c = ' ' then
      let r := rest.dropWhile (fun ch => ch.isWhitespace)
      if r.isEmpty then some (Token.EndOfString, []) else nextTokenFuel fuel r
    else if c = '#' then
      let u := (rest.takeWhile (fun ch => !(ch = '\n'))).length
      let k2 := if u = rest.length then u else u + 1
      let r := rest.drop k2
      if r.isEmpty then some (Token.EndOfString, []) else nextTokenFuel fuel r
    else if c.isAlpha then
      let rn := rest.takeWhile isIdentChar
      let run := c :: rn
      let after := rest.drop rn.length
      match nextTokenFuel fuel after with
      | some (Token.Assign, _) =>
          some (Token.VariableAssign ⟨run⟩, rest.drop (rn.length + 1))
      | some (Token.BracketOpen, _) =>
          some (Token.Function ⟨run⟩, rest.drop (rn.length + 1))
      | _ => some (Token.Variable ⟨run⟩, after)
    else if c.isDigit || c = '.' then
      let k := numberSliceLen (c :: rest)
      let slice := (c :: rest).take k
      match rustParseF64 slice with
      | none => some (Token.Unrecognized, (c :: rest).drop k)
      | some q => some (Token.Number q, (c :: rest).drop k)
    else
      match c with
      | '+' => some (Token.Plus, rest)
      | '-' => some (Token.Minus, rest)
      | '*' =>
          match rest with
          | '*' :: rest2 => some (Token.Power, rest2)
          | _ => some (Token.Multiply, rest)
      | '/' => some (Token.Divide, rest)
      | '^' => some (Token.Power, rest)
      | '(' => some (Token.BracketOpen, rest)
      | ')' => some (Token.BracketClose, rest)
      | '=' => some (Token.Assign, rest)
      | ',' => some (Token.Comma, rest)
      | ';' => some (Token.EndOfExpression, rest)
      | '!' =>
          match rest with
          | '!' :: rest2 => some (Token.DoubleFactorial, rest2)
          | _ => some (Token.Factorial, rest)
      | _ => some (Token.Unrecognized, rest)

/-- The lexer entry point: the fuel bound never binds because every
recursive step of the source loop consumes at least one character. -/
def nextToken (cs : List Char) : Option (Token × List Char) :=
  nextTokenFuel (cs.length + 1) cs

/-- Arity gate of the Expression Engine, from variable_gatherer.rs
(function_argument_numbers): known arities for the supported profile, a
ParsingError naming the function for names that are recognized but not
supported in OpenQASM 3.0, FunctionNotFound otherwise.  Ported verbatim. -/
def function_argument_numbers (input : String) : Except CalculatorError Nat :=
  match input with
  | "sin" => Except.ok 1
  | "cos" => Except.ok 1
  | "abs" => Except.error (CalculatorError.ParsingError
      "Function abs is not supported in OpenQASM 3.0.")
  | "tan" => Except.ok 1
  | "acos" => Except.ok 1
  | "asin" => Except.ok 1
  | "atan" => Except.ok 1
  | "cosh" => Except.error (CalculatorError.ParsingError
      "Function cosh is not supported in OpenQASM 3.0.")
  | "sinh" => Except.error (CalculatorError.ParsingError
      "Function sinh is not supported in OpenQASM 3.0.")
  | "tanh" => Except.error (CalculatorError.ParsingError
      "Function tanh is not supported in OpenQASM 3.0.")
  | "acosh" => Except.error (CalculatorError.ParsingError
      "Function acosh is not supported in OpenQASM 3.0.")
  | "asinh" => Except.error (CalculatorError.ParsingError
      "Function asinh is not supported in OpenQASM 3.0.")
  | "atanh" => Except.error (CalculatorError.ParsingError
      "Function atanh is not supported in OpenQASM 3.0.")
  | "arcosh" => Except.error (CalculatorError.ParsingError
      "Function arcosh is not supported in OpenQASM 3.0.")
  | "arsinh" => Except.error (CalculatorError.ParsingError
      "Function arsinh is not supported in OpenQASM 3.0.")
  | "artanh" => Except.error (CalculatorError.ParsingError
      "Function artanh is not supported in OpenQASM 3.0.")
  | "exp" => Except.ok 1
  | "exp2" => Except.error (CalculatorError.ParsingError
      "Function exp2 is not supported in OpenQASM 3.0.")
  | "expm1" => Except.error (CalculatorError.ParsingError
      "Function expm1 is not supported in OpenQASM 3.0.")
  | "log" => Except.ok 1
  | "log10" => Except.error (CalculatorError.ParsingError
      "Function log10 is not supported in OpenQASM 3.0.")
  | "sqrt" => Except.ok 1
  | "cbrt" => Except.error (CalculatorError.ParsingError
      "Function cbrt is not supported in OpenQASM 3.0.")
  | "ceil" => Except.ok 1
  | "floor" => Except.ok 1
  | "fract" => Except.error (CalculatorError.ParsingError
      "Function fract is not supported in OpenQASM 3.0.")
  | "round" => Except.error (CalculatorError.ParsingError
      "Function round is not supported in OpenQASM 3.0.")
  | "erf" => Except.error (CalculatorError.ParsingError
      "Function erf is not supported in OpenQASM 3.0.")
  | "tgamma" => Except.error (CalculatorError.ParsingError
      "Function tgamma is not supported in OpenQASM 3.0.")
  | "lgamma" => Except.error (CalculatorError.ParsingError
      "Function lgamma is not supported in OpenQASM 3.0.")
  | "sign" => Except.ok 1
  | "delta" => Except.error (CalculatorError.ParsingError
      "Function delta is not supported in OpenQASM 3.0.")
  | "theta" => Except.error (CalculatorError.ParsingError
      "Function theta is not supported in OpenQASM 3.0.")
  | "parity" => Except.error (CalculatorError.ParsingError
      "Function parity is not supported in OpenQASM 3.0.")
  | "atan2" => Except.error (CalculatorError.ParsingError
      "Function atan2 is not supported in OpenQASM 3.0.")
  | "hypot" => Except.error (CalculatorError.ParsingError
      "Function hypot is not supported in OpenQASM 3.0.")
  | "pow" => Except.ok 2
  | "max" => Except.error (CalculatorError.ParsingError
      "Function max is not supported in OpenQASM 3.0.")
  | "min" => Except.error (CalculatorError.ParsingError
      "Function min is not supported in OpenQASM 3.0.")
  | _ => Except.error (CalculatorError.FunctionNotFound input)

/-- Numeric oracles for the mathematical functions of the Expression Engine.
The engine computes with f64; the model computes with exact rationals and
leaves the values of the transcendental functions abstract (no claim under
verification depends on a numeric function value), while success, failure
and variable registration are exact. -/
structure FnImpl where
  f1 : String → ℚ → ℚ
  f2 : String → ℚ → ℚ → ℚ
  powf : ℚ → ℚ → ℚ

/-- One-argument function evaluation, from variable_gatherer.rs
(function_1_argument): the list of recognized names is ported verbatim, the
numeric result of each is delegated to the oracle. -/
def function_1_argument (impl : FnImpl) (input : String) (arg0 : ℚ) :
    Except CalculatorError ℚ :=
  match input with
  | "sin" | "cos" | "abs" | "tan" | "acos" | "asin" | "atan" | "cosh" | "sinh"
  | "tanh" | "acosh" | "asinh" | "atanh" | "arcosh" | "arsinh" | "artanh"
  | "exp" | "exp2" | "expm1" | "log" | "log10" | "sqrt" | "cbrt" | "ceil"
  | "floor" | "fract" | "round" | "sign" | "delta" | "theta" =>
      Except.ok (impl.f1 input arg0)
  | _ => Except.error (CalculatorError.FunctionNotFound input)

/-- Two-argument function evaluation, from variable_gatherer.rs
(function_2_arguments). -/
def function_2_arguments (impl : FnImpl) (input : String) (arg0 arg1 : ℚ) :
    Except CalculatorError ℚ :=
  match input with
  | "atan2" | "hypot" | "pow" | "max" | "min" => Except.ok (impl.f2 input arg0 arg1)
  | _ => Except.error (CalculatorError.FunctionNotFound input)

/-- State of the expression parser, from variable_gatherer.rs
(MutableCircuitParser): the token under consideration, the characters not
yet lexed, and the set of registered variable names (the HashSet of the
VariableGatherer, modelled as a duplicate-free insertion-ordered list). -/
structure PState where
  currentToken : Token
  remaining : List Char
  vars : List String

/-- register_variable of the VariableGatherer: HashSet insertion. -/
def registerVariable (vars : List String) (name : String) : List String :=
  if vars.contains name then vars else vars ++ [name]

/-- Advance the parser state by one token, from variable_gatherer.rs
(MutableCircuitParser::next_token): the end of the character stream becomes
the EndOfString token. -/
def stateNextToken (st : PState) : PState :=
  match nextToken st.remaining with
  | none => { st with currentToken := Token.EndOfString, remaining := [] }
  | some (t, rest) => { st with currentToken := t, remaining := rest }

/-- Whether the expression parser resolves bare identifiers by registering
them and evaluating them as zero (the VariableGatherer of
variable_gatherer.rs does; the plain Calculator of the external
qoqo_calculator crate instead fails with VariableNotSet because the callers
in parser.rs never set any variable — the latter behaviour is modelled from
the spec, section 4.3, the Engine never resolves identifier values). -/
inductive VarMode
| Gather
| Reject
deriving DecidableEq, Repr

mutual

/-- evaluate_all_tokens of MutableCircuitParser: evaluate expressions
separated by semicolons until the end of the string, returning the value of
the last one.  The fuel argument only bounds the recursion depth; every
claim-relevant run terminates far below the bound the entry points pass. -/
def evaluate_all_tokens (impl : FnImpl) (mode : VarMode) :
    Nat → PState → Except CalculatorError (Option ℚ × PState)
| 0, _ => Except.error (CalculatorError.ParsingError "fuel exhausted")
| fuel + 1, st =>
    if st.currentToken = Token.EndOfString then Except.ok (none, st)
    else do
      let (v, st) ← evaluate_init impl mode fuel st
      let st := skipEndOfExpression fuel st
      evaluate_all_tokens_loop impl mode fuel v st

/-- The continuation of the evaluate_all_tokens loop after the first
expression: keep the latest value. -/
def evaluate_all_tokens_loop (impl : FnImpl) (mode : VarMode) :
    Nat → Option ℚ → PState → Except CalculatorError (Option ℚ × PState)
| 0, _, _ => Except.error (CalculatorError.ParsingError "fuel exhausted")
| fuel + 1, v, st =>
    if st.currentToken = Token.EndOfString then Except.ok (v, st)
    else do
      let (v2, st) ← evaluate_init impl mode fuel st
      let st := skipEndOfExpression fuel st
      evaluate_all_tokens_loop impl mode fuel v2 st
termination_by structural fuel => fuel

/-- The inner while loop of evaluate_all_tokens skipping semicolons. -/
def skipEndOfExpression : Nat → PState → PState
| 0, st => st
| fuel + 1, st =>
    if st.currentToken = Token.EndOfExpression then
      skipEndOfExpression fuel (stateNextToken st)
    else st
termination_by structural fuel => fuel

/-- evaluate_init of MutableCircuitParser. -/
def evaluate_init (impl : FnImpl) (mode : VarMode) :
    Nat → PState → Except CalculatorError (Option ℚ × PState)
| 0, _ => Except.error (CalculatorError.ParsingError "fuel exhausted")
| fuel + 1, st =>
    if st.currentToken = Token.EndOfExpression || st.currentToken = Token.EndOfString then
      Except.error CalculatorError.UnexpectedEndOfExpression
    else do
      let (v, st) ← evaluate_binary_1 impl mode fuel st
      Except.ok (some v, st)
termination_by structural fuel => fuel

/-- evaluate_binary_1 of MutableCircuitParser: sums and differences. -/
def evaluate_binary_1 (impl : FnImpl) (mode : VarMode) :
    Nat → PState → Except CalculatorError (ℚ × PState)
| 0, _ => Except.error (CalculatorError.ParsingError "fuel exhausted")
| fuel + 1, st => do
    let (res, st) ← evaluate_binary_2 impl mode fuel st
    evaluate_binary_1_loop impl mode fuel res st
termination_by structural fuel => fuel

/-- The while loop of evaluate_binary_1. -/
def evaluate_binary_1_loop (impl : FnImpl) (mode : VarMode) :
    Nat → ℚ → PState → Except CalculatorError (ℚ × PState)
| 0, _, _ => Except.error (CalculatorError.ParsingError "fuel exhausted")
| fuel + 1, res, st =>
    if st.currentToken = Token.Plus || st.currentToken = Token.Minus then do
      let bsum := st.currentToken = Token.Plus
      let st := stateNextToken st
      let (val, st) ← evaluate_binary_2 impl mode fuel st
      evaluate_binary_1_loop impl mode fuel (if bsum then res + val else res - val) st
    else Except.ok (res, st)
termination_by structural fuel => fuel

/-- evaluate_binary_2 of MutableCircuitParser: products and quotients, with
the division-by-zero check of the source. -/
def evaluate_binary_2 (impl : FnImpl) (mode : VarMode) :
    Nat → PState → Except CalculatorError (ℚ × PState)
| 0, _ => Except.error (CalculatorError.ParsingError "fuel exhausted")
| fuel + 1, st => do
    let (res, st) ← evaluate_binary_3 impl mode fuel st
    evaluate_binary_2_loop impl mode fuel res st
termination_by structural fuel => fuel

/-- The while loop of evaluate_binary_2. -/
def evaluate_binary_2_loop (impl : FnImpl) (mode : VarMode) :
    Nat → ℚ → PState → Except CalculatorError (ℚ × PState)
| 0, _, _ => Except.error (CalculatorError.ParsingError "fuel exhausted")
| fuel + 1, res, st =>
    if st.currentToken = Token.Multiply || st.currentToken = Token.Divide then do
      let bmul := st.currentToken = Token.Multiply
      let st := stateNextToken st
      let (val, st) ← evaluate_binary_3 impl mode fuel st
      if bmul then evaluate_binary_2_loop impl mode fuel (res * val) st
      else if val = 0 then Except.error CalculatorError.DivisionByZero
      else evaluate_binary_2_loop impl mode fuel (res / val) st
    else Except.ok (res, st)
termination_by structural fuel => fuel

/-- evaluate_binary_3 of MutableCircuitParser: powers, with the factorial
forms recognized but deliberately unimplemented. -/
def evaluate_binary_3 (impl : FnImpl) (mode : VarMode) :
    Nat → PState → Except CalculatorError (ℚ × PState)
| 0, _ => Except.error (CalculatorError.ParsingError "fuel exhausted")
| fuel + 1, st => do
    let (res, st) ← evaluate_unary impl mode fuel st
    match st.currentToken with
    | Token.DoubleFactorial =>
        Except.error (CalculatorError.NotImplementedError "DoubleFactorial")
    | Token.Factorial => Except.error (CalculatorError.NotImplementedError "Factorial")
    | Token.Power => do
        let st := stateNextToken st
        let (v, st) ← evaluate_unary impl mode fuel st
        Except.ok (impl.powf res v, st)
    | _ => Except.ok (res, st)
termination_by structural fuel => fuel

/-- evaluate_unary of MutableCircuitParser: unary signs. -/
def evaluate_unary (impl : FnImpl) (mode : VarMode) :
    Nat → PState → Except CalculatorError (ℚ × PState)
| 0, _ => Except.error (CalculatorError.ParsingError "fuel exhausted")
| fuel + 1, st => do
    let (prefactor, st) :=
      match st.currentToken with
      | Token.Minus => ((-1 : ℚ), stateNextToken st)
      | Token.Plus => ((1 : ℚ), stateNextToken st)
      | _ => ((1 : ℚ), st)
    let (v, st) ← evaluate impl mode fuel st
    Except.ok (prefactor * v, st)
termination_by structural fuel => fuel

/-- evaluate of MutableCircuitParser: parentheses, numbers, bare identifiers
and function calls.  In Gather mode a bare identifier is registered into the
variable set and evaluates to zero (variable_gatherer.rs); in Reject mode it
is a VariableNotSet error (the plain Calculator behaviour, modelled from the
spec, used by the assembly parser on numeric parameters). -/
def evaluate (impl : FnImpl) (mode : VarMode) :
    Nat → PState → Except CalculatorError (ℚ × PState)
| 0, _ => Except.error (CalculatorError.ParsingError "fuel exhausted")
| fuel + 1, st =>
    match st.currentToken with
    | Token.BracketOpen => do
        let st := stateNextToken st
        let (resInit, st) ← evaluate_init impl mode fuel st
        match resInit with
        | none => Except.error (CalculatorError.ParsingError "Unexpected None return")
        | some res =>
            if st.currentToken ≠ Token.BracketClose then
              Except.error (CalculatorError.ParsingError "Expected Braket close")
            else Except.ok (res, stateNextToken st)
    | Token.Number vf => Except.ok (vf, stateNextToken st)
    | Token.Variable vs =>
        match mode with
        | VarMode.Gather =>
            let st := stateNextToken st
            Except.ok (0, { st with vars := registerVariable st.vars vs })
        | VarMode.Reject => Except.error (CalculatorError.VariableNotSet vs)
    | Token.Function vs => do
        let st := stateNextToken st
        let numberArguments ← function_argument_numbers vs
        let (heap, st) ← evaluate_arguments impl mode fuel numberArguments numberArguments st
        if st.currentToken ≠ Token.BracketClose then
          Except.error (CalculatorError.ParsingError "Expected braket close.")
        else
          let st := stateNextToken st
          match numberArguments with
          | 1 => do
              let h0 ← match heap.head? with
                | none => Except.error CalculatorError.NotEnoughFunctionArguments
                | some x => Except.ok x
              let r ← function_1_argument impl vs h0
              Except.ok (r, st)
          | 2 => do
              let h0 ← match heap.head? with
                | none => Except.error CalculatorError.NotEnoughFunctionArguments
                | some x => Except.ok x
              let h1 ← match heap.get? 1 with
                | none => Except.error CalculatorError.NotEnoughFunctionArguments
                | some x => Except.ok x
              let r ← function_2_arguments impl vs h0 h1
              Except.ok (r, st)
          | _ => Except.error (CalculatorError.ParsingError "Unsupported number of arguments.")
    | _ => Except.error (CalculatorError.ParsingError "Bad_Position")
termination_by structural fuel => fuel

/-- The argument-collection loop of the Function arm of evaluate: evaluates
count arguments, requiring a comma between consecutive ones (the source
iterates argument_number from zero below number_arguments; the second
parameter keeps the total). -/
def evaluate_arguments (impl : FnImpl) (mode : VarMode) :
    Nat → Nat → Nat → PState → Except CalculatorError (List ℚ × PState)
| 0, _, _, _ => Except.error (CalculatorError.ParsingError "fuel exhausted")
| _ + 1, 0, _, st => Except.ok ([], st)
| fuel + 1, count + 1, total, st => do
    let (v, st) ← evaluate_init impl mode fuel st
    let v ← match v with
      | none => Except.error CalculatorError.NoValueReturnedParsing
      | some x => Except.ok x
    if count = 0 then Except.ok ([v], st)
    else
      if st.currentToken ≠ Token.Comma then
        Except.error (CalculatorError.ParsingError "expected comma in function arguments")
      else do
        let st := stateNextToken st
        let (rest, st) ← evaluate_arguments impl mode fuel count total st
        Except.ok (v :: rest, st)

termination_by structural fuel => fuel
end

/-- Shared entry of the expression parser: lex the first token (the Rust
constructor new_mutable unwraps here, so an empty token stream is a panic,
modelled as a ParsingError that no claim path reaches) and evaluate all
expressions with a fuel bound far above the recursion depth any input of
this length can reach. -/
def parse_expression (impl : FnImpl) (mode : VarMode) (expression : String) :
    Except CalculatorError (Option ℚ × PState) :=
  match nextToken expression.data with
  | none => Except.error (CalculatorError.ParsingError "panic: token iterator exhausted")
  | some (t, rest) =>
      evaluate_all_tokens impl mode (10 * expression.length + 20)
        { currentToken := t, remaining := rest, vars := [] }

/-- VariableGatherer::parse of variable_gatherer.rs: evaluate the expression
registering every bare identifier, fail with NoValueReturnedParsing when no
expression returned a value, and otherwise succeed; the registered variable
set is returned (the Rust method stores it in the gatherer and returns
unit). -/
def variable_gatherer_parse (impl : FnImpl) (expression : String) :
    Except CalculatorError (List String) :=
  match parse_expression impl VarMode.Gather expression with
  | Except.error e => Except.error e
  | Except.ok (none, _) => Except.error CalculatorError.NoValueReturnedParsing
  | Except.ok (some _, st) => Except.ok st.vars

/-- Modelled from the spec: Calculator::parse_str of the external
qoqo_calculator crate (the numeric evaluator the assembly parser uses on
gate parameters).  It is the same precedence-climbing evaluator as the
Expression Engine in variable_gatherer.rs with one difference the spec
states (section 4.3, the Engine never resolves identifier values): with no
variables set, a bare identifier is a VariableNotSet error instead of being
registered. -/
def calc_parse_str (impl : FnImpl) (expression : String) :
    Except CalculatorError ℚ :=
  match parse_expression impl VarMode.Reject expression with
  | Except.error e => Except.error e
  | Except.ok (none, _) => Except.error CalculatorError.NoValueReturnedParsing
  | Except.ok (some v, _) => Except.ok v

/-- Multiplicity of the prime p in n, by repeated division. -/
def countFactorFuel (p : Nat) : Nat → Nat → Nat
| _, 0 => 0
| 0, _ + 1 => 0
| fuel + 1, n + 1 =>
    if 2 ≤ p ∧ (n + 1) % p = 0 then 1 + countFactorFuel p fuel ((n + 1) / p) else 0

/-- Multiplicity of the prime p in n, by repeated division; the fuel bound
never binds because the quotient shrinks at every step. -/
def countFactor (p n : Nat) : Nat := countFactorFuel p n n

/-- Strip factors of ten from the mantissa into the exponent, with enough
fuel to exhaust every factor. -/
def normTens : Nat → Int → Int → Int × Int
| 0, n, e => (n, e)
| f + 1, n, e => if n ≠ 0 ∧ n % 10 = 0 then normTens f (n / 10) (e + 1) else (n, e)

/-- Canonical mantissa/exponent pair of an exact rational value: the model
of storing a decimal string into an f64 (CalculatorFloat::from of the
external qoqo_calculator crate parses the string with f64::from_str; the
f64 is identified with its shortest decimal form).  Every value this is
applied to on a claim path is a decimal rational (the exact value of a
decimal literal), for which the reduced denominator factors into twos and
fives; other rationals denote no f64 and are mapped to the zero pair. -/
def cfFromValue (v : ℚ) : CalculatorFloat :=
  if v = 0 then CalculatorFloat.Float 0 0
  else
    let d := v.den
    let a := countFactor 2 d
    let b := countFactor 5 d
    if 2 ^ a * 5 ^ b = d then
      let k := Nat.max a b
      let n0 := v.num * ((10 ^ k) / (d : Int))
      let (m, e) := normTens n0.natAbs n0 (-(k : Int))
      CalculatorFloat.Float m e
    else CalculatorFloat.Float 0 0

/-- Replacement of every occurrence of a pattern, left to right and without
revisiting replaced text, as Rust str::replace does. -/
def replaceAllFuel (pat sub : List Char) : Nat → List Char → List Char
| _, [] => []
| 0, cs => cs
| fuel + 1, c :: rest =>
    if pat ≠ [] ∧ pat.isPrefixOf (c :: rest) then
      sub ++ replaceAllFuel pat sub fuel ((c :: rest).drop pat.length)
    else c :: replaceAllFuel pat sub fuel rest

/-- Replacement of every occurrence of a pattern, left to right and without
revisiting replaced text, as Rust str::replace does; the fuel bound never
binds because every step consumes at least one character. -/
def replaceAll (pat sub cs : List Char) : List Char :=
  replaceAllFuel pat sub cs.length cs

/-- Well-formed identifier of the assembly grammar.  Modelled from the spec
(section 4.2, the grammar file is not under src/): a letter followed by
letters, digits or underscores. -/
def isWfIdent (s : String) : Bool :=
  match s.data with
  | [] => false
  | c :: _ => c.isAlpha && s.data.all isIdentChar

/-- Nonempty all-digit integer token of the assembly grammar, as parsed with
usize::from_str in parser.rs. -/
def parseNatToken (cs : List Char) : Option Nat :=
  if !cs.isEmpty && cs.all (fun c => c.isDigit) then some (digitsVal cs) else none

/-- Parse one indexed register reference id[n] of the assembly grammar
(modelled from the spec; the identifier is kept and the index parsed, while
parse_single_rule in parser.rs reads both and uses the index). -/
def parseQubitRef (cs : List Char) : Option (String × Nat × List Char) :=
  let id := cs.takeWhile isIdentChar
  let r1 := cs.dropWhile isIdentChar
  if id.isEmpty then none
  else
    match r1 with
    | '[' :: r2 =>
        let ds := r2.takeWhile (fun c => c.isDigit)
        let r3 := r2.dropWhile (fun c => c.isDigit)
        if ds.isEmpty then none
        else
          match r3 with
          | ']' :: r4 => some (⟨id⟩, digitsVal ds, r4)
          | _ => none
    | _ => none

/-- Parse a comma-separated list of indexed register references. -/
def parseQubitList : Nat → List Char → Option (List (String × Nat) × List Char)
| 0, _ => none
| f + 1, cs =>
    match parseQubitRef cs with
    | none => none
    | some (id, n, rest) =>
        match rest with
        | ',' :: r2 =>
            match parseQubitList f r2 with
            | none => none
            | some (l, r3) => some ((id, n) :: l, r3)
        | _ => some ([(id, n)], rest)

/-- Split a parameter region at commas (the parameter texts of the common
instruction subset contain neither nested parentheses nor commas). -/
def splitOnComma : List Char → List (List Char)
| [] => [[]]
| ',' :: t => [] :: splitOnComma t
| c :: t =>
    match splitOnComma t with
    | [] => [[c]]
    | h :: r => (c :: h) :: r

/-- Result of the gate-call dispatch: either an operation of the modelled
set, or the marker that the source reconstructs an operation lying outside
the modelled set (the generic single-qubit unitaries of the u3, u2 and u1
arms, the gates with no modelled variant, and custom-gate invocations). -/
inductive Dispatched
| Reconstructed (op : Op)
| OutsideModel

/-- Gate-call dispatch, from parser.rs (gate_dispatch): the gate name
selects the reconstruction rule; parameters arrive as the exact values the
Calculator evaluation produced (the source carries them as the printed
strings of those f64 values and re-parses them with CalculatorFloat::from,
modelled by cfFromValue).  Arms whose reconstructed operation type is not in
the modelled set answer OutsideModel; an unknown name not matching the
custom-gate registry answers none, exactly as the source returns None.  The
source indexes the qubit and parameter slices and panics when a slice is too
short; the claim-relevant inputs always carry enough entries, missing ones
default to zero here. -/
def gate_dispatch (name : String) (params : List ℚ) (qubits : List Nat)
    (defined_custom_gates : List (String × Nat × Nat)) : Option Dispatched :=
  match name with
  | "rz" => some (Dispatched.Reconstructed
      (Op.RotateZ (qubits.getD 0 0) (cfFromValue (params.getD 0 0))))
  | "ry" => some (Dispatched.Reconstructed
      (Op.RotateY (qubits.getD 0 0) (cfFromValue (params.getD 0 0))))
  | "rx" => some (Dispatched.Reconstructed
      (Op.RotateX (qubits.getD 0 0) (cfFromValue (params.getD 0 0))))
  | "h" => some (Dispatched.Reconstructed (Op.Hadamard (qubits.getD 0 0)))
  | "x" => some (Dispatched.Reconstructed (Op.PauliX (qubits.getD 0 0)))
  | "y" => some (Dispatched.Reconstructed (Op.PauliY (qubits.getD 0 0)))
  | "z" => some (Dispatched.Reconstructed (Op.PauliZ (qubits.getD 0 0)))
  | "s" => some (Dispatched.Reconstructed (Op.SGate (qubits.getD 0 0)))
  | "t" => some (Dispatched.Reconstructed (Op.TGate (qubits.getD 0 0)))
  | "p" => some Dispatched.OutsideModel
  | "sx" => some (Dispatched.Reconstructed (Op.SqrtPauliX (qubits.getD 0 0)))
  | "sxdg" => some (Dispatched.Reconstructed (Op.InvSqrtPauliX (qubits.getD 0 0)))
  | "cx" => some (Dispatched.Reconstructed (Op.CNOT (qubits.getD 0 0) (qubits.getD 1 0)))
  | "rxx" => some Dispatched.OutsideModel
  | "cy" => some (Dispatched.Reconstructed
      (Op.ControlledPauliY (qubits.getD 0 0) (qubits.getD 1 0)))
  | "cz" => some (Dispatched.Reconstructed
      (Op.ControlledPauliZ (qubits.getD 0 0) (qubits.getD 1 0)))
  | "cp" => some Dispatched.OutsideModel
  | "swap" => some (Dispatched.Reconstructed
      (Op.SWAP (qubits.getD 0 0) (qubits.getD 1 0)))
  | "iswap" => some Dispatched.OutsideModel
  | "siswap" => some Dispatched.OutsideModel
  | "siswapdg" => some Dispatched.OutsideModel
  | "fswap" => some Dispatched.OutsideModel
  | "fsim" => some Dispatched.OutsideModel
  | "qsim" => some Dispatched.OutsideModel
  | "pmint" => some Dispatched.OutsideModel
  | "gvnsrot" => some Dispatched.OutsideModel
  | "gvnsrotle" => some Dispatched.OutsideModel
  | "xy" => some Dispatched.OutsideModel
  | "spintint" => some Dispatched.OutsideModel
  | "rxy" => some Dispatched.OutsideModel
  | "pscz" => some Dispatched.OutsideModel
  | "pscp" => some Dispatched.OutsideModel
  | "u3" => some Dispatched.OutsideModel
  | "u2" => some Dispatched.OutsideModel
  | "u1" => some Dispatched.OutsideModel
  | "ccx" => some (Dispatched.Reconstructed
      (Op.Toffoli (qubits.getD 0 0) (qubits.getD 1 0) (qubits.getD 2 0)))
  | "ccz" => some Dispatched.OutsideModel
  | "ccp" => some Dispatched.OutsideModel
  | _ =>
      if defined_custom_gates.contains (name, qubits.length, params.length) then
        some Dispatched.OutsideModel
      else none

/-- Modelled from the spec: one statement of the assembly grammar
(section 4.2; the pest grammar file grammars/qasm2_0.pest is not under
src/), combined with the reconstruction arms of parse_single_rule in
parser.rs.  The statement forms are the ones the common instruction subset
can generate: version header, include directives, register declarations,
single-line known-gate definitions, gate calls, indexed measurements and
resets.  Statement forms outside this set (multi-line custom gate
definitions, generic single-qubit unitary calls) are a parse failure of the
model, noted where they differ from the source. -/
def parse_single_statement (impl : FnImpl) (cs : List Char) :
    Except String (Option Op) :=
  if cs.isEmpty then Except.ok none
  else if ("OPENQASM ".data).isPrefixOf cs then Except.ok none
  else if ("include ".data).isPrefixOf cs then Except.ok none
  else if ("qreg ".data).isPrefixOf cs then Except.ok none
  else if ("creg ".data).isPrefixOf cs then
    let r := cs.drop 5
    let id := r.takeWhile isIdentChar
    let r1 := r.dropWhile isIdentChar
    if id.isEmpty then Except.error "malformed classical register declaration"
    else
      match r1 with
      | '[' :: r2 =>
          let ds := r2.takeWhile (fun c => c.isDigit)
          let r3 := r2.dropWhile (fun c => c.isDigit)
          if ds.isEmpty then Except.error "malformed classical register declaration"
          else
            match r3 with
            | ']' :: ';' :: [] =>
                Except.ok (some (Op.DefinitionBit ⟨id⟩ (digitsVal ds) true))
            | _ => Except.error "malformed classical register declaration"
      | _ => Except.error "malformed classical register declaration"
  else if ("gate ".data).isPrefixOf cs then
    let r := cs.drop 5
    let id := r.takeWhile isIdentChar
    if (gate_dispatch ⟨id⟩ [0, 0, 0, 0] [0, 1, 2, 3] []).isSome then Except.ok none
    else Except.error "custom gate definition outside the modelled statement subset"
  else if ("measure ".data).isPrefixOf cs then
    let r := cs.drop 8
    match parseQubitRef r with
    | none => Except.error "malformed measurement statement"
    | some (_, q, r1) =>
        match r1 with
        | ' ' :: '-' :: '>' :: ' ' :: r2 =>
            match parseQubitRef r2 with
            | some (ro, i, r3) =>
                if r3 = [';'] then Except.ok (some (Op.MeasureQubit q ro i))
                else Except.error "malformed measurement statement"
            | none => Except.error "malformed measurement statement"
        | _ => Except.error "malformed measurement statement"
  else if ("reset ".data).isPrefixOf cs then
    let r := cs.drop 6
    match parseQubitRef r with
    | some (_, q, r1) =>
        if r1 = [';'] then Except.ok (some (Op.PragmaActiveReset q))
        else Except.error "malformed reset statement"
    | none => Except.error "malformed reset statement"
  else
    let id := cs.takeWhile isIdentChar
    let r1 := cs.dropWhile isIdentChar
    if id.isEmpty then Except.error "unrecognized statement"
    else
      let paramsAndRest : Except String (List ℚ × List Char) :=
        match r1 with
        | '(' :: rr =>
            let inner := rr.takeWhile (fun c => !(c = ')'))
            let after := rr.dropWhile (fun c => !(c = ')'))
            match after with
            | ')' :: ' ' :: r3 => do
                let vals ← (splitOnComma inner).mapM (fun piece =>
                  let t1 := replaceAll "pi".data "3.141592653589793".data piece
                  let t2 := replaceAll "ln".data "log".data t1
                  match calc_parse_str impl ⟨t2⟩ with
                  | Except.ok v => Except.ok v
                  | Except.error _ => Except.error "parameter evaluation panicked")
                Except.ok (vals, r3)
            | _ => Except.error "malformed gate call"
        | ' ' :: r3 => Except.ok ([], r3)
        | _ => Except.error "unrecognized statement"
      match paramsAndRest with
      | Except.error e => Except.error e
      | Except.ok (params, r2) =>
          match parseQubitList r2.length r2 with
          | some (qs, r4) =>
              if r4 = [';'] then
                match gate_dispatch ⟨id⟩ params (qs.map Prod.snd) [] with
                | some (Dispatched.Reconstructed op) => Except.ok (some op)
                | some Dispatched.OutsideModel =>
                    Except.error "reconstructed operation outside the modelled set"
                | none => Except.ok none
              else Except.error "malformed gate call"
          | none => Except.error "malformed gate call"

/-- Split a character stream at newline characters. -/
def splitOnNl : List Char → List (List Char)
| [] => [[]]
| '\n' :: t => [] :: splitOnNl t
| c :: t =>
    match splitOnNl t with
    | [] => [[c]]
    | h :: r => (c :: h) :: r

/-- Parse a list of statements into a circuit: operations in text order,
recognized-but-skipped statements contribute nothing, the first failure
aborts (parse_qasm_file in parser.rs returns no partial circuit). -/
def parse_statements (impl : FnImpl) : List (List Char) → Except String (List Op)
| [] => Except.ok []
| l :: rest => do
    let op ← parse_single_statement impl l
    let ops ← parse_statements impl rest
    match op with
    | none => Except.ok ops
    | some o => Except.ok (o :: ops)

/-- Parse a whole assembly text into a circuit (string_to_circuit of
parser.rs appends one newline and parses; the grammar-level walk is
modelled line by line, every statement of the common subset being one
line). -/
def string_to_circuit (impl : FnImpl) (text : String) : Except String (List Op) :=
  parse_statements impl (splitOnNl (text ++ "\n").data)

/-- The common instruction subset of the round-trip property (spec.md
section 8): plain gates handled identically by generator and parser,
qubit-indexed measurement, and classical bit-register definitions.  Gate
parameters are concrete f64 values, carried as canonical mantissa/exponent
pairs. -/
inductive SubsetOp
| RotateX (qubit : Nat) (m : Int) (e : Int)
| RotateY (qubit : Nat) (m : Int) (e : Int)
| RotateZ (qubit : Nat) (m : Int) (e : Int)
| Hadamard (qubit : Nat)
| PauliX (qubit : Nat)
| PauliY (qubit : Nat)
| PauliZ (qubit : Nat)
| SGate (qubit : Nat)
| TGate (qubit : Nat)
| SqrtPauliX (qubit : Nat)
| InvSqrtPauliX (qubit : Nat)
| CNOT (control : Nat) (target : Nat)
| ControlledPauliY (control : Nat) (target : Nat)
| ControlledPauliZ (control : Nat) (target : Nat)
| SWAP (control : Nat) (target : Nat)
| Toffoli (control0 : Nat) (control1 : Nat) (target : Nat)
| MeasureQubit (qubit : Nat) (readout : String) (readoutIndex : Nat)
| DefinitionBit (name : String) (length : Nat) (isOutput : Bool)

/-- Embedding of the common subset into the full operation type. -/
def subsetEmbed : SubsetOp → Op
| SubsetOp.RotateX q m e => Op.RotateX q (CalculatorFloat.Float m e)
| SubsetOp.RotateY q m e => Op.RotateY q (CalculatorFloat.Float m e)
| SubsetOp.RotateZ q m e => Op.RotateZ q (CalculatorFloat.Float m e)
| SubsetOp.Hadamard q => Op.Hadamard q
| SubsetOp.PauliX q => Op.PauliX q
| SubsetOp.PauliY q => Op.PauliY q
| SubsetOp.PauliZ q => Op.PauliZ q
| SubsetOp.SGate q => Op.SGate q
| SubsetOp.TGate q => Op.TGate q
| SubsetOp.SqrtPauliX q => Op.SqrtPauliX q
| SubsetOp.InvSqrtPauliX q => Op.InvSqrtPauliX q
| SubsetOp.CNOT c t => Op.CNOT c t
| SubsetOp.ControlledPauliY c t => Op.ControlledPauliY c t
| SubsetOp.ControlledPauliZ c t => Op.ControlledPauliZ c t
| SubsetOp.SWAP c t => Op.SWAP c t
| SubsetOp.Toffoli c0 c1 t => Op.Toffoli c0 c1 t
| SubsetOp.MeasureQubit q r i => Op.MeasureQubit q r i
| SubsetOp.DefinitionBit n l o => Op.DefinitionBit n l o

/-- Well-formedness of one subset operation: gate parameters are canonical
pairs and register names are well-formed identifiers (both hold for every
value the data model can denote: parameters model f64 values and register
names are identifiers). -/
def wfSubsetOp : SubsetOp → Prop
| SubsetOp.RotateX _ m e => wfFloatPair m e
| SubsetOp.RotateY _ m e => wfFloatPair m e
| SubsetOp.RotateZ _ m e => wfFloatPair m e
| SubsetOp.MeasureQubit _ r _ => isWfIdent r = true
| SubsetOp.DefinitionBit n _ _ => isWfIdent n = true
| _ => True

instance (op : SubsetOp) : Decidable (wfSubsetOp op) := by
  cases op <;> simp only [wfSubsetOp] <;> infer_instance

/-- Whether a subset operation is a bit-register definition whose output
flag is cleared. -/
def clearedOutputFlag : SubsetOp → Prop
| SubsetOp.DefinitionBit _ _ o => o = false
| _ => False

instance (op : SubsetOp) : Decidable (clearedOutputFlag op) := by
  cases op <;> simp only [clearedOutputFlag] <;> infer_instance

/-- Maximum qubit index referenced by any operation of the circuit (zero
when none is referenced): the quantity the pre-scan of backend.rs computes
by scanning every operation before the register declaration is emitted. -/
def maxReferencedQubit (circuit : List Op) : Nat :=
  circuit.foldl qubitsRequiredStep 0

/-- The concrete circuit of the end-to-end scenario (spec.md section 8):
2-bit classical register ro not flagged as output, a RotateX by pi over two
(the shortest decimal form of the f64 nearest to it) on qubit 0, a PauliX
on qubit 1, and a repeated measurement into ro with 20 repetitions and no
qubit mapping. -/
def scenario_circuit : List Op :=
  [Op.DefinitionBit "ro" 2 false,
   Op.RotateX 0 (CalculatorFloat.Float 15707963267948966 (-16)),
   Op.PauliX 1,
   Op.PragmaRepeatedMeasurement "ro" 20 none]

/-- The exact text the claim asserts for the end-to-end scenario: header
with a standard-library include line, the fixed basis preamble (the
definition block emitted for every circuit), then the register declarations
separated by a blank line and the three statements. -/
def scenario_claimed_text : String :=
  "OPENQASM 2.0;\ninclude \"qelib1.inc\";\n\n" ++
  "gate u3(theta,phi,lambda) q \x7b U(theta,phi,lambda) q; \x7d\n" ++
  "gate u2(phi,lambda) q \x7b U(pi/2,phi,lambda) q; \x7d\n" ++
  "gate u1(lambda) q \x7b U(0,0,lambda) q; \x7d\n" ++
  "gate rx(theta) a \x7b u3(theta,-pi/2,pi/2) a; \x7d\n" ++
  "gate ry(theta) a \x7b u3(theta,0,0) a; \x7d\n" ++
  "gate rz(phi) a \x7b u1(phi) a; \x7d\n" ++
  "gate cx c,t \x7b CX c,t; \x7d\n" ++
  "qreg qr[2];\n\ncreg ro[2];\nrx(1.5707963267948966e0) qr[0];\nx qr[1];\nmeasure qr -> ro;\n"

/-- The text the translated code actually produces for the end-to-end
scenario: no include line, a blank line and the circuit-dependent PauliX
definition between the fixed preamble and the register declaration, another
blank line from the repeated-measurement operation, and no blank line
between the quantum and the classical register declaration. -/
def scenario_actual_text : String :=
  "OPENQASM 2.0;\n\n" ++
  "gate u3(theta,phi,lambda) q \x7b U(theta,phi,lambda) q; \x7d\n" ++
  "gate u2(phi,lambda) q \x7b U(pi/2,phi,lambda) q; \x7d\n" ++
  "gate u1(lambda) q \x7b U(0,0,lambda) q; \x7d\n" ++
  "gate rx(theta) a \x7b u3(theta,-pi/2,pi/2) a; \x7d\n" ++
  "gate ry(theta) a \x7b u3(theta,0,0) a; \x7d\n" ++
  "gate rz(phi) a \x7b u1(phi) a; \x7d\n" ++
  "gate cx c,t \x7b CX c,t; \x7d\n" ++
  "\n" ++
  "gate x a \x7b u3(pi,0,pi) a; \x7d\n" ++
  "\n" ++
  "qreg qr[2];\ncreg ro[2];\nrx(1.5707963267948966e0) qr[0];\nx qr[1];\nmeasure qr -> ro;\n"

/-- Whether an operation is a conditional pragma (the tag test of the
OpenQASM 2.0 arm of the PragmaConditional translation: only the
PragmaConditional variant carries that tag). -/
def isConditionalOp : Op → Prop
| Op.PragmaConditional .. => True
| _ => False

instance (op : Op) : Decidable (isConditionalOp op) := by
  cases op <;> simp only [isConditionalOp] <;> infer_instance

/-- Concatenation of newline-terminated lines. -/
def joinedLines (ls : List (List Char)) : List Char :=
  ls.foldr (fun l acc => l ++ '\n' :: acc) []

/-- A concrete numeric oracle (all function values zero), used to close
statements about runs whose control flow never consults an oracle value. -/
def zeroFnImpl : FnImpl :=
  { f1 := fun _ _ => 0, f2 := fun _ _ _ => 0, powf := fun _ _ => 0 }

/-- A circuit of the common subset containing one bit-register definition
whose output flag is cleared. -/
def nonOutputDefinitionCircuit : List Op := [Op.DefinitionBit "ro" 1 false]

/-- The text of one indexed register reference, as it appears inside the
generated statements. -/
def qrefChars (name : String) (n : Nat) : List Char :=
  name.data ++ '[' :: (natChars n ++ [']'])

/-- The OpenQASM 2.0 statement text of one operation of the common subset:
by construction exactly the string call_operation returns for the embedded
operation (proved below). -/
def lineOf (reg : String) : SubsetOp → String
| SubsetOp.RotateX q m e =>
    "rx(" ++ cfString (CalculatorFloat.Float m e) ++ ") " ++ qidx reg q ++ ";"
| SubsetOp.RotateY q m e =>
    "ry(" ++ cfString (CalculatorFloat.Float m e) ++ ") " ++ qidx reg q ++ ";"
| SubsetOp.RotateZ q m e =>
    "rz(" ++ cfString (CalculatorFloat.Float m e) ++ ") " ++ qidx reg q ++ ";"
| SubsetOp.Hadamard q => "h " ++ qidx reg q ++ ";"
| SubsetOp.PauliX q => "x " ++ qidx reg q ++ ";"
| SubsetOp.PauliY q => "y " ++ qidx reg q ++ ";"
| SubsetOp.PauliZ q => "z " ++ qidx reg q ++ ";"
| SubsetOp.SGate q => "s " ++ qidx reg q ++ ";"
| SubsetOp.TGate q => "t " ++ qidx reg q ++ ";"
| SubsetOp.SqrtPauliX q => "sx " ++ qidx reg q ++ ";"
| SubsetOp.InvSqrtPauliX q => "sxdg " ++ qidx reg q ++ ";"
| SubsetOp.CNOT c t => "cx " ++ qidx reg c ++ "," ++ qidx reg t ++ ";"
| SubsetOp.ControlledPauliY c t => "cy " ++ qidx reg c ++ "," ++ qidx reg t ++ ";"
| SubsetOp.ControlledPauliZ c t => "cz " ++ qidx reg c ++ "," ++ qidx reg t ++ ";"
| SubsetOp.SWAP c t => "swap " ++ qidx reg c ++ "," ++ qidx reg t ++ ";"
| SubsetOp.Toffoli c0 c1 t =>
    "ccx " ++ qidx reg c0 ++ "," ++ qidx reg c1 ++ "," ++ qidx reg t ++ ";"
| SubsetOp.MeasureQubit q r i =>
    "measure " ++ qidx reg q ++ " -> " ++ qidx r i ++ ";"
| SubsetOp.DefinitionBit n l _ => "creg " ++ n ++ "[" ++ natRepr l ++ "];"

/-- The statement block the generator accumulates for a subset circuit: one
newline-terminated statement per operation. -/
def genBody (reg : String) : List SubsetOp → String
| [] => ""
| s :: rest => lineOf reg s ++ "\n" ++ genBody reg rest

/-- The seven lines of the fixed definition block (fixed_definitions under
OpenQASM 2.0), as character lists without their terminating newlines. -/
def fixedDefLines : List (List Char) :=
  [("gate u3(theta,phi,lambda) q \x7b U(theta,phi,lambda) q; \x7d").data,
   ("gate u2(phi,lambda) q \x7b U(pi/2,phi,lambda) q; \x7d").data,
   ("gate u1(lambda) q \x7b U(0,0,lambda) q; \x7d").data,
   ("gate rx(theta) a \x7b u3(theta,-pi/2,pi/2) a; \x7d").data,
   ("gate ry(theta) a \x7b u3(theta,0,0) a; \x7d").data,
   ("gate rz(phi) a \x7b u1(phi) a; \x7d").data,
   ("gate cx c,t \x7b CX c,t; \x7d").data]

/-- Characters that can appear in the scientific-notation literal of a
concrete gate parameter: digits, the point, the exponent marker and the
minus sign. -/
def isLitChar (c : Char) : Bool :=
  c.isDigit || c = '.' || c = 'e' || c = '-'

/-! Helper lemmas shared by the claim theorems. -/

theorem except_bind_ok {ε α β : Type} (a : α) (f : α → Except ε β) :
    (Except.ok a >>= f) = f a := rfl

theorem except_bind_error {ε α β : Type} (e : ε) (f : α → Except ε β) :
    ((Except.error e : Except ε α) >>= f) = Except.error e := rfl

theorem except_map_ok {ε α β : Type} (a : α) (f : α → β) :
    ((Except.ok a : Except ε α).map f) = Except.ok (f a) := rfl

theorem except_map_error {ε α β : Type} (e : ε) (f : α → β) :
    ((Except.error e : Except ε α).map f) = Except.error e := rfl

/-- Unfolding of call_circuit on an empty circuit. -/
theorem call_circuit_nil (reg : String) (v : QasmVersion) :
    call_circuit [] reg v = Except.ok [] := by
  rw [call_circuit.eq_def]

/-- Unfolding of call_circuit on a nonempty circuit. -/
theorem call_circuit_cons (op : Op) (rest : List Op) (reg : String) (v : QasmVersion) :
    call_circuit (op :: rest) reg v = (do
      let s ← call_operation op reg v
      let r ← call_circuit rest reg v
      Except.ok (s :: r)) := by
  rw [call_circuit.eq_def]

/-- An operation satisfies isConditionalOp exactly when it is a
PragmaConditional. -/
theorem isConditionalOp_iff (op : Op) :
    isConditionalOp op ↔ ∃ a b c, op = Op.PragmaConditional a b c := by
  cases op <;> simp [isConditionalOp]

/-- Unfolding of the OpenQASM 2.0 conditional iteration at a conditional
operation: immediate rejection. -/
theorem conditional_v2_lines_cons_conditional (a : String) (b : Nat) (c : List Op)
    (rest : List Op) (reg : String) :
    conditional_v2_lines (Op.PragmaConditional a b c :: rest) reg =
      Except.error (RoqoqoBackendError.GenericError
        "For OpenQASM 2.0 we cannot have nested PragmaConditional operations") := by
  rw [conditional_v2_lines.eq_def]

/-- Unfolding of the OpenQASM 2.0 conditional iteration at a
non-conditional operation. -/
theorem conditional_v2_lines_cons (op : Op) (hop : ¬ isConditionalOp op)
    (rest : List Op) (reg : String) :
    conditional_v2_lines (op :: rest) reg = (do
      let s ← call_operation op reg QasmVersion.V2point0
      let r ← conditional_v2_lines rest reg
      Except.ok (s :: r)) := by
  cases op <;> first
    | exact absurd trivial hop
    | rw [conditional_v2_lines.eq_def]

/-- conditional_v2_lines propagates the nested-conditional rejection: as
soon as the iteration reaches a PragmaConditional, the whole translation
fails. -/
theorem conditional_v2_lines_nested (reg : String) :
    ∀ (pre : List Op) (lines : List String), conditional_v2_lines pre reg = Except.ok lines →
    ∀ (cr2 : String) (ci2 : Nat) (inner : List Op) (post : List Op),
      conditional_v2_lines (pre ++ Op.PragmaConditional cr2 ci2 inner :: post) reg =
        Except.error (RoqoqoBackendError.GenericError
          "For OpenQASM 2.0 we cannot have nested PragmaConditional operations") := by
  intro pre
  induction pre with
  | nil =>
      intro lines _ cr2 ci2 inner post
      rw [List.nil_append]
      exact conditional_v2_lines_cons_conditional cr2 ci2 inner post reg
  | cons op rest ih =>
      intro lines h cr2 ci2 inner post
      by_cases hc : isConditionalOp op
      · obtain ⟨a, b, c, rfl⟩ := (isConditionalOp_iff op).mp hc
        rw [conditional_v2_lines_cons_conditional] at h
        exact Except.noConfusion h
      · rw [conditional_v2_lines_cons op hc] at h
        rw [List.cons_append, conditional_v2_lines_cons op hc]
        cases hop : call_operation op reg QasmVersion.V2point0 with
        | error e => rw [hop, except_bind_error] at h; exact Except.noConfusion h
        | ok s =>
            rw [hop, except_bind_ok] at h
            rw [except_bind_ok]
            cases hrest : conditional_v2_lines rest reg with
            | error e => rw [hrest, except_bind_error] at h; exact Except.noConfusion h
            | ok ls => rw [ih ls hrest cr2 ci2 inner post, except_bind_error]

/-- On a body with no conditional operation, the OpenQASM 2.0 conditional
iteration coincides with the plain circuit translation. -/
theorem conditional_v2_lines_eq_call_circuit (reg : String) :
    ∀ (body : List Op), (∀ op ∈ body, ¬ isConditionalOp op) →
      conditional_v2_lines body reg = call_circuit body reg QasmVersion.V2point0 := by
  intro body
  induction body with
  | nil => intro _; rw [call_circuit_nil]; rw [conditional_v2_lines.eq_def]
  | cons op rest ih =>
      intro h
      have hop : ¬ isConditionalOp op := h op (List.mem_cons_self op rest)
      have hrest := ih (fun o ho => h o (List.mem_cons_of_mem op ho))
      rw [conditional_v2_lines_cons op hop, call_circuit_cons, hrest]

/-! Claim theorems.  Each theorem settles one claim of the specification
audit; witnesses instantiate the theorems with hypotheses at concrete
inputs. -/

/-- C2 counterexample: the end-to-end scenario circuit does not translate to
the text the claim asserts — the generated text has no include line, and the
definition block and register declarations differ as recorded in
scenario_actual_text. -/
theorem C2_scenario_counterexample :
    circuit_iterator_to_qasm_str QasmVersion.V2point0 "qr" scenario_circuit ≠
      Except.ok scenario_claimed_text := by decide

/-- C2 (amended): translating the end-to-end scenario circuit with register
name qr under OpenQASM 2.0 yields exactly scenario_actual_text: the header
without an include line, the fixed basis preamble, a blank line, the PauliX
definition, a blank line, then the register declarations (with no blank line
between them) and the three statements. -/
theorem C2_scenario_text :
    circuit_iterator_to_qasm_str QasmVersion.V2point0 "qr" scenario_circuit =
      Except.ok scenario_actual_text := by rfl

/-- C3 counterexample: a loop with the concrete repetition count two under
OpenQASM 2.0 translates successfully (the body is repeated), not to a hard
error as the claim asserts. -/
theorem C3_loop_counterexample :
    call_operation (Op.PragmaLoop (CalculatorFloat.Float 2 0) [Op.Hadamard 0]) "q"
      QasmVersion.V2point0 = Except.ok "h q[0];\nh q[0];\n" := by rfl

set_option maxHeartbeats 1000000 in
/-- C3 (amended): under OpenQASM 2.0 a loop with a symbolic repetition count
fails with the incompatible-control-flow error naming the version, for every
nested circuit; a loop with a concrete-numeric repetition count is not an
error: it unrolls the translated body as many times as the count truncates
to (whenever the body itself translates). -/
theorem C3_loop_v2 :
    (∀ (x : String) (circuit : List Op) (reg : String),
      call_operation (Op.PragmaLoop (CalculatorFloat.Str x) circuit) reg QasmVersion.V2point0 =
        Except.error (RoqoqoBackendError.GenericError
          ("Used PragmaLoop with a string " ++ x ++
            " for repetitions and a qasm-version that is incompatible: V2point0"))) ∧
    (∀ (m e : Int) (circuit : List Op) (reg : String) (lines : List String),
      call_circuit circuit reg QasmVersion.V2point0 = Except.ok lines →
      call_operation (Op.PragmaLoop (CalculatorFloat.Float m e) circuit) reg
          QasmVersion.V2point0 =
        Except.ok (String.join (List.replicate (floatToUsize m e)
          (String.join (lines.map (fun s => s ++ "\n")))))) := by
  constructor
  · intro x circuit reg
    rw [call_operation.eq_25 reg QasmVersion.V2point0 circuit x (by simp) (by simp)]
    simp only [qasmVersionDebug, String.append_assoc]
    rfl
  · intro m e circuit reg lines h
    rw [call_operation.eq_24 reg QasmVersion.V2point0 circuit m e (by simp) (by simp)]
    by_cases hn : floatToUsize m e = 0
    · rw [if_pos hn, hn]
      rfl
    · rw [if_neg hn, h, except_map_ok]

/-- C3 witness: the amended statement at concrete inputs — a symbolic loop
over one Hadamard errs, and a concrete loop with count two unrolls the one
translated line twice. -/
theorem C3_loop_v2_witness :
    call_operation (Op.PragmaLoop (CalculatorFloat.Str "test") [Op.Hadamard 0]) "q"
        QasmVersion.V2point0 =
      Except.error (RoqoqoBackendError.GenericError
        ("Used PragmaLoop with a string " ++ "test" ++
          " for repetitions and a qasm-version that is incompatible: V2point0")) ∧
    call_operation (Op.PragmaLoop (CalculatorFloat.Float 2 0) [Op.Hadamard 0]) "q"
        QasmVersion.V2point0 =
      Except.ok (String.join (List.replicate (floatToUsize 2 0)
        (String.join (["h q[0];"].map (fun s => s ++ "\n"))))) :=
  ⟨C3_loop_v2.1 "test" [Op.Hadamard 0] "q",
   C3_loop_v2.2 2 0 [Op.Hadamard 0] "q" ["h q[0];"] (by rfl)⟩

/-- C4: translating the same circuit twice under the same version and
register name returns byte-identical text.  In the model a circuit value
fixes the iteration sequence of every qubit-mapping hash map it contains
(as the map instance owned by the Rust operation does), and the translation
is a pure function of that value, so the two results coincide
definitionally. -/
theorem C4_generation_idempotent :
    ∀ (qasm_version : QasmVersion) (reg : String) (circuit : List Op),
      circuit_iterator_to_qasm_str qasm_version reg circuit =
        circuit_iterator_to_qasm_str qasm_version reg circuit :=
  fun _ _ _ => rfl

/-- C5: under OpenQASM 2.0 a conditional whose body reaches a nested
conditional is a hard error (whatever translatable operations precede it),
and a conditional with no nested conditional renders one if-guarded line per
inner operation; under every OpenQASM 3.0 dialect the conditional renders as
a single if-block wrapping the fully-translated nested circuit, nesting
permitted (the hypothesis allows the body itself to contain conditionals). -/
theorem C5_conditional :
    (∀ (cr : String) (ci : Nat) (reg : String) (pre post : List Op) (cr2 : String)
        (ci2 : Nat) (inner : List Op) (lines : List String),
      conditional_v2_lines pre reg = Except.ok lines →
      call_operation (Op.PragmaConditional cr ci
          (pre ++ Op.PragmaConditional cr2 ci2 inner :: post)) reg QasmVersion.V2point0 =
        Except.error (RoqoqoBackendError.GenericError
          "For OpenQASM 2.0 we cannot have nested PragmaConditional operations")) ∧
    (∀ (cr : String) (ci : Nat) (reg : String) (body : List Op) (lines : List String),
      (∀ op ∈ body, ¬ isConditionalOp op) →
      call_circuit body reg QasmVersion.V2point0 = Except.ok lines →
      call_operation (Op.PragmaConditional cr ci body) reg QasmVersion.V2point0 =
        Except.ok (String.intercalate "\n"
          (lines.map (fun s => "if(" ++ cr ++ "[" ++ natRepr ci ++ "]==1) " ++ s)))) ∧
    (∀ (d : Qasm3Dialect) (cr : String) (ci : Nat) (reg : String) (body : List Op)
        (lines : List String),
      call_circuit body reg (QasmVersion.V3point0 d) = Except.ok lines →
      call_operation (Op.PragmaConditional cr ci body) reg (QasmVersion.V3point0 d) =
        Except.ok ("if(" ++ cr ++ "[" ++ natRepr ci ++ "]==1) \x7b\n" ++
          String.join lines ++ "\x7d")) := by
  refine ⟨?_, ?_, ?_⟩
  · intro cr ci reg pre post cr2 ci2 inner lines h
    rw [call_operation.eq_19,
      conditional_v2_lines_nested reg pre lines h cr2 ci2 inner post, except_map_error]
  · intro cr ci reg body lines hnc h
    rw [call_operation.eq_19, conditional_v2_lines_eq_call_circuit reg body hnc, h,
      except_map_ok]
  · intro d cr ci reg body lines h
    rw [call_operation.eq_20, h, except_map_ok]

/-- C5 witness: the three parts at concrete inputs — a nested conditional
after one translatable Hadamard errs under 2.0, a two-operation body renders
two guarded lines under 2.0, and under the 3.0 Braket dialect a body that is
itself a conditional (nesting) renders as one block. -/
theorem C5_conditional_witness :
    call_operation (Op.PragmaConditional "c" 0
        ([Op.Hadamard 0] ++ Op.PragmaConditional "c" 0 [] :: [])) "q" QasmVersion.V2point0 =
      Except.error (RoqoqoBackendError.GenericError
        "For OpenQASM 2.0 we cannot have nested PragmaConditional operations") ∧
    call_operation (Op.PragmaConditional "c" 0 [Op.Hadamard 0, Op.PauliX 0]) "q"
        QasmVersion.V2point0 =
      Except.ok (String.intercalate "\n"
        (["h q[0];", "x q[0];"].map
          (fun s => "if(" ++ "c" ++ "[" ++ natRepr 0 ++ "]==1) " ++ s))) ∧
    call_operation (Op.PragmaConditional "c" 0 [Op.PragmaConditional "d" 1 [Op.Hadamard 0]])
        "q" (QasmVersion.V3point0 Qasm3Dialect.Braket) =
      Except.ok ("if(" ++ "c" ++ "[" ++ natRepr 0 ++ "]==1) \x7b\n" ++
        String.join ["if(d[1]==1) \x7b\nh q[0];\x7d"] ++ "\x7d") :=
  ⟨C5_conditional.1 "c" 0 "q" [Op.Hadamard 0] [] "c" 0 [] ["h q[0];"] (by rfl),
   C5_conditional.2.1 "c" 0 "q" [Op.Hadamard 0, Op.PauliX 0] ["h q[0];", "x q[0];"]
     (by decide) (by rfl),
   C5_conditional.2.2 Qasm3Dialect.Braket "c" 0 "q"
     [Op.PragmaConditional "d" 1 [Op.Hadamard 0]] ["if(d[1]==1) \x7b\nh q[0];\x7d"] (by rfl)⟩

/-- The fixed definition block always renders. -/
theorem fixed_definitions_ok (v : QasmVersion) : ∃ d0, fixed_definitions v = Except.ok d0 := by
  cases v with
  | V2point0 => exact ⟨_, rfl⟩
  | V3point0 d => exact ⟨_, rfl⟩

/-- The running maximum the generator loop returns is the fold of the
pre-scan step over the operations. -/
theorem gen_fold_nreq (reg : String) (v : QasmVersion) :
    ∀ (c : List Op) (seen : List String) (nreq : Nat) (defs data : String)
      (D DA : String) (nr : Nat),
      gen_fold reg v c seen nreq defs data = Except.ok (D, DA, nr) →
      nr = c.foldl qubitsRequiredStep nreq := by
  intro c
  induction c with
  | nil =>
      intro seen nreq defs data D DA nr h
      rw [gen_fold] at h
      injection h with h2
      rw [List.foldl_nil]
      exact (congrArg (fun t => t.snd.snd) h2).symm
  | cons op rest ih =>
      intro seen nreq defs data D DA nr h
      rw [gen_fold] at h
      rw [List.foldl_cons]
      by_cases hseen : seen.contains (hqslang op)
      · rw [if_pos hseen, except_bind_ok] at h
        dsimp only at h
        cases hco : call_operation op reg v with
        | error e => rw [hco, except_bind_error] at h; exact Except.noConfusion h
        | ok s =>
            rw [hco, except_bind_ok] at h
            exact ih _ _ _ _ _ _ _ h
      · rw [if_neg hseen] at h
        cases hgd : gate_definition op v with
        | error e =>
            rw [hgd] at h
            rw [except_bind_error] at h
            try rw [except_bind_error] at h
            exact Except.noConfusion h
        | ok d =>
            rw [hgd, except_bind_ok, except_bind_ok] at h
            dsimp only at h
            cases hco : call_operation op reg v with
            | error e => rw [hco, except_bind_error] at h; exact Except.noConfusion h
            | ok s =>
                rw [hco, except_bind_ok] at h
                exact ih _ _ _ _ _ _ _ h

/-- C6: whenever translation succeeds, the produced text is the version
header, then the definition block, then the quantum-register declaration
sized to the maximum qubit index referenced by any operation of the circuit
plus one (qreg syntax under 2.0, qubit syntax under 3.0), then the statement
block. -/
theorem C6_register_sizing :
    ∀ (qasm_version : QasmVersion) (reg : String) (circuit : List Op) (s : String),
      circuit_iterator_to_qasm_str qasm_version reg circuit = Except.ok s →
      ∃ defs data,
        s = ("OPENQASM " ++
              (match qasm_version with
               | QasmVersion.V2point0 => "2.0;\n\n"
               | QasmVersion.V3point0 _ => "3.0;\n\n")) ++ defs ++
            qubit_register_declaration qasm_version reg (maxReferencedQubit circuit + 1) ++
            data := by
  intro v reg circuit s h
  obtain ⟨d0, hd0⟩ := fixed_definitions_ok v
  rw [circuit_iterator_to_qasm_str.eq_def, hd0, except_bind_ok] at h
  cases hgf : gen_fold reg v circuit ["RotateX", "RotateY", "RotateZ", "CNOT"] 0 d0 "" with
  | error e => rw [hgf, except_bind_error] at h; exact Except.noConfusion h
  | ok triple =>
      obtain ⟨D, DA, nr⟩ := triple
      rw [hgf, except_bind_ok] at h
      injection h with h2
      refine ⟨D, DA, ?_⟩
      rw [← h2]
      have hnr : nr = maxReferencedQubit circuit :=
        gen_fold_nreq reg v circuit _ 0 d0 "" D DA nr hgf
      rw [hnr]

/-- C6 witness: the decomposition at a concrete translation — a circuit
whose only operation touches qubit 1 declares a register of size 2. -/
theorem C6_register_sizing_witness :
    ∃ defs data,
      ("OPENQASM 2.0;\n\ngate u3(theta,phi,lambda) q \x7b U(theta,phi,lambda) q; \x7d\ngate u2(phi,lambda) q \x7b U(pi/2,phi,lambda) q; \x7d\ngate u1(lambda) q \x7b U(0,0,lambda) q; \x7d\ngate rx(theta) a \x7b u3(theta,-pi/2,pi/2) a; \x7d\ngate ry(theta) a \x7b u3(theta,0,0) a; \x7d\ngate rz(phi) a \x7b u1(phi) a; \x7d\ngate cx c,t \x7b CX c,t; \x7d\ngate x a \x7b u3(pi,0,pi) a; \x7d\nqreg qr[2];\nx qr[1];\n" : String) =
        ("OPENQASM " ++
          (match QasmVersion.V2point0 with
           | QasmVersion.V2point0 => "2.0;\n\n"
           | QasmVersion.V3point0 _ => "3.0;\n\n")) ++ defs ++
        qubit_register_declaration QasmVersion.V2point0 "qr"
          (maxReferencedQubit [Op.PauliX 1] + 1) ++ data :=
  C6_register_sizing QasmVersion.V2point0 "qr" [Op.PauliX 1] _ (by rfl)

/-- C7: a symbolic-input declaration renders as a typed input declaration
under every OpenQASM 3.0 dialect, and is silently dropped (empty text, not
an error) under OpenQASM 2.0. -/
theorem C7_input_symbolic :
    ∀ (name : String) (input : CalculatorFloat) (reg : String) (d : Qasm3Dialect),
      call_operation (Op.InputSymbolic name input) reg (QasmVersion.V3point0 d) =
        Except.ok ("input float " ++ name ++ ";") ∧
      call_operation (Op.InputSymbolic name input) reg QasmVersion.V2point0 =
        Except.ok "" := by
  intro name input reg d
  exact ⟨rfl, rfl⟩

/-- C8: evaluating the expression text 2*abs(a+1) with the Expression Engine
fails with the error naming the rejected function abs, while evaluating
2*sin(a+1) succeeds (registering the one free variable), for every numeric
oracle. -/
theorem C8_function_gating :
    ∀ (impl : FnImpl),
      variable_gatherer_parse impl "2*abs(a+1)" =
        Except.error (CalculatorError.ParsingError
          "Function abs is not supported in OpenQASM 3.0.") ∧
      variable_gatherer_parse impl "2*sin(a+1)" = Except.ok ["a"] := by
  intro impl
  exact ⟨rfl, rfl⟩

/-- C9: evaluating the expression text 2*(a+1) with a variable gatherer
succeeds and registers exactly the variable set containing a — the bare
identifier evaluates as zero, so the expression value is two — for every
numeric oracle. -/
theorem C9_free_variables :
    ∀ (impl : FnImpl),
      variable_gatherer_parse impl "2*(a+1)" = Except.ok ["a"] ∧
      (∀ (vs : String) (rem : List Char) (vars : List String) (fuel : Nat),
        evaluate impl VarMode.Gather (fuel + 1) (PState.mk (Token.Variable vs) rem vars) =
          Except.ok (0, { stateNextToken (PState.mk (Token.Variable vs) rem vars) with
              vars := registerVariable
                (stateNextToken (PState.mk (Token.Variable vs) rem vars)).vars vs })) := by
  intro impl
  exact ⟨rfl, fun vs rem vars fuel => rfl⟩

/-- A theorem of C9 at concrete inputs. -/
theorem C9_free_variables_witness :
    variable_gatherer_parse zeroFnImpl "2*(a+1)" = Except.ok ["a"] ∧
    evaluate zeroFnImpl VarMode.Gather 1 (PState.mk (Token.Variable "a") [] []) =
      Except.ok (0, { stateNextToken (PState.mk (Token.Variable "a") [] []) with
          vars := registerVariable
            (stateNextToken (PState.mk (Token.Variable "a") [] [])).vars "a" }) :=
  ⟨(C9_free_variables zeroFnImpl).1, (C9_free_variables zeroFnImpl).2 "a" [] [] 0⟩

theorem digitChar10_toNat (d : Nat) (h : d < 10) : (digitChar10 d).toNat = 48 + d := by
  interval_cases d <;> decide

theorem digitChar10_isDigit (d : Nat) (h : d < 10) : (digitChar10 d).isDigit = true := by
  interval_cases d <;> decide

theorem digitsVal_append_one (l : List Char) (c : Char) :
    digitsVal (l ++ [c]) = digitsVal l * 10 + (c.toNat - 48) := by
  simp [digitsVal, List.foldl_append]

theorem digitsVal_reverse_map (ds : List Nat) (h : ∀ d ∈ ds, d < 10) :
    digitsVal ((ds.map digitChar10).reverse) = Nat.ofDigits 10 ds := by
  induction ds with
  | nil => rfl
  | cons d t ih =>
      rw [List.map_cons, List.reverse_cons, digitsVal_append_one,
        ih (fun x hx => h x (List.mem_cons_of_mem d hx)),
        digitChar10_toNat d (h d (List.mem_cons_self d t)), Nat.ofDigits_cons]
      omega

theorem digitsFuel_eq_digits (f n : Nat) (h : n ≤ f) : digitsFuel f n = Nat.digits 10 n := by
  induction f generalizing n with
  | zero =>
      have : n = 0 := by omega
      subst this; simp [digitsFuel]
  | succ f ih =>
      cases n with
      | zero => simp [digitsFuel]
      | succ k =>
          rw [digitsFuel, Nat.digits_def' (by norm_num : (1 : ℕ) < 10) (Nat.succ_pos k),
            ih ((k + 1) / 10) (by
              have := Nat.div_lt_self (Nat.succ_pos k) (by norm_num : 1 < 10)
              omega)]

theorem digitsVal_natChars (n : Nat) : digitsVal (natChars n) = n := by
  by_cases h : n = 0
  · subst h; decide
  · rw [natChars, if_neg h, digitsFuel_eq_digits n n le_rfl,
      digitsVal_reverse_map _ (fun d hd => Nat.digits_lt_base (by norm_num) hd),
      Nat.ofDigits_digits]

theorem natChars_all_digit (n : Nat) : (natChars n).all Char.isDigit = true := by
  rw [natChars]
  split
  · decide
  · rw [digitsFuel_eq_digits n n le_rfl]
    simp only [List.all_eq_true, List.mem_reverse, List.mem_map]
    rintro c ⟨d, hd, rfl⟩
    exact digitChar10_isDigit d (Nat.digits_lt_base (by norm_num) hd)

theorem natChars_ne_nil (n : Nat) : natChars n ≠ [] := by
  by_cases h : n = 0
  · subst h; decide
  · rw [natChars, if_neg h, digitsFuel_eq_digits n n le_rfl]
    simp only [ne_eq, List.reverse_eq_nil_iff, List.map_eq_nil_iff]
    exact Nat.digits_ne_nil_iff_ne_zero.mpr h

theorem natChars_isEmpty (n : Nat) : (natChars n).isEmpty = false := by
  cases h : natChars n with
  | nil => exact absurd h (natChars_ne_nil n)
  | cons a l => rfl

theorem takeWhile_append_stop {α : Type} (p : α → Bool) (l1 l2 : List α) (c : α)
    (h1 : l1.all p = true) (hc : p c = false) :
    (l1 ++ c :: l2).takeWhile p = l1 := by
  induction l1 with
  | nil => simp [List.takeWhile_cons, hc]
  | cons a t ih =>
      simp only [List.all_cons, Bool.and_eq_true] at h1
      simp [List.takeWhile_cons, h1.1, ih h1.2]

theorem dropWhile_append_stop {α : Type} (p : α → Bool) (l1 l2 : List α) (c : α)
    (h1 : l1.all p = true) (hc : p c = false) :
    (l1 ++ c :: l2).dropWhile p = c :: l2 := by
  induction l1 with
  | nil => simp [List.dropWhile_cons, hc]
  | cons a t ih =>
      simp only [List.all_cons, Bool.and_eq_true] at h1
      simp [List.dropWhile_cons, h1.1, ih h1.2]

theorem prefixCheck_nil (l : List Char) : List.isPrefixOf [] l = true := by
  cases l <;> rfl

theorem prefixCheck_cons (a b : Char) (as bs : List Char) :
    List.isPrefixOf (a :: as) (b :: bs) = (a == b && List.isPrefixOf as bs) := rfl

/-- The classical-register-declaration branch of the statement parser,
isolated: a statement starting with the five characters of creg and a space
never reaches the earlier branches. -/
theorem parse_creg_branch (impl : FnImpl) (rest : List Char) :
    parse_single_statement impl ('c' :: 'r' :: 'e' :: 'g' :: ' ' :: rest) =
      (let id := rest.takeWhile isIdentChar
       let r1 := rest.dropWhile isIdentChar
       if id.isEmpty then Except.error "malformed classical register declaration"
       else
         match r1 with
         | '[' :: r2 =>
             let ds := r2.takeWhile (fun c => c.isDigit)
             let r3 := r2.dropWhile (fun c => c.isDigit)
             if ds.isEmpty then Except.error "malformed classical register declaration"
             else
               match r3 with
               | ']' :: ';' :: [] =>
                   Except.ok (some (Op.DefinitionBit ⟨id⟩ (digitsVal ds) true))
               | _ => Except.error "malformed classical register declaration"
         | _ => Except.error "malformed classical register declaration") := by
  simp only [parse_single_statement]
  simp [prefixCheck_cons, prefixCheck_nil]

set_option maxHeartbeats 1000000 in
/-- A classical-register declaration line parses to a bit-register
definition with the output flag set. -/
theorem creg_line_parses (impl : FnImpl) (name : String) (len : Nat)
    (h : isWfIdent name = true) :
    parse_single_statement impl ("creg " ++ name ++ "[" ++ natRepr len ++ "];").data =
      Except.ok (some (Op.DefinitionBit name len true)) := by
  obtain ⟨l⟩ := name
  cases l with
  | nil => simp [isWfIdent] at h
  | cons c t =>
      simp only [isWfIdent, List.all_cons, Bool.and_eq_true] at h
      obtain ⟨-, hc, ht⟩ := h
      have hall : (c :: t).all isIdentChar = true := by
        simp [List.all_cons, hc, ht]
      have hdata : ("creg " ++ String.mk (c :: t) ++ "[" ++ natRepr len ++ "];").data =
          'c' :: 'r' :: 'e' :: 'g' :: ' ' ::
            ((c :: t) ++ '[' :: (natChars len ++ [']', ';'])) := by
        simp only [String.data_append, List.append_assoc, List.cons_append]
        rfl
      rw [hdata, parse_creg_branch]
      simp only [takeWhile_append_stop isIdentChar (c :: t)
          (natChars len ++ [']', ';']) '[' hall (by decide),
        dropWhile_append_stop isIdentChar (c :: t)
          (natChars len ++ [']', ';']) '[' hall (by decide),
        takeWhile_append_stop (fun ch => ch.isDigit) (natChars len) [';'] ']'
          (natChars_all_digit len) (by decide),
        dropWhile_append_stop (fun ch => ch.isDigit) (natChars len) [';'] ']'
          (natChars_all_digit len) (by decide),
        natChars_isEmpty, digitsVal_natChars, List.isEmpty_cons]
      rfl

/-- C10: every classical-register declaration creg name[n]; parsed from
assembly text is reconstructed as a bit-register definition whose output
flag is true, for every well-formed register name and every length:
parse_single_rule in parser.rs passes is_output: true unconditionally. -/
theorem C10_creg_output_flag :
    ∀ (impl : FnImpl) (name : String) (len : Nat),
      isWfIdent name = true →
      parse_single_statement impl ("creg " ++ name ++ "[" ++ natRepr len ++ "];").data =
        Except.ok (some (Op.DefinitionBit name len true)) :=
  fun impl name len h => creg_line_parses impl name len h

/-- A theorem of C10 at concrete inputs: the register name ro with length
two parses back as an output bit-register definition. -/
theorem C10_creg_output_flag_witness :
    isWfIdent "ro" = true ∧
    parse_single_statement zeroFnImpl ("creg " ++ "ro" ++ "[" ++ natRepr 2 ++ "];").data =
      Except.ok (some (Op.DefinitionBit "ro" 2 true)) :=
  ⟨by decide, C10_creg_output_flag zeroFnImpl "ro" 2 (by decide)⟩

/-! Lemmas for the round-trip claim: lexing and evaluating the generated
scientific-notation literals. -/

theorem char_ne_of_isDigit {c : Char} (h : c.isDigit = true) {d : Char}
    (hd : d.isDigit = false) : c ≠ d := by
  intro hc
  rw [hc, hd] at h
  exact Bool.noConfusion h

theorem isDigit_toNat_bounds {c : Char} (h : c.isDigit = true) :
    48 ≤ c.toNat ∧ c.toNat ≤ 57 := by
  simp only [Char.isDigit, Bool.and_eq_true, decide_eq_true_eq, ge_iff_le] at h
  obtain ⟨h1, h2⟩ := h
  exact ⟨UInt32.le_toNat_of_le (by decide) h1, UInt32.toNat_le_of_le (by decide) h2⟩

theorem isDigit_isAlpha_false {c : Char} (h : c.isDigit = true) : c.isAlpha = false := by
  obtain ⟨h1, h2⟩ := isDigit_toNat_bounds h
  simp only [Char.isAlpha, Char.isUpper, Char.isLower, Bool.or_eq_false_iff,
    Bool.and_eq_false_iff, decide_eq_false_iff_not, not_le, ge_iff_le]
  refine ⟨Or.inl ?_, Or.inl ?_⟩
  · intro hle
    have h3 : 65 ≤ c.toNat := UInt32.le_toNat_of_le (by decide) hle
    omega
  · intro hle
    have h3 : 97 ≤ c.toNat := UInt32.le_toNat_of_le (by decide) hle
    omega

theorem takeWhile_of_all {α : Type} (p : α → Bool) (l : List α) (h : l.all p = true) :
    l.takeWhile p = l := by
  induction l with
  | nil => rfl
  | cons a t ih =>
      simp only [List.all_cons, Bool.and_eq_true] at h
      simp [List.takeWhile_cons, h.1, ih h.2]

theorem not_mem_of_all {α : Type} (p : α → Bool) (l : List α) (c : α)
    (h : l.all p = true) (hc : p c = false) : c ∉ l := by
  intro hmem
  rw [List.all_eq_true] at h
  rw [h c hmem] at hc
  exact Bool.noConfusion hc

theorem contains_eq_false_of_all (p : Char → Bool) (l : List Char) (c : Char)
    (h : l.all p = true) (hc : p c = false) : l.contains c = false := by
  by_cases hm : l.contains c = true
  · exact absurd (List.mem_of_elem_eq_true hm) (not_mem_of_all p l c h hc)
  · exact Bool.eq_false_iff.mpr hm

theorem drop_append_cons {α : Type} (A : List α) (c : α) (B : List α) :
    (A ++ c :: B).drop (A.length + 1) = B := by
  rw [show A ++ c :: B = (A ++ [c]) ++ B by simp,
    show A.length + 1 = (A ++ [c]).length by simp, List.drop_left]

theorem drop_append_cons2 {α : Type} (A : List α) (c1 c2 : α) (B : List α) :
    (A ++ c1 :: c2 :: B).drop (A.length + 2) = B := by
  rw [show A ++ c1 :: c2 :: B = (A ++ [c1, c2]) ++ B by simp,
    show A.length + 2 = (A ++ [c1, c2]).length by simp, List.drop_left]

theorem digit_mem_natChars {n : Nat} {c : Char} (h : c ∈ natChars n) : c.isDigit = true :=
  List.all_eq_true.mp (natChars_all_digit n) c h

theorem exists_cons_natChars (n : Nat) : ∃ a l, natChars n = a :: l := by
  cases h : natChars n with
  | nil => exact absurd h (natChars_ne_nil n)
  | cons a l => exact ⟨a, l, rfl⟩

theorem all_digits_pNE (l : List Char) (h : l.all Char.isDigit = true) :
    l.all (fun c => !(c = 'e' || c = 'E')) = true := by
  rw [List.all_eq_true] at h ⊢
  intro x hx
  have hd := h x hx
  simp [char_ne_of_isDigit hd (by decide : ('e').isDigit = false),
    char_ne_of_isDigit hd (by decide : ('E').isDigit = false)]

theorem all_digits_pDot (l : List Char) (h : l.all Char.isDigit = true) :
    l.all (fun c => c.isDigit || c = '.') = true := by
  rw [List.all_eq_true] at h ⊢
  intro x hx
  simp [h x hx]

theorem nextTokenFuel_digit (f : Nat) (c : Char) (rest : List Char)
    (hd : c.isDigit = true) :
    nextTokenFuel (f + 1) (c :: rest) =
      (let k := numberSliceLen (c :: rest)
       let slice := (c :: rest).take k
       match rustParseF64 slice with
       | none => some (Token.Unrecognized, (c :: rest).drop k)
       | some q => some (Token.Number q, (c :: rest).drop k)) := by
  rw [nextTokenFuel]
  rw [if_neg (char_ne_of_isDigit hd (by decide : (' ').isDigit = false))]
  rw [if_neg (char_ne_of_isDigit hd (by decide : ('#').isDigit = false))]
  rw [if_neg (by simp [isDigit_isAlpha_false hd] : ¬(c.isAlpha = true))]
  rw [if_pos (by simp [hd] : (c.isDigit || c = '.') = true)]
  all_goals intro hc
  all_goals rw [hc] at hd
  all_goals exact absurd hd (by decide)

theorem numberSliceLen_sci (a : Char) (tl : List Char) (E : Int)
    (hm : (a :: tl).all (fun c => c.isDigit || c = '.') = true) :
    numberSliceLen ((a :: tl) ++ 'e' :: intChars E) =
      ((a :: tl) ++ 'e' :: intChars E).length := by
  by_cases hE : E < 0
  · rw [show intChars E = '-' :: natChars E.natAbs from by rw [intChars, if_pos hE]]
    obtain ⟨b, bl, hb⟩ := exists_cons_natChars E.natAbs
    have hball : (b :: bl).all Char.isDigit = true := hb ▸ natChars_all_digit E.natAbs
    rw [hb]
    simp only [numberSliceLen]
    rw [takeWhile_append_stop _ (a :: tl) ('-' :: b :: bl) 'e' hm (by decide),
      List.drop_left]
    rw [if_pos (by simp : ((('e' :: '-' :: b :: bl).headD ' ') = 'e' ||
      (('e' :: '-' :: b :: bl).headD ' ') = 'E') = true)]
    rw [drop_append_cons (a :: tl) 'e' ('-' :: b :: bl)]
    rw [if_pos (by simp : ((('-' :: b :: bl).headD ' ') = '+' ||
      (('-' :: b :: bl).headD ' ') = '-') = true)]
    rw [drop_append_cons2 (a :: tl) 'e' '-' (b :: bl)]
    rw [takeWhile_of_all _ _ hball]
    simp [List.length_append, List.length_cons]
    omega
  · rw [show intChars E = natChars E.natAbs from by rw [intChars, if_neg hE]]
    obtain ⟨b, bl, hb⟩ := exists_cons_natChars E.natAbs
    have hball : (b :: bl).all Char.isDigit = true := hb ▸ natChars_all_digit E.natAbs
    have hbd : b.isDigit = true := by
      have := List.all_eq_true.mp hball b (List.mem_cons_self b bl)
      exact this
    rw [hb]
    simp only [numberSliceLen]
    rw [takeWhile_append_stop _ (a :: tl) (b :: bl) 'e' hm (by decide),
      List.drop_left]
    rw [if_pos (by simp : ((('e' :: b :: bl).headD ' ') = 'e' ||
      (('e' :: b :: bl).headD ' ') = 'E') = true)]
    rw [drop_append_cons (a :: tl) 'e' (b :: bl)]
    rw [if_neg (by
      simp [char_ne_of_isDigit hbd (by decide : ('+').isDigit = false),
        char_ne_of_isDigit hbd (by decide : ('-').isDigit = false)] :
      ¬(((b :: bl).headD ' ') = '+' || ((b :: bl).headD ' ') = '-') = true)]
    rw [drop_append_cons (a :: tl) 'e' (b :: bl)]
    rw [takeWhile_of_all _ _ hball]
    simp [List.length_append, List.length_cons]
    omega

theorem parseExpDigits_natChars (k : Nat) : parseExpDigits (natChars k) = some (k : Int) := by
  obtain ⟨b, bl, hb⟩ := exists_cons_natChars k
  have hball : (b :: bl).all Char.isDigit = true := hb ▸ natChars_all_digit k
  have hbd : b.isDigit = true := List.all_eq_true.mp hball b (List.mem_cons_self b bl)
  rw [hb, parseExpDigits]
  rw [if_neg (char_ne_of_isDigit hbd (by decide : ('+').isDigit = false))]
  rw [if_neg (char_ne_of_isDigit hbd (by decide : ('-').isDigit = false))]
  rw [if_pos (by simp [hball] : (!(b :: bl).isEmpty &&
    (b :: bl).all (fun ch => ch.isDigit)) = true)]
  rw [← hb, digitsVal_natChars]

theorem parseExpDigits_intChars (E : Int) : parseExpDigits (intChars E) = some E := by
  by_cases hE : E < 0
  · rw [intChars, if_pos hE]
    obtain ⟨b, bl, hb⟩ := exists_cons_natChars E.natAbs
    rw [hb, parseExpDigits]
    rw [if_neg (by decide : ¬('-' = '+'))]
    rw [if_pos (rfl : '-' = '-')]
    rw [if_pos (by simp [hb ▸ natChars_all_digit E.natAbs] : (!(b :: bl).isEmpty &&
      (b :: bl).all (fun ch => ch.isDigit)) = true)]
    rw [← hb, digitsVal_natChars]
    congr 1
    omega
  · rw [intChars, if_neg hE, parseExpDigits_natChars]
    congr 1
    omega

theorem dropWhile_of_all {α : Type} (p : α → Bool) (l : List α) (h : l.all p = true) :
    l.dropWhile p = [] := by
  induction l with
  | nil => rfl
  | cons a t ih =>
      simp only [List.all_cons, Bool.and_eq_true] at h
      simp [List.dropWhile_cons, h.1, ih h.2]

theorem rustParseF64_mant (a : Char) (l : List Char) (E : Int)
    (ha : a.isDigit = true) (hl : l.all Char.isDigit = true) :
    rustParseF64 ((a :: (if l.isEmpty then [] else '.' :: l)) ++ 'e' :: intChars E) =
      some (qOfDigitsExp (a :: l) (E - l.length)) := by
  have hae : a ≠ 'e' := char_ne_of_isDigit ha (by decide)
  have haE : a ≠ 'E' := char_ne_of_isDigit ha (by decide)
  have had : a ≠ '.' := char_ne_of_isDigit ha (by decide)
  by_cases h0 : l.isEmpty = true
  · have hl0 : l = [] := by
      cases l with
      | nil => rfl
      | cons x t => exact absurd h0 (by simp)
    subst hl0
    rw [if_pos h0]
    simp only [rustParseF64,
      takeWhile_append_stop (fun c => !(c = 'e' || c = 'E')) [a] (intChars E) 'e'
        (by simp [hae, haE]) (by decide),
      dropWhile_append_stop (fun c => !(c = 'e' || c = 'E')) [a] (intChars E) 'e'
        (by simp [hae, haE]) (by decide),
      parseExpDigits_intChars E,
      takeWhile_of_all (fun c => !(c = '.')) [a] (by simp [had]),
      dropWhile_of_all (fun c => !(c = '.')) [a] (by simp [had])]
    simp [ha, qOfDigitsExp]
  · rw [if_neg h0]
    have hmantall : (a :: '.' :: l).all (fun c => !(c = 'e' || c = 'E')) = true := by
      rw [List.all_cons, List.all_cons, all_digits_pNE l hl]
      simp [hae, haE]
    simp only [rustParseF64,
      takeWhile_append_stop (fun c => !(c = 'e' || c = 'E')) (a :: '.' :: l)
        (intChars E) 'e' hmantall (by decide),
      dropWhile_append_stop (fun c => !(c = 'e' || c = 'E')) (a :: '.' :: l)
        (intChars E) 'e' hmantall (by decide),
      parseExpDigits_intChars E,
      @List.takeWhile_cons_of_pos Char (fun c => !(c = '.')) a ('.' :: l)
        (by simp [had]),
      @List.takeWhile_cons_of_neg Char (fun c => !(c = '.')) '.' l (by decide),
      @List.dropWhile_cons_of_pos Char (fun c => !(c = '.')) a ('.' :: l)
        (by simp [had]),
      @List.dropWhile_cons_of_neg Char (fun c => !(c = '.')) '.' l (by decide),
      contains_eq_false_of_all Char.isDigit l '.' hl (by decide)]
    simp [ha, hl]

theorem sciChars_shape (n : Nat) (e : Int) (a : Char) (l : List Char)
    (hn : natChars n = a :: l) :
    sciChars n e =
      (a :: (if l.isEmpty then [] else '.' :: l)) ++ 'e' :: intChars (e + l.length) := by
  rw [sciChars, hn]
  simp only [List.headD_cons, List.tail_cons, List.length_cons, Nat.add_sub_cancel]

theorem nextToken_sciChars (n : Nat) (e : Int) :
    nextToken (sciChars n e) = some (Token.Number (qOfDigitsExp (natChars n) e), []) := by
  obtain ⟨a, l, hn⟩ := exists_cons_natChars n
  have hall : (a :: l).all Char.isDigit = true := hn ▸ natChars_all_digit n
  have ha : a.isDigit = true := List.all_eq_true.mp hall a (List.mem_cons_self a l)
  have hl : l.all Char.isDigit = true := by
    rw [List.all_cons] at hall
    exact (Bool.and_eq_true _ _).mp hall |>.2
  have hm : ((a :: (if l.isEmpty then [] else '.' :: l)).all
      (fun c => c.isDigit || c = '.')) = true := by
    rw [List.all_cons]
    refine (Bool.and_eq_true _ _).mpr ⟨by simp [ha], ?_⟩
    by_cases h0 : l.isEmpty = true
    · rw [if_pos h0]
      rfl
    · rw [if_neg h0, List.all_cons, all_digits_pDot l hl]
      simp
  rw [sciChars_shape n e a l hn]
  rw [List.cons_append]
  rw [nextToken]
  simp only [List.length_cons]
  rw [nextTokenFuel_digit _ a _ ha]
  rw [← List.cons_append]
  rw [numberSliceLen_sci a (if l.isEmpty then [] else '.' :: l) (e + l.length) hm]
  dsimp only
  rw [List.take_length, List.drop_length]
  rw [rustParseF64_mant a l (e + l.length) ha hl]
  rw [hn]
  have harith : (e + (l.length : Int)) - (l.length : Int) = e := by ring
  rw [harith]

theorem evaluate_number (impl : FnImpl) (mode : VarMode) (g : Nat) (q : ℚ)
    (vars : List String) :
    evaluate impl mode (g + 1) (PState.mk (Token.Number q) [] vars) =
      Except.ok (q, PState.mk Token.EndOfString [] vars) := rfl

theorem eval_all_number (impl : FnImpl) (mode : VarMode) (f : Nat) (q : ℚ)
    (vars : List String) :
    evaluate_all_tokens impl mode (f + 8) (PState.mk (Token.Number q) [] vars) =
      Except.ok (some (1 * q), PState.mk Token.EndOfString [] vars) := rfl

theorem evaluate_unary_minus (impl : FnImpl) (mode : VarMode) (g : Nat) (q : ℚ)
    (vars : List String) (cs : List Char)
    (hcs : nextToken cs = some (Token.Number q, [])) :
    evaluate_unary impl mode (g + 2) (PState.mk Token.Minus cs vars) =
      Except.ok (-1 * q, PState.mk Token.EndOfString [] vars) := by
  have hst : stateNextToken (PState.mk Token.Minus cs vars) =
      PState.mk (Token.Number q) [] vars := by
    simp only [stateNextToken, hcs]
  rw [evaluate_unary]
  dsimp only
  rw [hst, evaluate_number, except_bind_ok]

theorem evaluate_binary_3_minus (impl : FnImpl) (mode : VarMode) (g : Nat) (q : ℚ)
    (vars : List String) (cs : List Char)
    (hcs : nextToken cs = some (Token.Number q, [])) :
    evaluate_binary_3 impl mode (g + 3) (PState.mk Token.Minus cs vars) =
      Except.ok (-1 * q, PState.mk Token.EndOfString [] vars) := by
  rw [evaluate_binary_3]
  rw [evaluate_unary_minus impl mode g q vars cs hcs, except_bind_ok]

theorem evaluate_binary_2_minus (impl : FnImpl) (mode : VarMode) (g : Nat) (q : ℚ)
    (vars : List String) (cs : List Char)
    (hcs : nextToken cs = some (Token.Number q, [])) :
    evaluate_binary_2 impl mode (g + 4) (PState.mk Token.Minus cs vars) =
      Except.ok (-1 * q, PState.mk Token.EndOfString [] vars) := by
  rw [evaluate_binary_2]
  rw [evaluate_binary_3_minus impl mode g q vars cs hcs, except_bind_ok]
  rfl

theorem evaluate_binary_1_minus (impl : FnImpl) (mode : VarMode) (g : Nat) (q : ℚ)
    (vars : List String) (cs : List Char)
    (hcs : nextToken cs = some (Token.Number q, [])) :
    evaluate_binary_1 impl mode (g + 5) (PState.mk Token.Minus cs vars) =
      Except.ok (-1 * q, PState.mk Token.EndOfString [] vars) := by
  rw [evaluate_binary_1]
  rw [evaluate_binary_2_minus impl mode g q vars cs hcs, except_bind_ok]
  rfl

theorem evaluate_init_minus (impl : FnImpl) (mode : VarMode) (g : Nat) (q : ℚ)
    (vars : List String) (cs : List Char)
    (hcs : nextToken cs = some (Token.Number q, [])) :
    evaluate_init impl mode (g + 6) (PState.mk Token.Minus cs vars) =
      Except.ok (some (-1 * q), PState.mk Token.EndOfString [] vars) := by
  rw [evaluate_init]
  rw [if_neg (by simp)]
  rw [evaluate_binary_1_minus impl mode g q vars cs hcs, except_bind_ok]

theorem eval_all_minus_number (impl : FnImpl) (mode : VarMode) (f : Nat) (q : ℚ)
    (vars : List String) (cs : List Char)
    (hcs : nextToken cs = some (Token.Number q, [])) :
    evaluate_all_tokens impl mode (f + 8) (PState.mk Token.Minus cs vars) =
      Except.ok (some (-1 * q), PState.mk Token.EndOfString [] vars) := by
  rw [evaluate_all_tokens]
  rw [if_neg (by simp)]
  rw [evaluate_init_minus impl mode (f + 1) q vars cs hcs, except_bind_ok]
  rfl

theorem qOfDigitsExp_pos (m e : Int) (hm : 0 ≤ m) :
    1 * qOfDigitsExp (natChars m.natAbs) e = floatPairVal m e := by
  rw [qOfDigitsExp, floatPairVal, digitsVal_natChars]
  have hcast : ((m.natAbs : Nat) : ℚ) = (m : ℚ) := by
    rw [Int.cast_natAbs, abs_of_nonneg hm]
  rw [hcast, one_mul]

theorem qOfDigitsExp_negm (m e : Int) (hm : m < 0) :
    -1 * qOfDigitsExp (natChars m.natAbs) e = floatPairVal m e := by
  rw [qOfDigitsExp, floatPairVal, digitsVal_natChars]
  have hcast : ((m.natAbs : Nat) : ℚ) = -(m : ℚ) := by
    rw [Int.cast_natAbs, abs_of_neg hm, Int.cast_neg]
  rw [hcast]
  by_cases he : 0 ≤ e
  · rw [if_pos he, if_pos he]
    ring
  · rw [if_neg he, if_neg he]
    ring

theorem parse_expression_cf (impl : FnImpl) (mode : VarMode) (m e : Int) :
    parse_expression impl mode (cfString (CalculatorFloat.Float m e)) =
      Except.ok (some (floatPairVal m e), PState.mk Token.EndOfString [] []) := by
  by_cases hm : m < 0
  · have hcf : cfChars (CalculatorFloat.Float m e) = '-' :: sciChars m.natAbs e := by
      rw [cfChars, if_pos hm]
      simp
    have hlex : nextToken (cfString (CalculatorFloat.Float m e)).data =
        some (Token.Minus, sciChars m.natAbs e) := by
      show nextToken (cfChars (CalculatorFloat.Float m e)) = _
      rw [hcf]
      rfl
    simp only [parse_expression, hlex]
    rw [show 10 * (cfString (CalculatorFloat.Float m e)).length + 20 =
      (10 * (cfString (CalculatorFloat.Float m e)).length + 12) + 8 from by omega]
    rw [eval_all_minus_number impl mode _ _ [] _ (nextToken_sciChars m.natAbs e)]
    rw [qOfDigitsExp_negm m e hm]
  · have hcf : cfChars (CalculatorFloat.Float m e) = sciChars m.natAbs e := by
      rw [cfChars, if_neg hm]
      simp
    have hlex : nextToken (cfString (CalculatorFloat.Float m e)).data =
        some (Token.Number (qOfDigitsExp (natChars m.natAbs) e), []) := by
      show nextToken (cfChars (CalculatorFloat.Float m e)) = _
      rw [hcf]
      exact nextToken_sciChars m.natAbs e
    simp only [parse_expression, hlex]
    rw [show 10 * (cfString (CalculatorFloat.Float m e)).length + 20 =
      (10 * (cfString (CalculatorFloat.Float m e)).length + 12) + 8 from by omega]
    rw [eval_all_number impl mode _ _ []]
    rw [qOfDigitsExp_pos m e (by omega)]

theorem calc_parse_str_cf (impl : FnImpl) (m e : Int) :
    calc_parse_str impl (cfString (CalculatorFloat.Float m e)) =
      Except.ok (floatPairVal m e) := by
  simp only [calc_parse_str, parse_expression_cf impl VarMode.Reject m e]

theorem countFactorFuel_eq (p : Nat) (hp : 2 ≤ p) :
    ∀ (x q fuel : Nat), ¬ p ∣ q → 0 < q → p ^ x * q ≤ fuel →
      countFactorFuel p fuel (p ^ x * q) = x := by
  intro x
  induction x with
  | zero =>
      intro q fuel hq hq0 hle
      simp only [pow_zero, one_mul] at hle ⊢
      obtain ⟨q', rfl⟩ : ∃ q', q = q' + 1 := ⟨q - 1, by omega⟩
      obtain ⟨f, rfl⟩ : ∃ f, fuel = f + 1 := ⟨fuel - 1, by omega⟩
      rw [countFactorFuel, if_neg (fun hand => hq (Nat.dvd_of_mod_eq_zero hand.2))]
  | succ x ih =>
      intro q fuel hq hq0 hle
      have hp0 : 0 < p := by omega
      have hpos : 0 < p ^ x * q := Nat.mul_pos (Nat.pos_pow_of_pos x hp0) hq0
      have hrw : p ^ (x + 1) * q = p * (p ^ x * q) := by ring
      have hpos1 : 0 < p ^ (x + 1) * q := by
        rw [hrw]
        exact Nat.mul_pos hp0 hpos
      obtain ⟨n', hn'⟩ : ∃ n', p ^ (x + 1) * q = n' + 1 := ⟨p ^ (x + 1) * q - 1, by omega⟩
      obtain ⟨f, rfl⟩ : ∃ f, fuel = f + 1 := ⟨fuel - 1, by omega⟩
      rw [hn', countFactorFuel, ← hn']
      have hdvd : p ∣ p ^ (x + 1) * q := Dvd.dvd.mul_right (dvd_pow_self p (by omega)) q
      rw [if_pos ⟨hp, Nat.dvd_iff_mod_eq_zero.mp hdvd⟩]
      rw [hrw, Nat.mul_div_cancel_left _ hp0]
      have hmul : 2 * (p ^ x * q) ≤ p * (p ^ x * q) := Nat.mul_le_mul_right _ hp
      rw [ih q f hq hq0 (by omega)]
      omega

theorem countFactor_pow_mul (p : Nat) (hp : 2 ≤ p) (x q : Nat)
    (hq : ¬ p ∣ q) (hq0 : 0 < q) : countFactor p (p ^ x * q) = x :=
  countFactorFuel_eq p hp x q (p ^ x * q) hq hq0 le_rfl

theorem countFactor_two_pow (x y : Nat) : countFactor 2 (2 ^ x * 5 ^ y) = x :=
  countFactor_pow_mul 2 le_rfl x (5 ^ y)
    (fun h => by
      have := Nat.Prime.dvd_of_dvd_pow Nat.prime_two h
      omega)
    (Nat.pos_pow_of_pos y (by omega))

theorem countFactor_five_pow (x y : Nat) : countFactor 5 (2 ^ x * 5 ^ y) = y := by
  rw [mul_comm]
  exact countFactor_pow_mul 5 (by omega) y (2 ^ x)
    (fun h => by
      have := Nat.Prime.dvd_of_dvd_pow (by norm_num : Nat.Prime 5) h
      omega)
    (Nat.pos_pow_of_pos x (by omega))

theorem dvd_ten_pow_decomp (d K : Nat) (h : d ∣ 10 ^ K) :
    ∃ x y, x ≤ K ∧ y ≤ K ∧ d = 2 ^ x * 5 ^ y := by
  have h10 : (10 : Nat) ^ K = 2 ^ K * 5 ^ K := by
    rw [← Nat.mul_pow]
  rw [h10] at h
  obtain ⟨k1, k2, h1, h2, hk⟩ := Nat.dvd_mul.mp h
  obtain ⟨x, hx, rfl⟩ := (Nat.dvd_prime_pow Nat.prime_two).mp h1
  obtain ⟨y, hy, rfl⟩ := (Nat.dvd_prime_pow (by norm_num : Nat.Prime 5)).mp h2
  exact ⟨x, y, hx, hy, hk.symm⟩

theorem normTens_nodvd (f : Nat) (m : Int) (e0 : Int) (hm : ¬ (10 : Int) ∣ m) :
    normTens f m e0 = (m, e0) := by
  cases f with
  | zero => rfl
  | succ f =>
      rw [normTens, if_neg (fun hand => hm (Int.dvd_of_emod_eq_zero hand.2))]

theorem normTens_pow :
    ∀ (E : Nat) (f : Nat) (m : Int) (e0 : Int), ¬ ((10 : Int) ∣ m) → m ≠ 0 → E ≤ f →
      normTens f (m * 10 ^ E) e0 = (m, e0 + E) := by
  intro E
  induction E with
  | zero =>
      intro f m e0 hm hm0 hE
      rw [pow_zero, mul_one, normTens_nodvd f m e0 hm]
      simp
  | succ E ih =>
      intro f m e0 hm hm0 hE
      obtain ⟨f', rfl⟩ : ∃ f', f = f' + 1 := ⟨f - 1, by omega⟩
      rw [normTens]
      have hdvd : (10 : Int) ∣ m * 10 ^ (E + 1) := ⟨m * 10 ^ E, by ring⟩
      rw [if_pos ⟨mul_ne_zero hm0 (pow_ne_zero _ (by norm_num)),
        Int.emod_eq_zero_of_dvd hdvd⟩]
      rw [show (m * 10 ^ (E + 1) : Int) / 10 = m * 10 ^ E from by
        rw [pow_succ, ← mul_assoc]
        exact Int.mul_ediv_cancel _ (by norm_num)]
      rw [ih f' m (e0 + 1) hm hm0 (by omega)]
      rw [Prod.mk.injEq]
      refine ⟨rfl, ?_⟩
      push_cast
      ring

set_option maxHeartbeats 1000000 in
theorem cfFromValue_floatPairVal (m e : Int) (hwf : wfFloatPair m e) :
    cfFromValue (floatPairVal m e) = CalculatorFloat.Float m e := by
  obtain ⟨hz, hnd⟩ := hwf
  by_cases hm0 : m = 0
  · subst hm0
    rw [hz rfl]
    rw [show floatPairVal 0 0 = 0 from by rw [floatPairVal]; norm_num]
    rw [cfFromValue, if_pos rfl]
  · have hnd' : ¬ (10 : Int) ∣ m := hnd hm0
    by_cases he : 0 ≤ e
    · have hv : floatPairVal m e = ((m * 10 ^ e.toNat : Int) : ℚ) := by
        rw [floatPairVal, if_pos he]
        push_cast
        ring
      have hvne : ((m * 10 ^ e.toNat : Int) : ℚ) ≠ 0 := by
        rw [Int.cast_ne_zero]
        exact mul_ne_zero hm0 (pow_ne_zero _ (by norm_num))
      rw [hv, cfFromValue, if_neg hvne]
      dsimp only
      rw [Rat.den_intCast, Rat.num_intCast]
      rw [show countFactor 2 1 = 0 from rfl, show countFactor 5 1 = 0 from rfl]
      rw [if_pos (by norm_num : (2 : Nat) ^ 0 * 5 ^ 0 = 1)]
      rw [show Nat.max 0 0 = 0 from rfl]
      rw [show ((10 : Int) ^ (0 : Nat) / ((1 : Nat) : Int)) = 1 from by norm_num]
      rw [mul_one]
      have hfuel : e.toNat ≤ (m * 10 ^ e.toNat).natAbs := by
        rw [Int.natAbs_mul, Int.natAbs_pow]
        have h1 : e.toNat < 10 ^ e.toNat := Nat.lt_pow_self (by norm_num) _
        have h2 : 0 < m.natAbs := Int.natAbs_pos.mpr hm0
        have h3 : (10 : Int).natAbs = 10 := rfl
        rw [h3]
        have h4 : 10 ^ e.toNat ≤ m.natAbs * 10 ^ e.toNat :=
          Nat.le_mul_of_pos_left _ h2
        omega
      rw [normTens_pow e.toNat _ m _ hnd' hm0 hfuel]
      have harith : (-((0 : Nat) : Int) + (e.toNat : Int)) = e := by omega
      rw [harith]
    · have hK : 0 < (-e).toNat := by omega
      have hv : floatPairVal m e = (m : ℚ) / 10 ^ (-e).toNat := by
        rw [floatPairVal, if_neg he]
      have hvne : floatPairVal m e ≠ 0 := by
        rw [hv]
        exact div_ne_zero (Int.cast_ne_zero.mpr hm0) (pow_ne_zero _ (by norm_num))
      have hden0 : ((floatPairVal m e).den : Int) ≠ 0 := by
        exact_mod_cast Rat.den_ne_zero (floatPairVal m e)
      have hcross : (floatPairVal m e).num * 10 ^ (-e).toNat =
          m * ((floatPairVal m e).den : Int) := by
        have h1 : ((floatPairVal m e).num : ℚ) / ((floatPairVal m e).den : ℚ) =
            (m : ℚ) / 10 ^ (-e).toNat := by
          rw [Rat.num_div_den, hv]
        have hdq : (((floatPairVal m e).den : ℚ)) ≠ 0 := by
          exact_mod_cast Rat.den_ne_zero (floatPairVal m e)
        have hpq : ((10 : ℚ) ^ (-e).toNat) ≠ 0 := pow_ne_zero _ (by norm_num)
        field_simp at h1
        exact_mod_cast h1
      have hdvd : (floatPairVal m e).den ∣ 10 ^ (-e).toNat := by
        have hco : Nat.Coprime (floatPairVal m e).den (floatPairVal m e).num.natAbs :=
          (floatPairVal m e).reduced.symm
        have habs : ((floatPairVal m e).num * 10 ^ (-e).toNat).natAbs =
            (floatPairVal m e).num.natAbs * 10 ^ (-e).toNat := by
          rw [Int.natAbs_mul, Int.natAbs_pow]
          norm_num
        have hdvd1 : (floatPairVal m e).den ∣
            (floatPairVal m e).num.natAbs * 10 ^ (-e).toNat := by
          rw [← habs, hcross, Int.natAbs_mul, Int.natAbs_ofNat]
          exact dvd_mul_left _ _
        exact Nat.Coprime.dvd_of_dvd_mul_left hco hdvd1
      obtain ⟨x, y, hx, hy, hd⟩ := dvd_ten_pow_decomp _ _ hdvd
      have hk : max x y ≤ (-e).toNat := max_le hx hy
      have hdvdk : (2 : Nat) ^ x * 5 ^ y ∣ 10 ^ (max x y) := by
        rw [show (10 : Nat) ^ (max x y) = 2 ^ (max x y) * 5 ^ (max x y) from by
          rw [← Nat.mul_pow]]
        exact Nat.mul_dvd_mul (pow_dvd_pow 2 (le_max_left x y))
          (pow_dvd_pow 5 (le_max_right x y))
      have hdvdkZ : (((2 : Nat) ^ x * 5 ^ y : Nat) : Int) ∣ (10 : Int) ^ (max x y) := by
        have := Int.natCast_dvd_natCast.mpr hdvdk
        push_cast at this
        push_cast
        exact this
      rw [hd] at hcross hden0
      have hmul : (floatPairVal m e).num *
            ((10 : Int) ^ (max x y) / (((2 : Nat) ^ x * 5 ^ y : Nat) : Int)) *
            (((2 : Nat) ^ x * 5 ^ y : Nat) : Int) =
          (floatPairVal m e).num * 10 ^ (max x y) := by
        rw [mul_assoc, Int.ediv_mul_cancel hdvdkZ]
      have hkey : (floatPairVal m e).num *
            ((10 : Int) ^ (max x y) / (((2 : Nat) ^ x * 5 ^ y : Nat) : Int)) *
            10 ^ (-e).toNat = m * 10 ^ (max x y) := by
        apply mul_right_cancel₀ hden0
        calc (floatPairVal m e).num *
              ((10 : Int) ^ (max x y) / (((2 : Nat) ^ x * 5 ^ y : Nat) : Int)) *
              10 ^ (-e).toNat * (((2 : Nat) ^ x * 5 ^ y : Nat) : Int) =
            (floatPairVal m e).num *
              ((10 : Int) ^ (max x y) / (((2 : Nat) ^ x * 5 ^ y : Nat) : Int)) *
              (((2 : Nat) ^ x * 5 ^ y : Nat) : Int) * 10 ^ (-e).toNat := by ring
        _ = (floatPairVal m e).num * 10 ^ (max x y) * 10 ^ (-e).toNat := by rw [hmul]
        _ = (floatPairVal m e).num * 10 ^ (-e).toNat * 10 ^ (max x y) := by ring
        _ = m * (((2 : Nat) ^ x * 5 ^ y : Nat) : Int) * 10 ^ (max x y) := by rw [hcross]
        _ = m * 10 ^ (max x y) * (((2 : Nat) ^ x * 5 ^ y : Nat) : Int) := by ring
      have hKk : (-e).toNat = max x y := by
        by_contra hne
        have hlt : max x y < (-e).toNat := by omega
        have hsplit : (10 : Int) ^ (-e).toNat =
            10 ^ (max x y) * 10 ^ ((-e).toNat - max x y) := by
          rw [← pow_add]
          congr 1
          omega
        have hm' : m = (floatPairVal m e).num *
            ((10 : Int) ^ (max x y) / (((2 : Nat) ^ x * 5 ^ y : Nat) : Int)) *
            10 ^ ((-e).toNat - max x y) := by
          apply mul_right_cancel₀ (pow_ne_zero (max x y) (by norm_num : (10 : Int) ≠ 0))
          calc m * 10 ^ (max x y) = (floatPairVal m e).num *
                ((10 : Int) ^ (max x y) / (((2 : Nat) ^ x * 5 ^ y : Nat) : Int)) *
                10 ^ (-e).toNat := hkey.symm
          _ = (floatPairVal m e).num *
                ((10 : Int) ^ (max x y) / (((2 : Nat) ^ x * 5 ^ y : Nat) : Int)) *
                10 ^ ((-e).toNat - max x y) * 10 ^ (max x y) := by
              rw [hsplit]
              ring
        apply hnd'
        rw [hm']
        exact Dvd.dvd.mul_left (dvd_pow_self 10 (by omega : (-e).toNat - max x y ≠ 0)) _
      have hn0m : (floatPairVal m e).num *
          ((10 : Int) ^ (max x y) / (((2 : Nat) ^ x * 5 ^ y : Nat) : Int)) = m := by
        apply mul_right_cancel₀ (pow_ne_zero (-e).toNat (by norm_num : (10 : Int) ≠ 0))
        rw [hkey, hKk]
      rw [cfFromValue, if_neg hvne]
      dsimp only
      rw [hd]
      rw [countFactor_two_pow, countFactor_five_pow]
      rw [if_pos rfl]
      rw [hn0m]
      rw [normTens_nodvd _ m _ hnd']
      have harith : -((max x y : Nat) : Int) = e := by omega
      rw [harith]

theorem qidx_data (reg : String) (q : Nat) :
    (qidx reg q).data = reg.data ++ '[' :: (natChars q ++ [']']) := by
  simp only [qidx, String.data_append, List.append_assoc]
  rfl

theorem parseQubitRef_qref (name : String) (n : Nat) (rest : List Char)
    (h : isWfIdent name = true) :
    parseQubitRef (name.data ++ '[' :: (natChars n ++ ']' :: rest)) =
      some (name, n, rest) := by
  obtain ⟨l⟩ := name
  cases l with
  | nil => simp [isWfIdent] at h
  | cons c t =>
      simp only [isWfIdent, List.all_cons, Bool.and_eq_true] at h
      obtain ⟨-, hc, ht⟩ := h
      have hall : (c :: t).all isIdentChar = true := by
        simp [List.all_cons, hc, ht]
      dsimp only
      simp only [parseQubitRef,
        takeWhile_append_stop isIdentChar (c :: t) (natChars n ++ ']' :: rest) '['
          hall (by decide),
        dropWhile_append_stop isIdentChar (c :: t) (natChars n ++ ']' :: rest) '['
          hall (by decide),
        takeWhile_append_stop (fun ch => ch.isDigit) (natChars n) rest ']'
          (natChars_all_digit n) (by decide),
        dropWhile_append_stop (fun ch => ch.isDigit) (natChars n) rest ']'
          (natChars_all_digit n) (by decide),
        natChars_isEmpty, digitsVal_natChars, List.isEmpty_cons]
      rfl

theorem parseQubitList_one (f : Nat) (name : String) (n : Nat)
    (h : isWfIdent name = true) :
    parseQubitList (f + 1) (name.data ++ '[' :: (natChars n ++ ']' :: [';'])) =
      some ([(name, n)], [';']) := by
  rw [parseQubitList, parseQubitRef_qref name n [';'] h]
  rfl

theorem parseQubitList_cons (f : Nat) (name : String) (n : Nat) (csRest : List Char)
    (out : List (String × Nat)) (r : List Char) (h : isWfIdent name = true)
    (hrec : parseQubitList f csRest = some (out, r)) :
    parseQubitList (f + 1) (name.data ++ '[' :: (natChars n ++ ']' :: ',' :: csRest)) =
      some ((name, n) :: out, r) := by
  rw [parseQubitList, parseQubitRef_qref name n (',' :: csRest) h]
  simp [hrec]

theorem wfIdent_data_ne_nil (name : String) (h : isWfIdent name = true) :
    name.data ≠ [] := by
  obtain ⟨l⟩ := name
  cases l with
  | nil => simp [isWfIdent] at h
  | cons c t => simp

/-- A statement line beginning qreg is recognized and skipped whatever
follows. -/
theorem parse_qreg_skip (impl : FnImpl) (rest : List Char) :
    parse_single_statement impl ('q' :: 'r' :: 'e' :: 'g' :: ' ' :: rest) =
      Except.ok none := by
  simp only [parse_single_statement]
  simp [prefixCheck_cons, prefixCheck_nil]

set_option maxHeartbeats 1000000 in
/-- The statement line of a Hadamard gate parses back to the Hadamard
operation. -/
theorem parse_line_hadamard (impl : FnImpl) (reg : String) (q : Nat)
    (hr : isWfIdent reg = true) :
    parse_single_statement impl (lineOf reg (SubsetOp.Hadamard q)).data =
      Except.ok (some (Op.Hadamard q)) := by
  have hdata : (lineOf reg (SubsetOp.Hadamard q)).data =
      'h' :: ' ' :: (reg.data ++ '[' :: (natChars q ++ ']' :: [';'])) := by
    simp only [lineOf, String.data_append, qidx_data, List.append_assoc,
      List.cons_append]
    rfl
  rw [hdata]
  obtain ⟨f, hf⟩ : ∃ f, (reg.data ++ '[' :: (natChars q ++ ']' :: [';'])).length = f + 1 := by
    cases hreg : reg.data with
    | nil => exact absurd hreg (wfIdent_data_ne_nil reg hr)
    | cons c t => exact ⟨(t ++ '[' :: (natChars q ++ ']' :: [';'])).length, by simp⟩
  simp only [parse_single_statement]
  simp only [prefixCheck_cons, prefixCheck_nil,
    @List.takeWhile_cons_of_pos Char isIdentChar 'h'
      (' ' :: (reg.data ++ '[' :: (natChars q ++ ']' :: [';']))) (by decide),
    @List.takeWhile_cons_of_neg Char isIdentChar ' '
      (reg.data ++ '[' :: (natChars q ++ ']' :: [';'])) (by decide),
    @List.dropWhile_cons_of_pos Char isIdentChar 'h'
      (' ' :: (reg.data ++ '[' :: (natChars q ++ ']' :: [';']))) (by decide),
    @List.dropWhile_cons_of_neg Char isIdentChar ' '
      (reg.data ++ '[' :: (natChars q ++ ']' :: [';'])) (by decide),
    hf, parseQubitList_one f reg q hr]
  simp
  rfl

theorem char_ne_of_isLit {c : Char} (h : isLitChar c = true) {d : Char}
    (hd : isLitChar d = false) : c ≠ d := by
  intro hc
  rw [hc, hd] at h
  exact Bool.noConfusion h

theorem all_lit_of_digits (l : List Char) (h : l.all Char.isDigit = true) :
    l.all isLitChar = true := by
  rw [List.all_eq_true] at h ⊢
  intro x hx
  simp [isLitChar, h x hx]

theorem intChars_all_lit (E : Int) : (intChars E).all isLitChar = true := by
  rw [intChars]
  by_cases hE : E < 0
  · rw [if_pos hE, List.all_cons, all_lit_of_digits _ (natChars_all_digit E.natAbs)]
    decide
  · rw [if_neg hE]
    exact all_lit_of_digits _ (natChars_all_digit E.natAbs)

theorem sciChars_all_lit (n : Nat) (e : Int) : (sciChars n e).all isLitChar = true := by
  obtain ⟨a, l, hn⟩ := exists_cons_natChars n
  have hall : (a :: l).all Char.isDigit = true := hn ▸ natChars_all_digit n
  have ha : a.isDigit = true := List.all_eq_true.mp hall a (List.mem_cons_self a l)
  have hl : l.all Char.isDigit = true := by
    rw [List.all_cons] at hall
    exact (Bool.and_eq_true _ _).mp hall |>.2
  rw [sciChars_shape n e a l hn, List.all_append, List.all_cons, List.all_cons]
  rw [intChars_all_lit]
  have htl : (if l.isEmpty then [] else '.' :: l).all isLitChar = true := by
    by_cases h0 : l.isEmpty = true
    · rw [if_pos h0]
      rfl
    · rw [if_neg h0, List.all_cons, all_lit_of_digits l hl]
      decide
  rw [htl]
  simp [isLitChar, ha]

theorem cfChars_float_all_lit (m e : Int) :
    (cfChars (CalculatorFloat.Float m e)).all isLitChar = true := by
  rw [cfChars]
  by_cases hm : m < 0
  · rw [if_pos hm]
    simp only [List.cons_append, List.nil_append, List.all_cons,
      sciChars_all_lit m.natAbs e]
    decide
  · rw [if_neg hm]
    simp [sciChars_all_lit m.natAbs e]

theorem all_imp_ne (l : List Char) (p : Char → Bool) (h : l.all p = true) (d : Char)
    (hd : p d = false) : l.all (fun c => !(c = d)) = true := by
  rw [List.all_eq_true] at h ⊢
  intro x hx
  have hxd : x ≠ d := by
    intro hc
    have := h x hx
    rw [hc, hd] at this
    exact Bool.noConfusion this
  simp [hxd]

theorem splitOnComma_single (cs : List Char) (h : cs.all (fun c => !(c = ',')) = true) :
    splitOnComma cs = [cs] := by
  induction cs with
  | nil => rfl
  | cons c t ih =>
      simp only [List.all_cons, Bool.and_eq_true] at h
      have hc : ¬ c = ',' := by
        intro hc
        rw [hc] at h
        exact absurd h.1 (by decide)
      rw [splitOnComma]
      · rw [ih h.2]
      · exact fun hch => hc hch

theorem replaceAllFuel_no_head (p0 : Char) (pt sub : List Char) :
    ∀ (f : Nat) (cs : List Char), p0 ∉ cs → replaceAllFuel (p0 :: pt) sub f cs = cs := by
  intro f
  induction f with
  | zero =>
      intro cs hmem
      cases cs <;> rfl
  | succ f ih =>
      intro cs hmem
      cases cs with
      | nil => rfl
      | cons c rest =>
          rw [replaceAllFuel]
          rw [if_neg ?hcond]
          · rw [ih rest (fun hm => hmem (List.mem_cons_of_mem c hm))]
          · intro hand
            have hpre := hand.2
            rw [List.isPrefixOf, Bool.and_eq_true] at hpre
            have : p0 = c := by
              have := hpre.1
              simpa using this
            exact hmem (this ▸ List.mem_cons_self p0 rest)

theorem replaceAll_no_head (p0 : Char) (pt sub cs : List Char) (h : p0 ∉ cs) :
    replaceAll (p0 :: pt) sub cs = cs :=
  replaceAllFuel_no_head p0 pt sub cs.length cs h

theorem not_mem_of_all_lit (cs : List Char) (h : cs.all isLitChar = true) (d : Char)
    (hd : isLitChar d = false) : d ∉ cs :=
  not_mem_of_all isLitChar cs d h hd

theorem calc_parse_str_cfChars (impl : FnImpl) (m e : Int) :
    calc_parse_str impl ⟨cfChars (CalculatorFloat.Float m e)⟩ =
      Except.ok (floatPairVal m e) :=
  calc_parse_str_cf impl m e

set_option maxHeartbeats 1000000 in
/-- The statement line of the PauliX gate parses back to the operation. -/
theorem parse_line_x (impl : FnImpl) (reg : String) (q : Nat)
    (hr : isWfIdent reg = true) :
    parse_single_statement impl (lineOf reg (SubsetOp.PauliX q)).data =
      Except.ok (some (Op.PauliX q)) := by
  have hdata : (lineOf reg (SubsetOp.PauliX q)).data =
      'x' :: ' ' :: (reg.data ++ '[' :: (natChars q ++ ']' :: [';'])) := by
    simp only [lineOf, String.data_append, qidx_data, List.append_assoc,
      List.cons_append]
    rfl
  rw [hdata]
  obtain ⟨f, hf⟩ : ∃ f, (reg.data ++ '[' :: (natChars q ++ ']' :: [';'])).length = f + 1 := by
    cases hreg : reg.data with
    | nil => exact absurd hreg (wfIdent_data_ne_nil reg hr)
    | cons c t => exact ⟨(t ++ '[' :: (natChars q ++ ']' :: [';'])).length, by simp⟩
  simp only [parse_single_statement]
  simp only [prefixCheck_cons, prefixCheck_nil,
    @List.takeWhile_cons_of_pos Char isIdentChar 'x'
      ((' ' :: (reg.data ++ '[' :: (natChars q ++ ']' :: [';'])))) (by decide),
    @List.dropWhile_cons_of_pos Char isIdentChar 'x'
      ((' ' :: (reg.data ++ '[' :: (natChars q ++ ']' :: [';'])))) (by decide),
    @List.takeWhile_cons_of_neg Char isIdentChar ' '
      (reg.data ++ '[' :: (natChars q ++ ']' :: [';'])) (by decide),
    @List.dropWhile_cons_of_neg Char isIdentChar ' '
      (reg.data ++ '[' :: (natChars q ++ ']' :: [';'])) (by decide),
    hf, parseQubitList_one f reg q hr]
  simp
  rfl

set_option maxHeartbeats 1000000 in
/-- The statement line of the PauliY gate parses back to the operation. -/
theorem parse_line_y (impl : FnImpl) (reg : String) (q : Nat)
    (hr : isWfIdent reg = true) :
    parse_single_statement impl (lineOf reg (SubsetOp.PauliY q)).data =
      Except.ok (some (Op.PauliY q)) := by
  have hdata : (lineOf reg (SubsetOp.PauliY q)).data =
      'y' :: ' ' :: (reg.data ++ '[' :: (natChars q ++ ']' :: [';'])) := by
    simp only [lineOf, String.data_append, qidx_data, List.append_assoc,
      List.cons_append]
    rfl
  rw [hdata]
  obtain ⟨f, hf⟩ : ∃ f, (reg.data ++ '[' :: (natChars q ++ ']' :: [';'])).length = f + 1 := by
    cases hreg : reg.data with
    | nil => exact absurd hreg (wfIdent_data_ne_nil reg hr)
    | cons c t => exact ⟨(t ++ '[' :: (natChars q ++ ']' :: [';'])).length, by simp⟩
  simp only [parse_single_statement]
  simp only [prefixCheck_cons, prefixCheck_nil,
    @List.takeWhile_cons_of_pos Char isIdentChar 'y'
      ((' ' :: (reg.data ++ '[' :: (natChars q ++ ']' :: [';'])))) (by decide),
    @List.dropWhile_cons_of_pos Char isIdentChar 'y'
      ((' ' :: (reg.data ++ '[' :: (natChars q ++ ']' :: [';'])))) (by decide),
    @List.takeWhile_cons_of_neg Char isIdentChar ' '
      (reg.data ++ '[' :: (natChars q ++ ']' :: [';'])) (by decide),
    @List.dropWhile_cons_of_neg Char isIdentChar ' '
      (reg.data ++ '[' :: (natChars q ++ ']' :: [';'])) (by decide),
    hf, parseQubitList_one f reg q hr]
  simp
  rfl

set_option maxHeartbeats 1000000 in
/-- The statement line of the PauliZ gate parses back to the operation. -/
theorem parse_line_z (impl : FnImpl) (reg : String) (q : Nat)
    (hr : isWfIdent reg = true) :
    parse_single_statement impl (lineOf reg (SubsetOp.PauliZ q)).data =
      Except.ok (some (Op.PauliZ q)) := by
  have hdata : (lineOf reg (SubsetOp.PauliZ q)).data =
      'z' :: ' ' :: (reg.data ++ '[' :: (natChars q ++ ']' :: [';'])) := by
    simp only [lineOf, String.data_append, qidx_data, List.append_assoc,
      List.cons_append]
    rfl
  rw [hdata]
  obtain ⟨f, hf⟩ : ∃ f, (reg.data ++ '[' :: (natChars q ++ ']' :: [';'])).length = f + 1 := by
    cases hreg : reg.data with
    | nil => exact absurd hreg (wfIdent_data_ne_nil reg hr)
    | cons c t => exact ⟨(t ++ '[' :: (natChars q ++ ']' :: [';'])).length, by simp⟩
  simp only [parse_single_statement]
  simp only [prefixCheck_cons, prefixCheck_nil,
    @List.takeWhile_cons_of_pos Char isIdentChar 'z'
      ((' ' :: (reg.data ++ '[' :: (natChars q ++ ']' :: [';'])))) (by decide),
    @List.dropWhile_cons_of_pos Char isIdentChar 'z'
      ((' ' :: (reg.data ++ '[' :: (natChars q ++ ']' :: [';'])))) (by decide),
    @List.takeWhile_cons_of_neg Char isIdentChar ' '
      (reg.data ++ '[' :: (natChars q ++ ']' :: [';'])) (by decide),
    @List.dropWhile_cons_of_neg Char isIdentChar ' '
      (reg.data ++ '[' :: (natChars q ++ ']' :: [';'])) (by decide),
    hf, parseQubitList_one f reg q hr]
  simp
  rfl

set_option maxHeartbeats 1000000 in
/-- The statement line of the SGate gate parses back to the operation. -/
theorem parse_line_s (impl : FnImpl) (reg : String) (q : Nat)
    (hr : isWfIdent reg = true) :
    parse_single_statement impl (lineOf reg (SubsetOp.SGate q)).data =
      Except.ok (some (Op.SGate q)) := by
  have hdata : (lineOf reg (SubsetOp.SGate q)).data =
      's' :: ' ' :: (reg.data ++ '[' :: (natChars q ++ ']' :: [';'])) := by
    simp only [lineOf, String.data_append, qidx_data, List.append_assoc,
      List.cons_append]
    rfl
  rw [hdata]
  obtain ⟨f, hf⟩ : ∃ f, (reg.data ++ '[' :: (natChars q ++ ']' :: [';'])).length = f + 1 := by
    cases hreg : reg.data with
    | nil => exact absurd hreg (wfIdent_data_ne_nil reg hr)
    | cons c t => exact ⟨(t ++ '[' :: (natChars q ++ ']' :: [';'])).length, by simp⟩
  simp only [parse_single_statement]
  simp only [prefixCheck_cons, prefixCheck_nil,
    @List.takeWhile_cons_of_pos Char isIdentChar 's'
      ((' ' :: (reg.data ++ '[' :: (natChars q ++ ']' :: [';'])))) (by decide),
    @List.dropWhile_cons_of_pos Char isIdentChar 's'
      ((' ' :: (reg.data ++ '[' :: (natChars q ++ ']' :: [';'])))) (by decide),
    @List.takeWhile_cons_of_neg Char isIdentChar ' '
      (reg.data ++ '[' :: (natChars q ++ ']' :: [';'])) (by decide),
    @List.dropWhile_cons_of_neg Char isIdentChar ' '
      (reg.data ++ '[' :: (natChars q ++ ']' :: [';'])) (by decide),
    hf, parseQubitList_one f reg q hr]
  simp
  rfl

set_option maxHeartbeats 1000000 in
/-- The statement line of the TGate gate parses back to the operation. -/
theorem parse_line_t (impl : FnImpl) (reg : String) (q : Nat)
    (hr : isWfIdent reg = true) :
    parse_single_statement impl (lineOf reg (SubsetOp.TGate q)).data =
      Except.ok (some (Op.TGate q)) := by
  have hdata : (lineOf reg (SubsetOp.TGate q)).data =
      't' :: ' ' :: (reg.data ++ '[' :: (natChars q ++ ']' :: [';'])) := by
    simp only [lineOf, String.data_append, qidx_data, List.append_assoc,
      List.cons_append]
    rfl
  rw [hdata]
  obtain ⟨f, hf⟩ : ∃ f, (reg.data ++ '[' :: (natChars q ++ ']' :: [';'])).length = f + 1 := by
    cases hreg : reg.data with
    | nil => exact absurd hreg (wfIdent_data_ne_nil reg hr)
    | cons c t => exact ⟨(t ++ '[' :: (natChars q ++ ']' :: [';'])).length, by simp⟩
  simp only [parse_single_statement]
  simp only [prefixCheck_cons, prefixCheck_nil,
    @List.takeWhile_cons_of_pos Char isIdentChar 't'
      ((' ' :: (reg.data ++ '[' :: (natChars q ++ ']' :: [';'])))) (by decide),
    @List.dropWhile_cons_of_pos Char isIdentChar 't'
      ((' ' :: (reg.data ++ '[' :: (natChars q ++ ']' :: [';'])))) (by decide),
    @List.takeWhile_cons_of_neg Char isIdentChar ' '
      (reg.data ++ '[' :: (natChars q ++ ']' :: [';'])) (by decide),
    @List.dropWhile_cons_of_neg Char isIdentChar ' '
      (reg.data ++ '[' :: (natChars q ++ ']' :: [';'])) (by decide),
    hf, parseQubitList_one f reg q hr]
  simp
  rfl

set_option maxHeartbeats 1000000 in
/-- The statement line of the SqrtPauliX gate parses back to the operation. -/
theorem parse_line_sx (impl : FnImpl) (reg : String) (q : Nat)
    (hr : isWfIdent reg = true) :
    parse_single_statement impl (lineOf reg (SubsetOp.SqrtPauliX q)).data =
      Except.ok (some (Op.SqrtPauliX q)) := by
  have hdata : (lineOf reg (SubsetOp.SqrtPauliX q)).data =
      's' :: 'x' :: ' ' :: (reg.data ++ '[' :: (natChars q ++ ']' :: [';'])) := by
    simp only [lineOf, String.data_append, qidx_data, List.append_assoc,
      List.cons_append]
    rfl
  rw [hdata]
  obtain ⟨f, hf⟩ : ∃ f, (reg.data ++ '[' :: (natChars q ++ ']' :: [';'])).length = f + 1 := by
    cases hreg : reg.data with
    | nil => exact absurd hreg (wfIdent_data_ne_nil reg hr)
    | cons c t => exact ⟨(t ++ '[' :: (natChars q ++ ']' :: [';'])).length, by simp⟩
  simp only [parse_single_statement]
  simp only [prefixCheck_cons, prefixCheck_nil,
    @List.takeWhile_cons_of_pos Char isIdentChar 's'
      ('x' :: (' ' :: (reg.data ++ '[' :: (natChars q ++ ']' :: [';'])))) (by decide),
    @List.dropWhile_cons_of_pos Char isIdentChar 's'
      ('x' :: (' ' :: (reg.data ++ '[' :: (natChars q ++ ']' :: [';'])))) (by decide),
    @List.takeWhile_cons_of_pos Char isIdentChar 'x'
      ((' ' :: (reg.data ++ '[' :: (natChars q ++ ']' :: [';'])))) (by decide),
    @List.dropWhile_cons_of_pos Char isIdentChar 'x'
      ((' ' :: (reg.data ++ '[' :: (natChars q ++ ']' :: [';'])))) (by decide),
    @List.takeWhile_cons_of_neg Char isIdentChar ' '
      (reg.data ++ '[' :: (natChars q ++ ']' :: [';'])) (by decide),
    @List.dropWhile_cons_of_neg Char isIdentChar ' '
      (reg.data ++ '[' :: (natChars q ++ ']' :: [';'])) (by decide),
    hf, parseQubitList_one f reg q hr]
  simp
  rfl

set_option maxHeartbeats 1000000 in
/-- The statement line of the InvSqrtPauliX gate parses back to the operation. -/
theorem parse_line_sxdg (impl : FnImpl) (reg : String) (q : Nat)
    (hr : isWfIdent reg = true) :
    parse_single_statement impl (lineOf reg (SubsetOp.InvSqrtPauliX q)).data =
      Except.ok (some (Op.InvSqrtPauliX q)) := by
  have hdata : (lineOf reg (SubsetOp.InvSqrtPauliX q)).data =
      's' :: 'x' :: 'd' :: 'g' :: ' ' :: (reg.data ++ '[' :: (natChars q ++ ']' :: [';'])) := by
    simp only [lineOf, String.data_append, qidx_data, List.append_assoc,
      List.cons_append]
    rfl
  rw [hdata]
  obtain ⟨f, hf⟩ : ∃ f, (reg.data ++ '[' :: (natChars q ++ ']' :: [';'])).length = f + 1 := by
    cases hreg : reg.data with
    | nil => exact absurd hreg (wfIdent_data_ne_nil reg hr)
    | cons c t => exact ⟨(t ++ '[' :: (natChars q ++ ']' :: [';'])).length, by simp⟩
  simp only [parse_single_statement]
  simp only [prefixCheck_cons, prefixCheck_nil,
    @List.takeWhile_cons_of_pos Char isIdentChar 's'
      ('x' :: 'd' :: 'g' :: (' ' :: (reg.data ++ '[' :: (natChars q ++ ']' :: [';'])))) (by decide),
    @List.dropWhile_cons_of_pos Char isIdentChar 's'
      ('x' :: 'd' :: 'g' :: (' ' :: (reg.data ++ '[' :: (natChars q ++ ']' :: [';'])))) (by decide),
    @List.takeWhile_cons_of_pos Char isIdentChar 'x'
      ('d' :: 'g' :: (' ' :: (reg.data ++ '[' :: (natChars q ++ ']' :: [';'])))) (by decide),
    @List.dropWhile_cons_of_pos Char isIdentChar 'x'
      ('d' :: 'g' :: (' ' :: (reg.data ++ '[' :: (natChars q ++ ']' :: [';'])))) (by decide),
    @List.takeWhile_cons_of_pos Char isIdentChar 'd'
      ('g' :: (' ' :: (reg.data ++ '[' :: (natChars q ++ ']' :: [';'])))) (by decide),
    @List.dropWhile_cons_of_pos Char isIdentChar 'd'
      ('g' :: (' ' :: (reg.data ++ '[' :: (natChars q ++ ']' :: [';'])))) (by decide),
    @List.takeWhile_cons_of_pos Char isIdentChar 'g'
      ((' ' :: (reg.data ++ '[' :: (natChars q ++ ']' :: [';'])))) (by decide),
    @List.dropWhile_cons_of_pos Char isIdentChar 'g'
      ((' ' :: (reg.data ++ '[' :: (natChars q ++ ']' :: [';'])))) (by decide),
    @List.takeWhile_cons_of_neg Char isIdentChar ' '
      (reg.data ++ '[' :: (natChars q ++ ']' :: [';'])) (by decide),
    @List.dropWhile_cons_of_neg Char isIdentChar ' '
      (reg.data ++ '[' :: (natChars q ++ ']' :: [';'])) (by decide),
    hf, parseQubitList_one f reg q hr]
  simp
  rfl

set_option maxHeartbeats 1000000 in
/-- The statement line of the CNOT gate parses back to the operation. -/
theorem parse_line_cx (impl : FnImpl) (reg : String) (c t : Nat)
    (hr : isWfIdent reg = true) :
    parse_single_statement impl (lineOf reg (SubsetOp.CNOT c t)).data =
      Except.ok (some (Op.CNOT c t)) := by
  have hdata : (lineOf reg (SubsetOp.CNOT c t)).data =
      'c' :: 'x' :: ' ' :: (reg.data ++ '[' :: (natChars c ++ ']' :: ',' :: (reg.data ++ '[' :: (natChars t ++ ']' :: [';'])))) := by
    simp only [lineOf, String.data_append, qidx_data, List.append_assoc,
      List.cons_append]
    rfl
  rw [hdata]
  have hlen : 2 ≤ (reg.data ++ '[' :: (natChars c ++ ']' :: ',' :: (reg.data ++ '[' :: (natChars t ++ ']' :: [';'])))).length := by
    cases hreg : reg.data with
    | nil => exact absurd hreg (wfIdent_data_ne_nil reg hr)
    | cons c0 t0 =>
        simp only [List.cons_append, List.length_cons, List.length_append]
        omega
  obtain ⟨g, hg⟩ : ∃ g, (reg.data ++ '[' :: (natChars c ++ ']' :: ',' :: (reg.data ++ '[' :: (natChars t ++ ']' :: [';'])))).length = g + 1 + 1 :=
    ⟨(reg.data ++ '[' :: (natChars c ++ ']' :: ',' :: (reg.data ++ '[' :: (natChars t ++ ']' :: [';'])))).length - 2, by omega⟩
  simp only [parse_single_statement]
  simp only [prefixCheck_cons, prefixCheck_nil,
    @List.takeWhile_cons_of_pos Char isIdentChar 'c'
      ('x' :: (' ' :: (reg.data ++ '[' :: (natChars c ++ ']' :: ',' :: (reg.data ++ '[' :: (natChars t ++ ']' :: [';'])))))) (by decide),
    @List.dropWhile_cons_of_pos Char isIdentChar 'c'
      ('x' :: (' ' :: (reg.data ++ '[' :: (natChars c ++ ']' :: ',' :: (reg.data ++ '[' :: (natChars t ++ ']' :: [';'])))))) (by decide),
    @List.takeWhile_cons_of_pos Char isIdentChar 'x'
      ((' ' :: (reg.data ++ '[' :: (natChars c ++ ']' :: ',' :: (reg.data ++ '[' :: (natChars t ++ ']' :: [';'])))))) (by decide),
    @List.dropWhile_cons_of_pos Char isIdentChar 'x'
      ((' ' :: (reg.data ++ '[' :: (natChars c ++ ']' :: ',' :: (reg.data ++ '[' :: (natChars t ++ ']' :: [';'])))))) (by decide),
    @List.takeWhile_cons_of_neg Char isIdentChar ' '
      (reg.data ++ '[' :: (natChars c ++ ']' :: ',' :: (reg.data ++ '[' :: (natChars t ++ ']' :: [';'])))) (by decide),
    @List.dropWhile_cons_of_neg Char isIdentChar ' '
      (reg.data ++ '[' :: (natChars c ++ ']' :: ',' :: (reg.data ++ '[' :: (natChars t ++ ']' :: [';'])))) (by decide),
    hg, parseQubitList_cons (g + 1) reg c (reg.data ++ '[' :: (natChars t ++ ']' :: [';'])) [(reg, t)] [';'] hr
      (parseQubitList_one g reg t hr)]
  simp
  rfl

set_option maxHeartbeats 1000000 in
/-- The statement line of the ControlledPauliY gate parses back to the operation. -/
theorem parse_line_cy (impl : FnImpl) (reg : String) (c t : Nat)
    (hr : isWfIdent reg = true) :
    parse_single_statement impl (lineOf reg (SubsetOp.ControlledPauliY c t)).data =
      Except.ok (some (Op.ControlledPauliY c t)) := by
  have hdata : (lineOf reg (SubsetOp.ControlledPauliY c t)).data =
      'c' :: 'y' :: ' ' :: (reg.data ++ '[' :: (natChars c ++ ']' :: ',' :: (reg.data ++ '[' :: (natChars t ++ ']' :: [';'])))) := by
    simp only [lineOf, String.data_append, qidx_data, List.append_assoc,
      List.cons_append]
    rfl
  rw [hdata]
  have hlen : 2 ≤ (reg.data ++ '[' :: (natChars c ++ ']' :: ',' :: (reg.data ++ '[' :: (natChars t ++ ']' :: [';'])))).length := by
    cases hreg : reg.data with
    | nil => exact absurd hreg (wfIdent_data_ne_nil reg hr)
    | cons c0 t0 =>
        simp only [List.cons_append, List.length_cons, List.length_append]
        omega
  obtain ⟨g, hg⟩ : ∃ g, (reg.data ++ '[' :: (natChars c ++ ']' :: ',' :: (reg.data ++ '[' :: (natChars t ++ ']' :: [';'])))).length = g + 1 + 1 :=
    ⟨(reg.data ++ '[' :: (natChars c ++ ']' :: ',' :: (reg.data ++ '[' :: (natChars t ++ ']' :: [';'])))).length - 2, by omega⟩
  simp only [parse_single_statement]
  simp only [prefixCheck_cons, prefixCheck_nil,
    @List.takeWhile_cons_of_pos Char isIdentChar 'c'
      ('y' :: (' ' :: (reg.data ++ '[' :: (natChars c ++ ']' :: ',' :: (reg.data ++ '[' :: (natChars t ++ ']' :: [';'])))))) (by decide),
    @List.dropWhile_cons_of_pos Char isIdentChar 'c'
      ('y' :: (' ' :: (reg.data ++ '[' :: (natChars c ++ ']' :: ',' :: (reg.data ++ '[' :: (natChars t ++ ']' :: [';'])))))) (by decide),
    @List.takeWhile_cons_of_pos Char isIdentChar 'y'
      ((' ' :: (reg.data ++ '[' :: (natChars c ++ ']' :: ',' :: (reg.data ++ '[' :: (natChars t ++ ']' :: [';'])))))) (by decide),
    @List.dropWhile_cons_of_pos Char isIdentChar 'y'
      ((' ' :: (reg.data ++ '[' :: (natChars c ++ ']' :: ',' :: (reg.data ++ '[' :: (natChars t ++ ']' :: [';'])))))) (by decide),
    @List.takeWhile_cons_of_neg Char isIdentChar ' '
      (reg.data ++ '[' :: (natChars c ++ ']' :: ',' :: (reg.data ++ '[' :: (natChars t ++ ']' :: [';'])))) (by decide),
    @List.dropWhile_cons_of_neg Char isIdentChar ' '
      (reg.data ++ '[' :: (natChars c ++ ']' :: ',' :: (reg.data ++ '[' :: (natChars t ++ ']' :: [';'])))) (by decide),
    hg, parseQubitList_cons (g + 1) reg c (reg.data ++ '[' :: (natChars t ++ ']' :: [';'])) [(reg, t)] [';'] hr
      (parseQubitList_one g reg t hr)]
  simp
  rfl

set_option maxHeartbeats 1000000 in
/-- The statement line of the ControlledPauliZ gate parses back to the operation. -/
theorem parse_line_cz (impl : FnImpl) (reg : String) (c t : Nat)
    (hr : isWfIdent reg = true) :
    parse_single_statement impl (lineOf reg (SubsetOp.ControlledPauliZ c t)).data =
      Except.ok (some (Op.ControlledPauliZ c t)) := by
  have hdata : (lineOf reg (SubsetOp.ControlledPauliZ c t)).data =
      'c' :: 'z' :: ' ' :: (reg.data ++ '[' :: (natChars c ++ ']' :: ',' :: (reg.data ++ '[' :: (natChars t ++ ']' :: [';'])))) := by
    simp only [lineOf, String.data_append, qidx_data, List.append_assoc,
      List.cons_append]
    rfl
  rw [hdata]
  have hlen : 2 ≤ (reg.data ++ '[' :: (natChars c ++ ']' :: ',' :: (reg.data ++ '[' :: (natChars t ++ ']' :: [';'])))).length := by
    cases hreg : reg.data with
    | nil => exact absurd hreg (wfIdent_data_ne_nil reg hr)
    | cons c0 t0 =>
        simp only [List.cons_append, List.length_cons, List.length_append]
        omega
  obtain ⟨g, hg⟩ : ∃ g, (reg.data ++ '[' :: (natChars c ++ ']' :: ',' :: (reg.data ++ '[' :: (natChars t ++ ']' :: [';'])))).length = g + 1 + 1 :=
    ⟨(reg.data ++ '[' :: (natChars c ++ ']' :: ',' :: (reg.data ++ '[' :: (natChars t ++ ']' :: [';'])))).length - 2, by omega⟩
  simp only [parse_single_statement]
  simp only [prefixCheck_cons, prefixCheck_nil,
    @List.takeWhile_cons_of_pos Char isIdentChar 'c'
      ('z' :: (' ' :: (reg.data ++ '[' :: (natChars c ++ ']' :: ',' :: (reg.data ++ '[' :: (natChars t ++ ']' :: [';'])))))) (by decide),
    @List.dropWhile_cons_of_pos Char isIdentChar 'c'
      ('z' :: (' ' :: (reg.data ++ '[' :: (natChars c ++ ']' :: ',' :: (reg.data ++ '[' :: (natChars t ++ ']' :: [';'])))))) (by decide),
    @List.takeWhile_cons_of_pos Char isIdentChar 'z'
      ((' ' :: (reg.data ++ '[' :: (natChars c ++ ']' :: ',' :: (reg.data ++ '[' :: (natChars t ++ ']' :: [';'])))))) (by decide),
    @List.dropWhile_cons_of_pos Char isIdentChar 'z'
      ((' ' :: (reg.data ++ '[' :: (natChars c ++ ']' :: ',' :: (reg.data ++ '[' :: (natChars t ++ ']' :: [';'])))))) (by decide),
    @List.takeWhile_cons_of_neg Char isIdentChar ' '
      (reg.data ++ '[' :: (natChars c ++ ']' :: ',' :: (reg.data ++ '[' :: (natChars t ++ ']' :: [';'])))) (by decide),
    @List.dropWhile_cons_of_neg Char isIdentChar ' '
      (reg.data ++ '[' :: (natChars c ++ ']' :: ',' :: (reg.data ++ '[' :: (natChars t ++ ']' :: [';'])))) (by decide),
    hg, parseQubitList_cons (g + 1) reg c (reg.data ++ '[' :: (natChars t ++ ']' :: [';'])) [(reg, t)] [';'] hr
      (parseQubitList_one g reg t hr)]
  simp
  rfl

set_option maxHeartbeats 1000000 in
/-- The statement line of the SWAP gate parses back to the operation. -/
theorem parse_line_swap (impl : FnImpl) (reg : String) (c t : Nat)
    (hr : isWfIdent reg = true) :
    parse_single_statement impl (lineOf reg (SubsetOp.SWAP c t)).data =
      Except.ok (some (Op.SWAP c t)) := by
  have hdata : (lineOf reg (SubsetOp.SWAP c t)).data =
      's' :: 'w' :: 'a' :: 'p' :: ' ' :: (reg.data ++ '[' :: (natChars c ++ ']' :: ',' :: (reg.data ++ '[' :: (natChars t ++ ']' :: [';'])))) := by
    simp only [lineOf, String.data_append, qidx_data, List.append_assoc,
      List.cons_append]
    rfl
  rw [hdata]
  have hlen : 2 ≤ (reg.data ++ '[' :: (natChars c ++ ']' :: ',' :: (reg.data ++ '[' :: (natChars t ++ ']' :: [';'])))).length := by
    cases hreg : reg.data with
    | nil => exact absurd hreg (wfIdent_data_ne_nil reg hr)
    | cons c0 t0 =>
        simp only [List.cons_append, List.length_cons, List.length_append]
        omega
  obtain ⟨g, hg⟩ : ∃ g, (reg.data ++ '[' :: (natChars c ++ ']' :: ',' :: (reg.data ++ '[' :: (natChars t ++ ']' :: [';'])))).length = g + 1 + 1 :=
    ⟨(reg.data ++ '[' :: (natChars c ++ ']' :: ',' :: (reg.data ++ '[' :: (natChars t ++ ']' :: [';'])))).length - 2, by omega⟩
  simp only [parse_single_statement]
  simp only [prefixCheck_cons, prefixCheck_nil,
    @List.takeWhile_cons_of_pos Char isIdentChar 's'
      ('w' :: 'a' :: 'p' :: (' ' :: (reg.data ++ '[' :: (natChars c ++ ']' :: ',' :: (reg.data ++ '[' :: (natChars t ++ ']' :: [';'])))))) (by decide),
    @List.dropWhile_cons_of_pos Char isIdentChar 's'
      ('w' :: 'a' :: 'p' :: (' ' :: (reg.data ++ '[' :: (natChars c ++ ']' :: ',' :: (reg.data ++ '[' :: (natChars t ++ ']' :: [';'])))))) (by decide),
    @List.takeWhile_cons_of_pos Char isIdentChar 'w'
      ('a' :: 'p' :: (' ' :: (reg.data ++ '[' :: (natChars c ++ ']' :: ',' :: (reg.data ++ '[' :: (natChars t ++ ']' :: [';'])))))) (by decide),
    @List.dropWhile_cons_of_pos Char isIdentChar 'w'
      ('a' :: 'p' :: (' ' :: (reg.data ++ '[' :: (natChars c ++ ']' :: ',' :: (reg.data ++ '[' :: (natChars t ++ ']' :: [';'])))))) (by decide),
    @List.takeWhile_cons_of_pos Char isIdentChar 'a'
      ('p' :: (' ' :: (reg.data ++ '[' :: (natChars c ++ ']' :: ',' :: (reg.data ++ '[' :: (natChars t ++ ']' :: [';'])))))) (by decide),
    @List.dropWhile_cons_of_pos Char isIdentChar 'a'
      ('p' :: (' ' :: (reg.data ++ '[' :: (natChars c ++ ']' :: ',' :: (reg.data ++ '[' :: (natChars t ++ ']' :: [';'])))))) (by decide),
    @List.takeWhile_cons_of_pos Char isIdentChar 'p'
      ((' ' :: (reg.data ++ '[' :: (natChars c ++ ']' :: ',' :: (reg.data ++ '[' :: (natChars t ++ ']' :: [';'])))))) (by decide),
    @List.dropWhile_cons_of_pos Char isIdentChar 'p'
      ((' ' :: (reg.data ++ '[' :: (natChars c ++ ']' :: ',' :: (reg.data ++ '[' :: (natChars t ++ ']' :: [';'])))))) (by decide),
    @List.takeWhile_cons_of_neg Char isIdentChar ' '
      (reg.data ++ '[' :: (natChars c ++ ']' :: ',' :: (reg.data ++ '[' :: (natChars t ++ ']' :: [';'])))) (by decide),
    @List.dropWhile_cons_of_neg Char isIdentChar ' '
      (reg.data ++ '[' :: (natChars c ++ ']' :: ',' :: (reg.data ++ '[' :: (natChars t ++ ']' :: [';'])))) (by decide),
    hg, parseQubitList_cons (g + 1) reg c (reg.data ++ '[' :: (natChars t ++ ']' :: [';'])) [(reg, t)] [';'] hr
      (parseQubitList_one g reg t hr)]
  simp
  rfl

set_option maxHeartbeats 1000000 in
/-- The statement line of the Toffoli gate parses back to the operation. -/
theorem parse_line_ccx (impl : FnImpl) (reg : String) (c0 c1 t : Nat)
    (hr : isWfIdent reg = true) :
    parse_single_statement impl (lineOf reg (SubsetOp.Toffoli c0 c1 t)).data =
      Except.ok (some (Op.Toffoli c0 c1 t)) := by
  have hdata : (lineOf reg (SubsetOp.Toffoli c0 c1 t)).data =
      'c' :: 'c' :: 'x' :: ' ' :: (reg.data ++ '[' :: (natChars c0 ++ ']' :: ',' :: (reg.data ++ '[' :: (natChars c1 ++ ']' :: ',' :: (reg.data ++ '[' :: (natChars t ++ ']' :: [';'])))))) := by
    simp only [lineOf, String.data_append, qidx_data, List.append_assoc,
      List.cons_append]
    rfl
  rw [hdata]
  have hlen : 3 ≤ (reg.data ++ '[' :: (natChars c0 ++ ']' :: ',' :: (reg.data ++ '[' :: (natChars c1 ++ ']' :: ',' :: (reg.data ++ '[' :: (natChars t ++ ']' :: [';'])))))).length := by
    cases hreg : reg.data with
    | nil => exact absurd hreg (wfIdent_data_ne_nil reg hr)
    | cons ch tl =>
        simp only [List.cons_append, List.length_cons, List.length_append]
        omega
  obtain ⟨g, hg⟩ : ∃ g, (reg.data ++ '[' :: (natChars c0 ++ ']' :: ',' :: (reg.data ++ '[' :: (natChars c1 ++ ']' :: ',' :: (reg.data ++ '[' :: (natChars t ++ ']' :: [';'])))))).length = g + 1 + 1 + 1 :=
    ⟨(reg.data ++ '[' :: (natChars c0 ++ ']' :: ',' :: (reg.data ++ '[' :: (natChars c1 ++ ']' :: ',' :: (reg.data ++ '[' :: (natChars t ++ ']' :: [';'])))))).length - 3, by omega⟩
  simp only [parse_single_statement]
  simp only [prefixCheck_cons, prefixCheck_nil,
    @List.takeWhile_cons_of_pos Char isIdentChar 'c'
      ('c' :: 'x' :: (' ' :: (reg.data ++ '[' :: (natChars c0 ++ ']' :: ',' :: (reg.data ++ '[' :: (natChars c1 ++ ']' :: ',' :: (reg.data ++ '[' :: (natChars t ++ ']' :: [';'])))))))) (by decide),
    @List.dropWhile_cons_of_pos Char isIdentChar 'c'
      ('c' :: 'x' :: (' ' :: (reg.data ++ '[' :: (natChars c0 ++ ']' :: ',' :: (reg.data ++ '[' :: (natChars c1 ++ ']' :: ',' :: (reg.data ++ '[' :: (natChars t ++ ']' :: [';'])))))))) (by decide),
    @List.takeWhile_cons_of_pos Char isIdentChar 'c'
      ('x' :: (' ' :: (reg.data ++ '[' :: (natChars c0 ++ ']' :: ',' :: (reg.data ++ '[' :: (natChars c1 ++ ']' :: ',' :: (reg.data ++ '[' :: (natChars t ++ ']' :: [';'])))))))) (by decide),
    @List.dropWhile_cons_of_pos Char isIdentChar 'c'
      ('x' :: (' ' :: (reg.data ++ '[' :: (natChars c0 ++ ']' :: ',' :: (reg.data ++ '[' :: (natChars c1 ++ ']' :: ',' :: (reg.data ++ '[' :: (natChars t ++ ']' :: [';'])))))))) (by decide),
    @List.takeWhile_cons_of_pos Char isIdentChar 'x'
      ((' ' :: (reg.data ++ '[' :: (natChars c0 ++ ']' :: ',' :: (reg.data ++ '[' :: (natChars c1 ++ ']' :: ',' :: (reg.data ++ '[' :: (natChars t ++ ']' :: [';'])))))))) (by decide),
    @List.dropWhile_cons_of_pos Char isIdentChar 'x'
      ((' ' :: (reg.data ++ '[' :: (natChars c0 ++ ']' :: ',' :: (reg.data ++ '[' :: (natChars c1 ++ ']' :: ',' :: (reg.data ++ '[' :: (natChars t ++ ']' :: [';'])))))))) (by decide),
    @List.takeWhile_cons_of_neg Char isIdentChar ' '
      (reg.data ++ '[' :: (natChars c0 ++ ']' :: ',' :: (reg.data ++ '[' :: (natChars c1 ++ ']' :: ',' :: (reg.data ++ '[' :: (natChars t ++ ']' :: [';'])))))) (by decide),
    @List.dropWhile_cons_of_neg Char isIdentChar ' '
      (reg.data ++ '[' :: (natChars c0 ++ ']' :: ',' :: (reg.data ++ '[' :: (natChars c1 ++ ']' :: ',' :: (reg.data ++ '[' :: (natChars t ++ ']' :: [';'])))))) (by decide),
    hg, parseQubitList_cons (g + 1 + 1) reg c0 (reg.data ++ '[' :: (natChars c1 ++ ']' :: ',' :: (reg.data ++ '[' :: (natChars t ++ ']' :: [';']))))
      [(reg, c1), (reg, t)] [';'] hr
      (parseQubitList_cons (g + 1) reg c1 (reg.data ++ '[' :: (natChars t ++ ']' :: [';'])) [(reg, t)] [';'] hr
        (parseQubitList_one g reg t hr))]
  simp
  rfl

set_option maxHeartbeats 1000000 in
/-- The statement line of the RotateX gate parses back to the operation with
the exact canonical parameter pair recovered. -/
theorem parse_line_rx (impl : FnImpl) (reg : String) (q : Nat) (m e : Int)
    (hr : isWfIdent reg = true) (hwf : wfFloatPair m e) :
    parse_single_statement impl (lineOf reg (SubsetOp.RotateX q m e)).data =
      Except.ok (some (Op.RotateX q (CalculatorFloat.Float m e))) := by
  have hdata : (lineOf reg (SubsetOp.RotateX q m e)).data =
      'r' :: 'x' :: '(' :: (cfChars (CalculatorFloat.Float m e) ++ ')' :: ' ' :: (reg.data ++ '[' :: (natChars q ++ ']' :: [';']))) := by
    simp only [lineOf, cfString, String.data_append, qidx_data, List.append_assoc,
      List.cons_append]
    rfl
  rw [hdata]
  obtain ⟨f, hf⟩ : ∃ f, (reg.data ++ '[' :: (natChars q ++ ']' :: [';'])).length = f + 1 := by
    cases hreg : reg.data with
    | nil => exact absurd hreg (wfIdent_data_ne_nil reg hr)
    | cons ch tl => exact ⟨(tl ++ '[' :: (natChars q ++ ']' :: [';'])).length, by simp⟩
  have hlit := cfChars_float_all_lit m e
  simp only [parse_single_statement]
  simp only [prefixCheck_cons, prefixCheck_nil,
    @List.takeWhile_cons_of_pos Char isIdentChar 'r'
      ('x' :: ('(' :: (cfChars (CalculatorFloat.Float m e) ++ ')' :: ' ' :: (reg.data ++ '[' :: (natChars q ++ ']' :: [';']))))) (by decide),
    @List.dropWhile_cons_of_pos Char isIdentChar 'r'
      ('x' :: ('(' :: (cfChars (CalculatorFloat.Float m e) ++ ')' :: ' ' :: (reg.data ++ '[' :: (natChars q ++ ']' :: [';']))))) (by decide),
    @List.takeWhile_cons_of_pos Char isIdentChar 'x'
      (('(' :: (cfChars (CalculatorFloat.Float m e) ++ ')' :: ' ' :: (reg.data ++ '[' :: (natChars q ++ ']' :: [';']))))) (by decide),
    @List.dropWhile_cons_of_pos Char isIdentChar 'x'
      (('(' :: (cfChars (CalculatorFloat.Float m e) ++ ')' :: ' ' :: (reg.data ++ '[' :: (natChars q ++ ']' :: [';']))))) (by decide),
    @List.takeWhile_cons_of_neg Char isIdentChar '('
      (cfChars (CalculatorFloat.Float m e) ++ ')' :: ' ' :: (reg.data ++ '[' :: (natChars q ++ ']' :: [';']))) (by decide),
    @List.dropWhile_cons_of_neg Char isIdentChar '('
      (cfChars (CalculatorFloat.Float m e) ++ ')' :: ' ' :: (reg.data ++ '[' :: (natChars q ++ ']' :: [';']))) (by decide),
    takeWhile_append_stop (fun c => !(c = ')')) (cfChars (CalculatorFloat.Float m e))
      (' ' :: (reg.data ++ '[' :: (natChars q ++ ']' :: [';']))) ')' (all_imp_ne _ isLitChar hlit ')' (by decide)) (by decide),
    dropWhile_append_stop (fun c => !(c = ')')) (cfChars (CalculatorFloat.Float m e))
      (' ' :: (reg.data ++ '[' :: (natChars q ++ ']' :: [';']))) ')' (all_imp_ne _ isLitChar hlit ')' (by decide)) (by decide),
    splitOnComma_single (cfChars (CalculatorFloat.Float m e)) (all_imp_ne _ isLitChar hlit ',' (by decide)),
    List.mapM_cons, List.mapM_nil,
    (show ("pi".data) = 'p' :: "i".data from rfl),
    replaceAll_no_head 'p' "i".data "3.141592653589793".data (cfChars (CalculatorFloat.Float m e))
      (not_mem_of_all_lit _ hlit 'p' (by decide)),
    (show ("ln".data) = 'l' :: "n".data from rfl),
    replaceAll_no_head 'l' "n".data "log".data (cfChars (CalculatorFloat.Float m e))
      (not_mem_of_all_lit _ hlit 'l' (by decide)),
    calc_parse_str_cfChars impl m e,
    except_bind_ok]
  simp at hf
  simp [hf, parseQubitList_one f reg q hr]
  rw [show gate_dispatch "rx" [floatPairVal m e] [q] [] =
    some (Dispatched.Reconstructed (Op.RotateX q (cfFromValue (floatPairVal m e)))) from rfl]
  rw [cfFromValue_floatPairVal m e hwf]

set_option maxHeartbeats 1000000 in
/-- The statement line of the RotateY gate parses back to the operation with
the exact canonical parameter pair recovered. -/
theorem parse_line_ry (impl : FnImpl) (reg : String) (q : Nat) (m e : Int)
    (hr : isWfIdent reg = true) (hwf : wfFloatPair m e) :
    parse_single_statement impl (lineOf reg (SubsetOp.RotateY q m e)).data =
      Except.ok (some (Op.RotateY q (CalculatorFloat.Float m e))) := by
  have hdata : (lineOf reg (SubsetOp.RotateY q m e)).data =
      'r' :: 'y' :: '(' :: (cfChars (CalculatorFloat.Float m e) ++ ')' :: ' ' :: (reg.data ++ '[' :: (natChars q ++ ']' :: [';']))) := by
    simp only [lineOf, cfString, String.data_append, qidx_data, List.append_assoc,
      List.cons_append]
    rfl
  rw [hdata]
  obtain ⟨f, hf⟩ : ∃ f, (reg.data ++ '[' :: (natChars q ++ ']' :: [';'])).length = f + 1 := by
    cases hreg : reg.data with
    | nil => exact absurd hreg (wfIdent_data_ne_nil reg hr)
    | cons ch tl => exact ⟨(tl ++ '[' :: (natChars q ++ ']' :: [';'])).length, by simp⟩
  have hlit := cfChars_float_all_lit m e
  simp only [parse_single_statement]
  simp only [prefixCheck_cons, prefixCheck_nil,
    @List.takeWhile_cons_of_pos Char isIdentChar 'r'
      ('y' :: ('(' :: (cfChars (CalculatorFloat.Float m e) ++ ')' :: ' ' :: (reg.data ++ '[' :: (natChars q ++ ']' :: [';']))))) (by decide),
    @List.dropWhile_cons_of_pos Char isIdentChar 'r'
      ('y' :: ('(' :: (cfChars (CalculatorFloat.Float m e) ++ ')' :: ' ' :: (reg.data ++ '[' :: (natChars q ++ ']' :: [';']))))) (by decide),
    @List.takeWhile_cons_of_pos Char isIdentChar 'y'
      (('(' :: (cfChars (CalculatorFloat.Float m e) ++ ')' :: ' ' :: (reg.data ++ '[' :: (natChars q ++ ']' :: [';']))))) (by decide),
    @List.dropWhile_cons_of_pos Char isIdentChar 'y'
      (('(' :: (cfChars (CalculatorFloat.Float m e) ++ ')' :: ' ' :: (reg.data ++ '[' :: (natChars q ++ ']' :: [';']))))) (by decide),
    @List.takeWhile_cons_of_neg Char isIdentChar '('
      (cfChars (CalculatorFloat.Float m e) ++ ')' :: ' ' :: (reg.data ++ '[' :: (natChars q ++ ']' :: [';']))) (by decide),
    @List.dropWhile_cons_of_neg Char isIdentChar '('
      (cfChars (CalculatorFloat.Float m e) ++ ')' :: ' ' :: (reg.data ++ '[' :: (natChars q ++ ']' :: [';']))) (by decide),
    takeWhile_append_stop (fun c => !(c = ')')) (cfChars (CalculatorFloat.Float m e))
      (' ' :: (reg.data ++ '[' :: (natChars q ++ ']' :: [';']))) ')' (all_imp_ne _ isLitChar hlit ')' (by decide)) (by decide),
    dropWhile_append_stop (fun c => !(c = ')')) (cfChars (CalculatorFloat.Float m e))
      (' ' :: (reg.data ++ '[' :: (natChars q ++ ']' :: [';']))) ')' (all_imp_ne _ isLitChar hlit ')' (by decide)) (by decide),
    splitOnComma_single (cfChars (CalculatorFloat.Float m e)) (all_imp_ne _ isLitChar hlit ',' (by decide)),
    List.mapM_cons, List.mapM_nil,
    (show ("pi".data) = 'p' :: "i".data from rfl),
    replaceAll_no_head 'p' "i".data "3.141592653589793".data (cfChars (CalculatorFloat.Float m e))
      (not_mem_of_all_lit _ hlit 'p' (by decide)),
    (show ("ln".data) = 'l' :: "n".data from rfl),
    replaceAll_no_head 'l' "n".data "log".data (cfChars (CalculatorFloat.Float m e))
      (not_mem_of_all_lit _ hlit 'l' (by decide)),
    calc_parse_str_cfChars impl m e,
    except_bind_ok]
  simp at hf
  simp [hf, parseQubitList_one f reg q hr]
  rw [show gate_dispatch "ry" [floatPairVal m e] [q] [] =
    some (Dispatched.Reconstructed (Op.RotateY q (cfFromValue (floatPairVal m e)))) from rfl]
  rw [cfFromValue_floatPairVal m e hwf]

set_option maxHeartbeats 1000000 in
/-- The statement line of the RotateZ gate parses back to the operation with
the exact canonical parameter pair recovered. -/
theorem parse_line_rz (impl : FnImpl) (reg : String) (q : Nat) (m e : Int)
    (hr : isWfIdent reg = true) (hwf : wfFloatPair m e) :
    parse_single_statement impl (lineOf reg (SubsetOp.RotateZ q m e)).data =
      Except.ok (some (Op.RotateZ q (CalculatorFloat.Float m e))) := by
  have hdata : (lineOf reg (SubsetOp.RotateZ q m e)).data =
      'r' :: 'z' :: '(' :: (cfChars (CalculatorFloat.Float m e) ++ ')' :: ' ' :: (reg.data ++ '[' :: (natChars q ++ ']' :: [';']))) := by
    simp only [lineOf, cfString, String.data_append, qidx_data, List.append_assoc,
      List.cons_append]
    rfl
  rw [hdata]
  obtain ⟨f, hf⟩ : ∃ f, (reg.data ++ '[' :: (natChars q ++ ']' :: [';'])).length = f + 1 := by
    cases hreg : reg.data with
    | nil => exact absurd hreg (wfIdent_data_ne_nil reg hr)
    | cons ch tl => exact ⟨(tl ++ '[' :: (natChars q ++ ']' :: [';'])).length, by simp⟩
  have hlit := cfChars_float_all_lit m e
  simp only [parse_single_statement]
  simp only [prefixCheck_cons, prefixCheck_nil,
    @List.takeWhile_cons_of_pos Char isIdentChar 'r'
      ('z' :: ('(' :: (cfChars (CalculatorFloat.Float m e) ++ ')' :: ' ' :: (reg.data ++ '[' :: (natChars q ++ ']' :: [';']))))) (by decide),
    @List.dropWhile_cons_of_pos Char isIdentChar 'r'
      ('z' :: ('(' :: (cfChars (CalculatorFloat.Float m e) ++ ')' :: ' ' :: (reg.data ++ '[' :: (natChars q ++ ']' :: [';']))))) (by decide),
    @List.takeWhile_cons_of_pos Char isIdentChar 'z'
      (('(' :: (cfChars (CalculatorFloat.Float m e) ++ ')' :: ' ' :: (reg.data ++ '[' :: (natChars q ++ ']' :: [';']))))) (by decide),
    @List.dropWhile_cons_of_pos Char isIdentChar 'z'
      (('(' :: (cfChars (CalculatorFloat.Float m e) ++ ')' :: ' ' :: (reg.data ++ '[' :: (natChars q ++ ']' :: [';']))))) (by decide),
    @List.takeWhile_cons_of_neg Char isIdentChar '('
      (cfChars (CalculatorFloat.Float m e) ++ ')' :: ' ' :: (reg.data ++ '[' :: (natChars q ++ ']' :: [';']))) (by decide),
    @List.dropWhile_cons_of_neg Char isIdentChar '('
      (cfChars (CalculatorFloat.Float m e) ++ ')' :: ' ' :: (reg.data ++ '[' :: (natChars q ++ ']' :: [';']))) (by decide),
    takeWhile_append_stop (fun c => !(c = ')')) (cfChars (CalculatorFloat.Float m e))
      (' ' :: (reg.data ++ '[' :: (natChars q ++ ']' :: [';']))) ')' (all_imp_ne _ isLitChar hlit ')' (by decide)) (by decide),
    dropWhile_append_stop (fun c => !(c = ')')) (cfChars (CalculatorFloat.Float m e))
      (' ' :: (reg.data ++ '[' :: (natChars q ++ ']' :: [';']))) ')' (all_imp_ne _ isLitChar hlit ')' (by decide)) (by decide),
    splitOnComma_single (cfChars (CalculatorFloat.Float m e)) (all_imp_ne _ isLitChar hlit ',' (by decide)),
    List.mapM_cons, List.mapM_nil,
    (show ("pi".data) = 'p' :: "i".data from rfl),
    replaceAll_no_head 'p' "i".data "3.141592653589793".data (cfChars (CalculatorFloat.Float m e))
      (not_mem_of_all_lit _ hlit 'p' (by decide)),
    (show ("ln".data) = 'l' :: "n".data from rfl),
    replaceAll_no_head 'l' "n".data "log".data (cfChars (CalculatorFloat.Float m e))
      (not_mem_of_all_lit _ hlit 'l' (by decide)),
    calc_parse_str_cfChars impl m e,
    except_bind_ok]
  simp at hf
  simp [hf, parseQubitList_one f reg q hr]
  rw [show gate_dispatch "rz" [floatPairVal m e] [q] [] =
    some (Dispatched.Reconstructed (Op.RotateZ q (cfFromValue (floatPairVal m e)))) from rfl]
  rw [cfFromValue_floatPairVal m e hwf]

set_option maxHeartbeats 1000000 in
/-- The statement line of an indexed measurement parses back to the
operation. -/
theorem parse_line_measure (impl : FnImpl) (reg : String) (q : Nat) (ro : String)
    (i : Nat) (hr : isWfIdent reg = true) (hro : isWfIdent ro = true) :
    parse_single_statement impl (lineOf reg (SubsetOp.MeasureQubit q ro i)).data =
      Except.ok (some (Op.MeasureQubit q ro i)) := by
  have hdata : (lineOf reg (SubsetOp.MeasureQubit q ro i)).data =
      'm' :: 'e' :: 'a' :: 's' :: 'u' :: 'r' :: 'e' :: ' ' ::
        (reg.data ++ '[' :: (natChars q ++ ']' ::
          (' ' :: '-' :: '>' :: ' ' ::
            (ro.data ++ '[' :: (natChars i ++ ']' :: [';']))))) := by
    simp only [lineOf, String.data_append, qidx_data, List.append_assoc,
      List.cons_append]
    rfl
  rw [hdata]
  simp only [parse_single_statement]
  simp [prefixCheck_cons, prefixCheck_nil]
  rw [parseQubitRef_qref reg q
    (' ' :: '-' :: '>' :: ' ' :: (ro.data ++ '[' :: (natChars i ++ ']' :: [';']))) hr]
  simp only [parseQubitRef_qref ro i [';'] hro]
  simp

/-- The statement line of a bit-register definition parses back to the
definition with the output flag set. -/
theorem parse_line_creg (impl : FnImpl) (reg : String) (n : String) (l : Nat)
    (o : Bool) (hn : isWfIdent n = true) :
    parse_single_statement impl (lineOf reg (SubsetOp.DefinitionBit n l o)).data =
      Except.ok (some (Op.DefinitionBit n l true)) :=
  creg_line_parses impl n l hn

/-- Every statement line of a well-formed subset operation whose output flag
is not cleared parses back to the embedded operation. -/
theorem parse_line_subset (impl : FnImpl) (reg : String) (s : SubsetOp)
    (hr : isWfIdent reg = true) (hwf : wfSubsetOp s) (hout : ¬ clearedOutputFlag s) :
    parse_single_statement impl (lineOf reg s).data = Except.ok (some (subsetEmbed s)) := by
  cases s with
  | RotateX q m e => exact parse_line_rx impl reg q m e hr hwf
  | RotateY q m e => exact parse_line_ry impl reg q m e hr hwf
  | RotateZ q m e => exact parse_line_rz impl reg q m e hr hwf
  | Hadamard q => exact parse_line_hadamard impl reg q hr
  | PauliX q => exact parse_line_x impl reg q hr
  | PauliY q => exact parse_line_y impl reg q hr
  | PauliZ q => exact parse_line_z impl reg q hr
  | SGate q => exact parse_line_s impl reg q hr
  | TGate q => exact parse_line_t impl reg q hr
  | SqrtPauliX q => exact parse_line_sx impl reg q hr
  | InvSqrtPauliX q => exact parse_line_sxdg impl reg q hr
  | CNOT c t => exact parse_line_cx impl reg c t hr
  | ControlledPauliY c t => exact parse_line_cy impl reg c t hr
  | ControlledPauliZ c t => exact parse_line_cz impl reg c t hr
  | SWAP c t => exact parse_line_swap impl reg c t hr
  | Toffoli c0 c1 t => exact parse_line_ccx impl reg c0 c1 t hr
  | MeasureQubit q ro i => exact parse_line_measure impl reg q ro i hr hwf
  | DefinitionBit n l o =>
      have ho : o = true := by
        cases o with
        | false => exact absurd rfl hout
        | true => rfl
      subst ho
      exact parse_line_creg impl reg n l true hwf

theorem string_isEmpty_false (s : String) (h : s.data ≠ []) : s.isEmpty = false := by
  rw [Bool.eq_false_iff]
  intro he
  apply h
  rw [String.isEmpty_iff s |>.mp he]

theorem lineOf_data_ne_nil (reg : String) (s : SubsetOp) : (lineOf reg s).data ≠ [] := by
  cases s <;> simp [lineOf, String.data_append]

theorem joinedLines_ne_nil (ds : List (List Char)) (h : ds ≠ []) :
    joinedLines ds ≠ [] := by
  cases ds with
  | nil => exact absurd rfl h
  | cons l rest =>
      show l ++ '\n' :: joinedLines rest ≠ []
      simp

theorem joinedLines_append_one (ds : List (List Char)) (x : List Char) :
    joinedLines (ds ++ [x]) = joinedLines ds ++ (x ++ ['\n']) := by
  induction ds with
  | nil => simp [joinedLines]
  | cons l rest ih =>
      show l ++ '\n' :: joinedLines (rest ++ [x]) =
        (l ++ '\n' :: joinedLines rest) ++ (x ++ ['\n'])
      rw [ih]
      simp

/-- Translation of one subset operation under OpenQASM 2.0 is exactly its
statement line. -/
theorem gen_line_subset (s : SubsetOp) (reg : String) :
    call_operation (subsetEmbed s) reg QasmVersion.V2point0 =
      Except.ok (lineOf reg s) := by
  cases s <;> rfl

/-- The gate definition of every subset operation under OpenQASM 2.0 exists,
contains no newline, and its line is recognized and skipped by the statement
parser. -/
theorem gate_definition_subset (s : SubsetOp) :
    ∃ d, gate_definition (subsetEmbed s) QasmVersion.V2point0 = Except.ok d ∧
      '\n' ∉ d.data ∧
      (∀ impl, parse_single_statement impl d.data = Except.ok none) := by
  cases s with
  | RotateX q m e => exact ⟨_, rfl, by decide, fun impl => rfl⟩
  | RotateY q m e => exact ⟨_, rfl, by decide, fun impl => rfl⟩
  | RotateZ q m e => exact ⟨_, rfl, by decide, fun impl => rfl⟩
  | Hadamard q => exact ⟨_, rfl, by decide, fun impl => rfl⟩
  | PauliX q => exact ⟨_, rfl, by decide, fun impl => rfl⟩
  | PauliY q => exact ⟨_, rfl, by decide, fun impl => rfl⟩
  | PauliZ q => exact ⟨_, rfl, by decide, fun impl => rfl⟩
  | SGate q => exact ⟨_, rfl, by decide, fun impl => rfl⟩
  | TGate q => exact ⟨_, rfl, by decide, fun impl => rfl⟩
  | SqrtPauliX q => exact ⟨_, rfl, by decide, fun impl => rfl⟩
  | InvSqrtPauliX q => exact ⟨_, rfl, by decide, fun impl => rfl⟩
  | CNOT c t => exact ⟨_, rfl, by decide, fun impl => rfl⟩
  | ControlledPauliY c t => exact ⟨_, rfl, by decide, fun impl => rfl⟩
  | ControlledPauliZ c t => exact ⟨_, rfl, by decide, fun impl => rfl⟩
  | SWAP c t => exact ⟨_, rfl, by decide, fun impl => rfl⟩
  | Toffoli c0 c1 t => exact ⟨_, rfl, by decide, fun impl => rfl⟩
  | MeasureQubit q ro i => exact ⟨_, rfl, by decide, fun impl => rfl⟩
  | DefinitionBit n l o => exact ⟨_, rfl, by decide, fun impl => rfl⟩

set_option maxHeartbeats 1000000 in
/-- The generator fold over a subset circuit: the definition block stays a
list of newline-terminated skippable lines and the statement block extends
by exactly the statement lines of the circuit. -/
theorem gen_fold_subset (impl : FnImpl) (reg : String) :
    ∀ (c : List SubsetOp) (seen : List String) (nreq : Nat) (ds : List (List Char))
      (data : String),
      ds ≠ [] →
      (∀ l ∈ ds, '\n' ∉ l) →
      (∀ l ∈ ds, parse_single_statement impl l = Except.ok none) →
      ∃ ds' nreq',
        ds' ≠ [] ∧ (∀ l ∈ ds', '\n' ∉ l) ∧
        (∀ l ∈ ds', parse_single_statement impl l = Except.ok none) ∧
        gen_fold reg QasmVersion.V2point0 (c.map subsetEmbed) seen nreq
          ⟨joinedLines ds⟩ data =
          Except.ok (⟨joinedLines ds'⟩, data ++ genBody reg c, nreq') := by
  intro c
  induction c with
  | nil =>
      intro seen nreq ds data hne hnl hskip
      refine ⟨ds, nreq, hne, hnl, hskip, ?_⟩
      rw [List.map_nil, gen_fold]
      rw [show genBody reg [] = "" from rfl, String.append_empty]
  | cons s rest ih =>
      intro seen nreq ds data hne hnl hskip
      have hde : (data ++ lineOf reg s).isEmpty = false := by
        apply string_isEmpty_false
        rw [String.data_append]
        intro hq
        rcases List.append_eq_nil.mp hq with ⟨-, h2⟩
        exact lineOf_data_ne_nil reg s h2
      by_cases hseen : (seen.contains (hqslang (subsetEmbed s))) = true
      · obtain ⟨ds', nreq'', hne', hnl', hskip', hgf⟩ :=
          ih seen (qubitsRequiredStep nreq (subsetEmbed s)) ds
            ((data ++ lineOf reg s) ++ "\n") hne hnl hskip
        refine ⟨ds', nreq'', hne', hnl', hskip', ?_⟩
        rw [List.map_cons, gen_fold]
        rw [if_pos hseen, except_bind_ok]
        dsimp only
        rw [gen_line_subset s reg, except_bind_ok]
        rw [if_neg (by rw [hde]; simp)]
        rw [hgf]
        rw [show genBody reg (s :: rest) = lineOf reg s ++ "\n" ++ genBody reg rest
          from rfl]
        simp [String.append_assoc]
      · obtain ⟨d, hdgen, hdnl, hdskip⟩ := gate_definition_subset s
        have hde2 : ((⟨joinedLines ds⟩ : String) ++ d).isEmpty = false := by
          apply string_isEmpty_false
          rw [String.data_append]
          intro hq
          rcases List.append_eq_nil.mp hq with ⟨h1, -⟩
          exact joinedLines_ne_nil ds hne h1
        have hdefs : (((⟨joinedLines ds⟩ : String) ++ d) ++ "\n") =
            (⟨joinedLines (ds ++ [d.data])⟩ : String) := by
          obtain ⟨ld⟩ := d
          rw [joinedLines_append_one]
          exact congrArg String.mk (List.append_assoc _ _ _)
        obtain ⟨ds', nreq'', hne', hnl', hskip', hgf⟩ :=
          ih (seen ++ [hqslang (subsetEmbed s)])
            (qubitsRequiredStep nreq (subsetEmbed s)) (ds ++ [d.data])
            ((data ++ lineOf reg s) ++ "\n")
            (by simp)
            (by
              intro l hl
              rcases List.mem_append.mp hl with h | h
              · exact hnl l h
              · rw [List.mem_singleton.mp h]
                exact hdnl)
            (by
              intro l hl
              rcases List.mem_append.mp hl with h | h
              · exact hskip l h
              · rw [List.mem_singleton.mp h]
                exact hdskip impl)
        refine ⟨ds', nreq'', hne', hnl', hskip', ?_⟩
        rw [List.map_cons, gen_fold]
        rw [if_neg hseen, hdgen, except_bind_ok]
        dsimp only
        rw [if_neg (by rw [hde2]; simp), except_bind_ok]
        dsimp only
        rw [gen_line_subset s reg, except_bind_ok]
        rw [if_neg (by rw [hde]; simp)]
        rw [hdefs, hgf]
        rw [show genBody reg (s :: rest) = lineOf reg s ++ "\n" ++ genBody reg rest
          from rfl]
        simp [String.append_assoc]

theorem splitOnNl_line (l : List Char) (hnl : '\n' ∉ l) (r : List Char) :
    splitOnNl (l ++ '\n' :: r) = l :: splitOnNl r := by
  induction l with
  | nil =>
      rw [List.nil_append, splitOnNl]
  | cons c t ih =>
      have hc : c ≠ '\n' := fun h => hnl (h ▸ List.mem_cons_self c t)
      rw [List.cons_append, splitOnNl]
      · rw [ih (fun hm => hnl (List.mem_cons_of_mem c hm))]
      · exact fun h => hc h

theorem splitOnNl_joined (ls : List (List Char)) (h : ∀ l ∈ ls, '\n' ∉ l) :
    ∀ r, splitOnNl (joinedLines ls ++ r) = ls ++ splitOnNl r := by
  induction ls with
  | nil => intro r; rfl
  | cons l rest ih =>
      intro r
      show splitOnNl ((l ++ '\n' :: joinedLines rest) ++ r) = _
      rw [List.append_assoc, List.cons_append,
        splitOnNl_line l (h l (List.mem_cons_self l rest)) (joinedLines rest ++ r),
        ih (fun x hx => h x (List.mem_cons_of_mem l hx)) r]
      rfl

theorem parse_statements_skip (impl : FnImpl) (ls1 ls2 : List (List Char))
    (h : ∀ l ∈ ls1, parse_single_statement impl l = Except.ok none) :
    parse_statements impl (ls1 ++ ls2) = parse_statements impl ls2 := by
  induction ls1 with
  | nil => rfl
  | cons l rest ih =>
      rw [List.cons_append, parse_statements]
      rw [h l (List.mem_cons_self l rest), except_bind_ok]
      rw [ih (fun x hx => h x (List.mem_cons_of_mem l hx))]
      cases hres : parse_statements impl ls2 with
      | error e => rw [except_bind_error]
      | ok ops => rw [except_bind_ok]

theorem parse_statements_cons_some (impl : FnImpl) (l : List Char) (op : Op)
    (rest : List (List Char)) (ops : List Op)
    (h1 : parse_single_statement impl l = Except.ok (some op))
    (h2 : parse_statements impl rest = Except.ok ops) :
    parse_statements impl (l :: rest) = Except.ok (op :: ops) := by
  rw [parse_statements, h1, except_bind_ok, h2, except_bind_ok]

theorem wfIdent_all_ne_nl (name : String) (h : isWfIdent name = true) :
    name.data.all (fun c => !(c = '\n')) = true := by
  obtain ⟨l⟩ := name
  cases l with
  | nil => simp [isWfIdent] at h
  | cons c t =>
      simp only [isWfIdent, List.all_cons, Bool.and_eq_true] at h
      exact all_imp_ne (c :: t) isIdentChar (by simp [List.all_cons, h.2.1, h.2.2])
        '\n' (by decide)

theorem natChars_all_ne_nl (n : Nat) :
    (natChars n).all (fun c => !(c = '\n')) = true :=
  all_imp_ne _ Char.isDigit (natChars_all_digit n) '\n' (by decide)

theorem cfChars_all_ne_nl (m e : Int) :
    (cfChars (CalculatorFloat.Float m e)).all (fun c => !(c = '\n')) = true :=
  all_imp_ne _ isLitChar (cfChars_float_all_lit m e) '\n' (by decide)

theorem lineOf_no_nl (reg : String) (s : SubsetOp) (hr : isWfIdent reg = true)
    (hwf : wfSubsetOp s) : '\n' ∉ (lineOf reg s).data := by
  have hall : (lineOf reg s).data.all (fun c => !(c = '\n')) = true := by
    cases s with
    | MeasureQubit q ro i =>
        simp [lineOf, cfString, String.data_append, qidx_data, List.all_append,
          List.all_cons, natChars_all_ne_nl, cfChars_all_ne_nl,
          wfIdent_all_ne_nl reg hr, wfIdent_all_ne_nl ro hwf]
    | DefinitionBit n l o =>
        simp [lineOf, cfString, String.data_append, qidx_data, List.all_append,
          List.all_cons, natChars_all_ne_nl, cfChars_all_ne_nl,
          wfIdent_all_ne_nl n hwf]
        intro x hx
        exact char_ne_of_isDigit (digit_mem_natChars hx) (by decide)
    | RotateX q m e =>
        simp [lineOf, cfString, String.data_append, qidx_data, List.all_append,
          List.all_cons, natChars_all_ne_nl, cfChars_all_ne_nl,
          wfIdent_all_ne_nl reg hr]
    | RotateY q m e =>
        simp [lineOf, cfString, String.data_append, qidx_data, List.all_append,
          List.all_cons, natChars_all_ne_nl, cfChars_all_ne_nl,
          wfIdent_all_ne_nl reg hr]
    | RotateZ q m e =>
        simp [lineOf, cfString, String.data_append, qidx_data, List.all_append,
          List.all_cons, natChars_all_ne_nl, cfChars_all_ne_nl,
          wfIdent_all_ne_nl reg hr]
    | Hadamard q =>
        simp [lineOf, String.data_append, qidx_data, List.all_append,
          List.all_cons, natChars_all_ne_nl, wfIdent_all_ne_nl reg hr]
    | PauliX q =>
        simp [lineOf, String.data_append, qidx_data, List.all_append,
          List.all_cons, natChars_all_ne_nl, wfIdent_all_ne_nl reg hr]
    | PauliY q =>
        simp [lineOf, String.data_append, qidx_data, List.all_append,
          List.all_cons, natChars_all_ne_nl, wfIdent_all_ne_nl reg hr]
    | PauliZ q =>
        simp [lineOf, String.data_append, qidx_data, List.all_append,
          List.all_cons, natChars_all_ne_nl, wfIdent_all_ne_nl reg hr]
    | SGate q =>
        simp [lineOf, String.data_append, qidx_data, List.all_append,
          List.all_cons, natChars_all_ne_nl, wfIdent_all_ne_nl reg hr]
    | TGate q =>
        simp [lineOf, String.data_append, qidx_data, List.all_append,
          List.all_cons, natChars_all_ne_nl, wfIdent_all_ne_nl reg hr]
    | SqrtPauliX q =>
        simp [lineOf, String.data_append, qidx_data, List.all_append,
          List.all_cons, natChars_all_ne_nl, wfIdent_all_ne_nl reg hr]
    | InvSqrtPauliX q =>
        simp [lineOf, String.data_append, qidx_data, List.all_append,
          List.all_cons, natChars_all_ne_nl, wfIdent_all_ne_nl reg hr]
    | CNOT c t =>
        simp [lineOf, String.data_append, qidx_data, List.all_append,
          List.all_cons, natChars_all_ne_nl, wfIdent_all_ne_nl reg hr]
    | ControlledPauliY c t =>
        simp [lineOf, String.data_append, qidx_data, List.all_append,
          List.all_cons, natChars_all_ne_nl, wfIdent_all_ne_nl reg hr]
    | ControlledPauliZ c t =>
        simp [lineOf, String.data_append, qidx_data, List.all_append,
          List.all_cons, natChars_all_ne_nl, wfIdent_all_ne_nl reg hr]
    | SWAP c t =>
        simp [lineOf, String.data_append, qidx_data, List.all_append,
          List.all_cons, natChars_all_ne_nl, wfIdent_all_ne_nl reg hr]
    | Toffoli c0 c1 t =>
        simp [lineOf, String.data_append, qidx_data, List.all_append,
          List.all_cons, natChars_all_ne_nl, wfIdent_all_ne_nl reg hr]
  exact not_mem_of_all _ _ '\n' hall (by decide)

theorem string_empty_append (s : String) : ("" : String) ++ s = s := by
  obtain ⟨l⟩ := s
  rfl

theorem joinedLines_nil : joinedLines [] = [] := rfl

theorem joinedLines_cons (l : List Char) (ls : List (List Char)) :
    joinedLines (l :: ls) = l ++ '\n' :: joinedLines ls := rfl

theorem joinedLines_append (a b : List (List Char)) :
    joinedLines (a ++ b) = joinedLines a ++ joinedLines b := by
  induction a with
  | nil => rfl
  | cons l rest ih =>
      rw [List.cons_append, joinedLines_cons, joinedLines_cons, ih]
      simp

theorem genBody_data (reg : String) (c : List SubsetOp) :
    (genBody reg c).data = joinedLines (c.map (fun s => (lineOf reg s).data)) := by
  induction c with
  | nil => rfl
  | cons s rest ih =>
      rw [List.map_cons, joinedLines_cons, ← ih]
      show (lineOf reg s ++ "\n" ++ genBody reg rest).data = _
      rw [String.data_append, String.data_append]
      simp

theorem splitOnNl_joined_nil (ls : List (List Char)) (h : ∀ l ∈ ls, '\n' ∉ l) :
    splitOnNl (joinedLines ls) = ls ++ [[]] := by
  have := splitOnNl_joined ls h []
  rwa [List.append_nil] at this

theorem parse_statements_body (impl : FnImpl) (reg : String) :
    ∀ (c : List SubsetOp) (rest : List (List Char)),
      isWfIdent reg = true →
      (∀ op ∈ c, wfSubsetOp op) →
      (∀ op ∈ c, ¬ clearedOutputFlag op) →
      parse_statements impl rest = Except.ok [] →
      parse_statements impl ((c.map (fun s => (lineOf reg s).data)) ++ rest) =
        Except.ok (c.map subsetEmbed) := by
  intro c
  induction c with
  | nil =>
      intro rest _ _ _ hrest
      rw [List.map_nil, List.nil_append, hrest, List.map_nil]
  | cons s cr ih =>
      intro rest hr hwf hout hrest
      rw [List.map_cons, List.cons_append, List.map_cons]
      exact parse_statements_cons_some impl _ _ _ _
        (parse_line_subset impl reg s hr (hwf s (List.mem_cons_self s cr))
          (hout s (List.mem_cons_self s cr)))
        (ih rest hr (fun op h => hwf op (List.mem_cons_of_mem s h))
          (fun op h => hout op (List.mem_cons_of_mem s h)) hrest)

theorem fixed_definitions_v2 :
    fixed_definitions QasmVersion.V2point0 =
      Except.ok (⟨joinedLines fixedDefLines⟩ : String) := by
  rfl

theorem fixedDefLines_ne_nil : fixedDefLines ≠ [] := by
  simp [fixedDefLines]

theorem fixedDefLines_no_nl : ∀ l ∈ fixedDefLines, '\n' ∉ l := by
  intro l hl
  simp only [fixedDefLines, List.mem_cons, List.not_mem_nil, or_false] at hl
  rcases hl with rfl | rfl | rfl | rfl | rfl | rfl | rfl <;> decide

theorem fixedDefLines_skip (impl : FnImpl) :
    ∀ l ∈ fixedDefLines, parse_single_statement impl l = Except.ok none := by
  intro l hl
  simp only [fixedDefLines, List.mem_cons, List.not_mem_nil, or_false] at hl
  rcases hl with rfl | rfl | rfl | rfl | rfl | rfl | rfl <;> rfl

theorem qregLine_no_nl (reg : String) (hr : isWfIdent reg = true) (n : Nat) :
    '\n' ∉ ('q' :: 'r' :: 'e' :: 'g' :: ' ' ::
      (reg.data ++ '[' :: (natChars n ++ [']', ';']))) := by
  have hall : ('q' :: 'r' :: 'e' :: 'g' :: ' ' ::
      (reg.data ++ '[' :: (natChars n ++ [']', ';']))).all
        (fun c => !(c = '\n')) = true := by
    simp [List.all_cons, List.all_append, wfIdent_all_ne_nl reg hr,
      natChars_all_ne_nl]
  exact not_mem_of_all _ _ '\n' hall (by decide)

set_option maxHeartbeats 1600000 in
/-- C1 (amended): for every circuit built from the common instruction
subset — plain gates with canonical concrete parameters, qubit-indexed
measurement into a well-formed register, and bit-register definitions whose
output flag is set — generation under OpenQASM 2.0 succeeds and parsing the
generated text returns exactly the original circuit.  The restriction on
the output flag is necessary: DefinitionBit with a cleared flag breaks the
round trip (see the counterexample). -/
theorem C1_roundtrip (impl : FnImpl) (reg : String) (c : List SubsetOp)
    (hr : isWfIdent reg = true)
    (hwf : ∀ op ∈ c, wfSubsetOp op)
    (hout : ∀ op ∈ c, ¬ clearedOutputFlag op) :
    ∃ s, circuit_iterator_to_qasm_str QasmVersion.V2point0 reg (c.map subsetEmbed) =
        Except.ok s ∧
      string_to_circuit impl s = Except.ok (c.map subsetEmbed) := by
  obtain ⟨ds', nreq', hne', hnl', hskip', hgf⟩ :=
    gen_fold_subset impl reg c ["RotateX", "RotateY", "RotateZ", "CNOT"] 0
      fixedDefLines "" fixedDefLines_ne_nil fixedDefLines_no_nl
      (fixedDefLines_skip impl)
  have hgen : circuit_iterator_to_qasm_str QasmVersion.V2point0 reg
      (c.map subsetEmbed) =
      Except.ok ("OPENQASM 2.0;\n\n" ++ (⟨joinedLines ds'⟩ : String) ++
        qubit_register_declaration QasmVersion.V2point0 reg (nreq' + 1) ++
        genBody reg c) := by
    simp only [circuit_iterator_to_qasm_str]
    rw [fixed_definitions_v2, except_bind_ok]
    rw [hgf, except_bind_ok]
    rw [string_empty_append]
    rfl
  refine ⟨_, hgen, ?_⟩
  have hdata : ((("OPENQASM 2.0;\n\n" ++ (⟨joinedLines ds'⟩ : String) ++
      qubit_register_declaration QasmVersion.V2point0 reg (nreq' + 1) ++
      genBody reg c) ++ "\n")).data =
      joinedLines ("OPENQASM 2.0;".data :: [] :: (ds' ++
        ('q' :: 'r' :: 'e' :: 'g' :: ' ' ::
          (reg.data ++ '[' :: (natChars (nreq' + 1) ++ [']', ';']))) ::
        (c.map (fun s => (lineOf reg s).data) ++ [[]]))) := by
    simp only [String.data_append, genBody_data, qubit_register_declaration,
      natRepr, joinedLines_cons, joinedLines_append, joinedLines_nil,
      List.append_assoc, List.cons_append, List.nil_append, List.append_nil]
  rw [string_to_circuit, hdata]
  have hALLnl : ∀ l ∈ ("OPENQASM 2.0;".data :: [] :: (ds' ++
      ('q' :: 'r' :: 'e' :: 'g' :: ' ' ::
        (reg.data ++ '[' :: (natChars (nreq' + 1) ++ [']', ';']))) ::
      (c.map (fun s => (lineOf reg s).data) ++ [[]]))), '\n' ∉ l := by
    intro l hl
    simp only [List.mem_cons, List.mem_append, List.mem_singleton,
      List.not_mem_nil, or_false] at hl
    rcases hl with rfl | rfl | hl | rfl | hl | rfl
    · decide
    · simp
    · exact hnl' l hl
    · exact qregLine_no_nl reg hr (nreq' + 1)
    · obtain ⟨s, hs, rfl⟩ := List.mem_map.mp hl
      exact lineOf_no_nl reg s hr (hwf s hs)
    · simp
  rw [splitOnNl_joined_nil _ hALLnl]
  have hshape : (("OPENQASM 2.0;".data :: [] :: (ds' ++
      ('q' :: 'r' :: 'e' :: 'g' :: ' ' ::
        (reg.data ++ '[' :: (natChars (nreq' + 1) ++ [']', ';']))) ::
      (c.map (fun s => (lineOf reg s).data) ++ [[]]))) ++ [[]]) =
      (("OPENQASM 2.0;".data :: [] :: ds') ++
        [('q' :: 'r' :: 'e' :: 'g' :: ' ' ::
          (reg.data ++ '[' :: (natChars (nreq' + 1) ++ [']', ';'])))]) ++
      ((c.map (fun s => (lineOf reg s).data)) ++ [[], []]) := by
    simp
  rw [hshape]
  have hskips : ∀ l ∈ (("OPENQASM 2.0;".data :: [] :: ds') ++
      [('q' :: 'r' :: 'e' :: 'g' :: ' ' ::
        (reg.data ++ '[' :: (natChars (nreq' + 1) ++ [']', ';'])))]),
      parse_single_statement impl l = Except.ok none := by
    intro l hl
    simp only [List.mem_append, List.mem_cons, List.mem_singleton,
      List.not_mem_nil, or_false] at hl
    rcases hl with (rfl | rfl | hl) | rfl
    · rfl
    · rfl
    · exact hskip' l hl
    · exact parse_qreg_skip impl _
  rw [parse_statements_skip impl _ _ hskips]
  exact parse_statements_body impl reg c [[], []] hr hwf hout rfl

set_option maxHeartbeats 1600000 in
/-- Witness for C1 at a concrete circuit: a Hadamard on qubit 0 followed by
an output bit-register definition round-trips under OpenQASM 2.0. -/
theorem C1_roundtrip_witness :
    isWfIdent "q" = true ∧
    (∀ op ∈ [SubsetOp.Hadamard 0, SubsetOp.DefinitionBit "ro" 1 true],
      wfSubsetOp op) ∧
    (∀ op ∈ [SubsetOp.Hadamard 0, SubsetOp.DefinitionBit "ro" 1 true],
      ¬ clearedOutputFlag op) ∧
    ∃ s, circuit_iterator_to_qasm_str QasmVersion.V2point0 "q"
        (([SubsetOp.Hadamard 0, SubsetOp.DefinitionBit "ro" 1 true]).map
          subsetEmbed) = Except.ok s ∧
      string_to_circuit zeroFnImpl s =
        Except.ok (([SubsetOp.Hadamard 0,
          SubsetOp.DefinitionBit "ro" 1 true]).map subsetEmbed) :=
  ⟨by decide, by decide, by decide,
    C1_roundtrip zeroFnImpl "q"
      [SubsetOp.Hadamard 0, SubsetOp.DefinitionBit "ro" 1 true]
      (by decide) (by decide) (by decide)⟩

set_option maxHeartbeats 1600000 in
/-- Counterexample to the unamended C1: a circuit whose only operation is a
bit-register definition with a cleared output flag generates text that
parses back with the flag set, so parse of generate differs from the
original circuit. -/
theorem C1_roundtrip_counterexample :
    (match circuit_iterator_to_qasm_str QasmVersion.V2point0 "q"
        nonOutputDefinitionCircuit with
     | Except.ok s => string_to_circuit zeroFnImpl s
     | Except.error _ => Except.error "generation failed") =
      Except.ok [Op.DefinitionBit "ro" 1 true] ∧
    (Except.ok [Op.DefinitionBit "ro" 1 true] : Except String (List Op)) ≠
      Except.ok nonOutputDefinitionCircuit := by
  constructor
  · rfl
  · simp [nonOutputDefinitionCircuit]
